import Mathlib

/-!
# FridgeMate: a shallow embedding of `src/FridgeMate.js`

The JavaScript program keeps two ordered collections in React state (the inventory
items of `useItems` and the custom recipes of `useRecipes`) and derives from them a
ranked recipe list (`generateRecipes`), a selection list (`toggleRecipeSelection`)
and some statistics.

Conventions of the embedding:

* React state is passed explicitly: an operation that calls a `setX` setter returns
  the new value of that state (together with its JavaScript return value, if any).
* A JavaScript object is a structure; a property that may be absent (`undefined`)
  is an `Option`. Text properties hold strings, `ingredients` holds an array of
  strings, ids are numbers (natural numbers here).
* What the program reads from its environment (`Date.now()`, `Math.random()`,
  `new Date()`, the date parser behind `new Date(text)`) is a parameter.
* JavaScript numbers are IEEE-754 doubles. Counts and lengths are exact and are
  done on `Nat`/`Int`; every other computation is modelled with an explicit rounding
  function: `fl` for the match percentage and the day count, `JsNumber` and
  `toDouble` for the quantity texts (`parseFloat`, the quantity step and the
  conversion of a number to text).
* A plain object used as a dictionary is the list of its own properties in creation
  order.
-/

namespace FridgeMate

/-! ## Data model -/

/-- One inventory entry, as built by `addItem` (source lines 92-99). -/
structure Item where
  id : Nat
  name : String
  quantity : String
  expiryDate : String
  category : String
  addedDate : String
deriving DecidableEq, Repr

/-- A recipe record. Every property may be absent: bundled recipes carry no `id`,
and `importRecipes` receives arbitrary parsed records. -/
structure Recipe where
  id : Option Nat
  name : Option String
  description : Option String
  cookingTime : Option String
  ingredients : Option (List String)
  url : Option String
  recipeCategory : Option String
  isCustom : Option Bool
deriving DecidableEq, Repr

/-- A recipe together with the three properties that `generateRecipes` adds to it
(`{...r, matchCount, matchPercentage, hasUrgent}`). -/
structure MatchedRecipe where
  recipe : Recipe
  matchCount : Nat
  matchPercentage : Nat
  hasUrgent : Bool
deriving DecidableEq, Repr

/-- The bundled recipe table, `const RECIPE_DB = []` (source line 9). -/
def RECIPE_DB : List Recipe := []

/-! ## JavaScript truthiness and text helpers -/

/-- Truthiness of a text property: absent and the empty string are falsy. -/
def truthyStr : Option String → Bool
  | none => false
  | some s => s != ""

/-- Truthiness of a numeric property: absent and `0` are falsy. -/
def truthyNum : Option Nat → Bool
  | none => false
  | some n => n != 0

/-- The code points that `String.prototype.trim` removes (ECMAScript WhiteSpace and
LineTerminator). -/
def isJsWhitespace (c : Char) : Bool :=
  let n := c.toNat
  n == 0x09 || n == 0x0A || n == 0x0B || n == 0x0C || n == 0x0D || n == 0x20 ||
  n == 0xA0 || n == 0x1680 || (0x2000 ≤ n && n ≤ 0x200A) || n == 0x2028 ||
  n == 0x2029 || n == 0x202F || n == 0x205F || n == 0x3000 || n == 0xFEFF

/-- The method `String.prototype.trim`. -/
def jsTrim (s : String) : String :=
  String.mk ((s.toList.dropWhile isJsWhitespace).reverse.dropWhile isJsWhitespace).reverse

/-! ## Double-precision arithmetic -/

/-- Round the fraction `a / b` to the nearest natural number, ties to even. -/
def roundHalfEven (a b : Nat) : Nat :=
  let q := a / b
  let r := a % b
  if 2 * r < b then q
  else if b < 2 * r then q + 1
  else if q % 2 = 0 then q else q + 1

/-- Search upwards from `k` for the first `s` with `2 ^ 52 * b ≤ a * 2 ^ s`. -/
def scaleUp (a b : Nat) : Nat → Nat → Nat
  | 0, k => k
  | fuel + 1, k => if 2 ^ 52 * b ≤ a * 2 ^ k then k else scaleUp a b fuel (k + 1)

/-- Search upwards from `k` for the first `t` with `a < 2 ^ 53 * b * 2 ^ t`. -/
def scaleDown (a b : Nat) : Nat → Nat → Nat
  | 0, k => k
  | fuel + 1, k => if a < 2 ^ 53 * b * 2 ^ k then k else scaleDown a b fuel (k + 1)

/-- Round the non-negative rational `a / b` to the nearest number with a 53-bit
significand (round to nearest, ties to even; the exponent range is not bounded).
The rounded value is returned as a fraction `(numerator, denominator)`. -/
def fl (a b : Nat) : Nat × Nat :=
  if a = 0 ∨ b = 0 then (0, 1)
  else if a < 2 ^ 53 * b then
    let s := scaleUp a b (52 + b) 0
    (roundHalfEven (a * 2 ^ s) b, 2 ^ s)
  else
    let t := scaleDown a b a 0
    (roundHalfEven a (b * 2 ^ t) * 2 ^ t, 1)

/-! ## Expiry calculator -/

/-- Milliseconds in a day, `1000 * 60 * 60 * 24`. -/
def msPerDay : Nat := 1000 * 60 * 60 * 24

/-- Round the rational `p / q` to the nearest number with a 53-bit significand: `fl`
on the magnitude, with the sign of `p`. -/
def flSigned (p : Int) (q : Nat) : Int × Nat :=
  let r := fl p.natAbs q
  (if p < 0 then -(r.1 : Int) else (r.1 : Int), r.2)

/-- The function `Math.ceil` on a fraction with a positive denominator. -/
def mathCeil (x : Int × Nat) : Int :=
  -((-x.1) / (x.2 : Int))

/-- The function `getDaysUntilExpiry` (source lines 20-30). `parseDate` stands for
`new Date(text).getTime()` (`none` is the invalid date, `NaN`), `now` for
`new Date()`; both are in milliseconds. The subtraction `expiry - today` and the
division `diff / (1000 * 60 * 60 * 24)` are double operations: each result is the
exact one rounded by `flSigned` (time values have a magnitude of at most
`8.64 * 10 ^ 15`, so no result leaves the range of the normal doubles). -/
def getDaysUntilExpiry (parseDate : String → Option Int) (now : Int) (date : String) : Int :=
  match parseDate date with
  | none => 999
  | some expiry =>
    let diff := flSigned (expiry - now) 1
    mathCeil (flSigned diff.1 (diff.2 * msPerDay))

/-! ## Match percentage -/

/-- The function `Math.round` on a non-negative fraction: the nearest integer, ties
upwards. -/
def mathRound (x : Nat × Nat) : Nat :=
  (2 * x.1 + x.2) / (2 * x.2)

/-- The expression `Math.round((matchCount / ingredientCount) * 100)` (source line
928): a double division, a double multiplication, then `Math.round`. -/
def matchPercentageOf (matchCount ingredientCount : Nat) : Nat :=
  let q := fl matchCount ingredientCount
  mathRound (fl (q.1 * 100) q.2)

/-! ## Matching and ranking: `generateRecipes` -/

/-- The expression `r.ingredients?.length || 1` (source line 922). -/
def ingredientCountOf (r : Recipe) : Nat :=
  match r.ingredients with
  | none => 1
  | some ings => if ings.length = 0 then 1 else ings.length

/-- The expression `r.ingredients?.filter(ing => ingredients.includes(ing)).length || 0`
(source line 923); `ingredients` is the list of item names. -/
def matchCountOf (ingredients : List String) (r : Recipe) : Nat :=
  match r.ingredients with
  | none => 0
  | some ings => (ings.filter (fun ing => ingredients.contains ing)).length

/-- The expression
`r.ingredients?.some(ing => urgentItems.some(item => item.name === ing)) || false`
(source line 924). -/
def hasUrgentOf (urgentItems : List Item) (r : Recipe) : Bool :=
  match r.ingredients with
  | none => false
  | some ings => ings.any (fun ing => urgentItems.any (fun item => item.name == ing))

/-- The callback of `allRecipes.map` in `generateRecipes` (source lines 921-930). -/
def annotate (ingredients : List String) (urgentItems : List Item) (r : Recipe) :
    MatchedRecipe :=
  { recipe := r
    matchCount := matchCountOf ingredients r
    matchPercentage := matchPercentageOf (matchCountOf ingredients r) (ingredientCountOf r)
    hasUrgent := hasUrgentOf urgentItems r }

/-- The comparator passed to `sort` (source lines 931-934). -/
def compareMatched (a b : MatchedRecipe) : Int :=
  if a.hasUrgent != b.hasUrgent then (if a.hasUrgent then -1 else 1)
  else (b.matchCount : Int) - (a.matchCount : Int)

/-- The order induced by the comparator: `a` may stand before `b`. -/
def matchedLE (a b : MatchedRecipe) : Prop := compareMatched a b ≤ 0

instance : DecidableRel matchedLE := fun a b => by
  unfold matchedLE; infer_instance

/-- The method `Array.prototype.sort` with the comparator above. The language
standard requires the sort to be stable; for a consistent comparator its result is
therefore determined, and it is computed here by a stable insertion sort. -/
def sortMatched (l : List MatchedRecipe) : List MatchedRecipe :=
  l.insertionSort matchedLE

/-- The list `urgentItems` of `generateRecipes` (source line 918). -/
def urgentItemsOf (parseDate : String → Option Int) (now : Int) (items : List Item) :
    List Item :=
  items.filter (fun i => decide (getDaysUntilExpiry parseDate now i.expiryDate ≤ 3))

/-- The function `generateRecipes` (source lines 900-941): the value it passes to
`setRecipes`, from the inventory `items` and the custom recipes. -/
def generateRecipes (parseDate : String → Option Int) (now : Int) (items : List Item)
    (customRecipes : List Recipe) : List MatchedRecipe :=
  if items.length = 0 then
    (RECIPE_DB ++ customRecipes).map
      (fun r => { recipe := r, matchCount := 0, matchPercentage := 0, hasUrgent := false })
  else
    let ingredients := items.map (fun i => i.name)
    let urgentItems := urgentItemsOf parseDate now items
    let allRecipes := RECIPE_DB ++ customRecipes
    sortMatched
      ((allRecipes.map (annotate ingredients urgentItems)).filter
        (fun r => decide (r.matchCount > 0)))

/-! ## Recipe selection -/

/-- The predicate used by both `toggleRecipeSelection` and `isRecipeSelected`
(source lines 945, 947, 955), with `r` an already selected entry:
`r.id === recipe.id || (r.name === recipe.name && !r.id && !recipe.id)`. -/
def sameSelection (r recipe : MatchedRecipe) : Bool :=
  r.recipe.id == recipe.recipe.id ||
    (r.recipe.name == recipe.recipe.name && !truthyNum r.recipe.id &&
      !truthyNum recipe.recipe.id)

/-- The function `toggleRecipeSelection` (source lines 943-952): the new value of
`selectedRecipes`. -/
def toggleRecipeSelection (prev : List MatchedRecipe) (recipe : MatchedRecipe) :
    List MatchedRecipe :=
  let isSelected := prev.any (fun r => sameSelection r recipe)
  if isSelected then prev.filter (fun r => !sameSelection r recipe)
  else prev ++ [recipe]

/-- The function `isRecipeSelected` (source lines 954-956). -/
def isRecipeSelected (selectedRecipes : List MatchedRecipe) (recipe : MatchedRecipe) :
    Bool :=
  selectedRecipes.any (fun r => sameSelection r recipe)

/-! ## Recipe store: `importRecipes` -/

/-- The filter callback of `importRecipes` (source lines 130-132):
`r.name && r.description && r.cookingTime && Array.isArray(r.ingredients)`. -/
def isValidImport (r : Recipe) : Bool :=
  truthyStr r.name && truthyStr r.description && truthyStr r.cookingTime &&
    r.ingredients.isSome

/-- The object `{...r, id: newId, isCustom: true}` (source lines 135-139). -/
def stampRecipe (newId : Nat) (r : Recipe) : Recipe :=
  { r with id := some newId, isCustom := some true }

/-- The map callback of `importRecipes` (source lines 135-139) applied from left to
right, with `newId = Date.now() + Math.random()`: the number generated for the
`k`-th accepted record is `freshId k`. -/
def stampImported (freshId : Nat → Nat) : Nat → List Recipe → List Recipe
  | _, [] => []
  | k, r :: rs => stampRecipe (freshId k) r :: stampImported freshId (k + 1) rs

/-- The function `importRecipes` (source lines 129-141): its return value and the new
value of the recipe store. -/
def importRecipes (freshId : Nat → Nat) (recipes importedRecipes : List Recipe) :
    Nat × List Recipe :=
  let validRecipes := importedRecipes.filter isValidImport
  if validRecipes.length = 0 then (0, recipes)
  else (validRecipes.length, recipes ++ stampImported freshId 0 validRecipes)

/-! ## Inventory store: `addItem` -/

/-- The function `addItem` (source lines 87-101): its return value and the new value
of the item list. `dateNow` is `Date.now()` and `today` is
`new Date().toISOString().split('T')[0]`. -/
def addItem (parseDate : String → Option Int) (dateNow : Nat) (today : String)
    (items : List Item) (name quantity expiryDate category : String) :
    Bool × List Item :=
  if name = "" ∨ quantity = "" ∨ expiryDate = "" then (false, items)
  else
    match parseDate expiryDate with
    | none => (false, items)
    | some _ =>
      (true, items ++ [{ id := dateNow, name := jsTrim name, quantity := jsTrim quantity,
                         expiryDate := expiryDate, category := category,
                         addedDate := today }])

/-! ## JavaScript numbers

A number is `NaN`, an infinity, or a finite double. A finite double is kept as the
exact fraction `num / den` in lowest terms, so that equal values are equal terms. -/

/-- A JavaScript number value. -/
inductive JsNumber where
  | nan : JsNumber
  | inf (negative : Bool) : JsNumber
  | fin (num : Int) (den : Nat) : JsNumber
deriving DecidableEq, Repr

/-- The finite number `a / b`, reduced to lowest terms. -/
def mkFin (a b : Nat) : JsNumber :=
  let g := Nat.gcd a b
  if g = 0 then JsNumber.fin 0 1 else JsNumber.fin (Int.ofNat (a / g)) (b / g)

/-- The double nearest to the non-negative rational `a / b` (IEEE-754 binary64, round
to nearest, ties to even): below `2 ^ (-1022)` the result is a multiple of
`2 ^ (-1074)`, a result of `2 ^ 1024` or more is `Infinity`, in between the
significand has 53 bits (`fl`). -/
def toDouble (a b : Nat) : JsNumber :=
  if a = 0 then JsNumber.fin 0 1
  else if a * 2 ^ 1022 < b then mkFin (roundHalfEven (a * 2 ^ 1074) b) (2 ^ 1074)
  else
    let r := fl a b
    if 2 ^ 1024 * r.2 ≤ r.1 then JsNumber.inf false else mkFin r.1 r.2

/-- Unary minus. -/
def jsNeg : JsNumber → JsNumber
  | JsNumber.nan => JsNumber.nan
  | JsNumber.inf s => JsNumber.inf (!s)
  | JsNumber.fin p q => JsNumber.fin (-p) q

/-- The sum `x + d` of a number and an integer `d` (the `delta` of a quantity step):
the exact sum, rounded to a double. -/
def jsAdd (x : JsNumber) (d : Int) : JsNumber :=
  match x with
  | JsNumber.nan => JsNumber.nan
  | JsNumber.inf s => JsNumber.inf s
  | JsNumber.fin p q =>
    let s := p + d * (q : Int)
    if s < 0 then jsNeg (toDouble (-s).toNat q) else toDouble s.toNat q

/-- The call `Math.max(0, x)`. -/
def mathMaxZero : JsNumber → JsNumber
  | JsNumber.nan => JsNumber.nan
  | JsNumber.inf s => if s then JsNumber.fin 0 1 else JsNumber.inf false
  | JsNumber.fin p q => if p < 0 then JsNumber.fin 0 1 else JsNumber.fin p q

/-- The test `x === 0`. -/
def jsIsZero : JsNumber → Bool
  | JsNumber.fin p _ => p == 0
  | _ => false

/-- The function `isNaN` on a number. -/
def jsIsNaN : JsNumber → Bool
  | JsNumber.nan => true
  | _ => false

/-- The test `x < 0`. -/
def jsLtZero : JsNumber → Bool
  | JsNumber.nan => false
  | JsNumber.inf s => s
  | JsNumber.fin p _ => decide (p < 0)

/-- The expression `x || 0`: `NaN` and zero are falsy. -/
def jsOrZero : JsNumber → JsNumber
  | JsNumber.nan => JsNumber.fin 0 1
  | JsNumber.inf s => JsNumber.inf s
  | JsNumber.fin p q => if p = 0 then JsNumber.fin 0 1 else JsNumber.fin p q

/-- The number is neither `NaN` nor negative. -/
def JsNumber.NonNeg : JsNumber → Prop
  | JsNumber.nan => False
  | JsNumber.inf s => s = false
  | JsNumber.fin p _ => 0 ≤ p

/-! ## Decimal text of a number: `parseFloat` and `Number::toString` -/

/-- The value of a string of decimal digits. -/
def digitsValue (cs : List Char) : Nat :=
  cs.foldl (fun acc c => 10 * acc + (c.toNat - 48)) 0

/-- The function `parseFloat` on a text made of digits and dots (the only texts that
the first group of the quantity pattern can hold): the longest leading decimal
literal `digits`, `digits.digits`, `digits.` or `.digits` is read and rounded to a
double; without one the result is `NaN`. -/
def parseFloat (cs : List Char) : JsNumber :=
  let d1 := cs.takeWhile Char.isDigit
  let rest := cs.dropWhile Char.isDigit
  let d2 := match rest with
    | '.' :: tl => tl.takeWhile Char.isDigit
    | _ => []
  if d1 = [] ∧ d2 = [] then JsNumber.nan
  else toDouble (digitsValue (d1 ++ d2)) (10 ^ d2.length)

/-- Search upwards from `n` for the first `n` with `a < 10 ^ n * b`. -/
def decimalExponentUp (a b : Nat) : Nat → Nat → Nat
  | 0, n => n
  | fuel + 1, n => if a < 10 ^ n * b then n else decimalExponentUp a b fuel (n + 1)

/-- Search upwards from `j` for the first `j` with `b ≤ a * 10 ^ j`. -/
def decimalExponentDown (a b : Nat) : Nat → Nat → Nat
  | 0, j => j
  | fuel + 1, j => if b ≤ a * 10 ^ j then j else decimalExponentDown a b fuel (j + 1)

/-- The integer `n` with `10 ^ (n - 1) ≤ a / b < 10 ^ n`, for a positive `a / b`. -/
def decimalExponent (a b : Nat) : Int :=
  if b ≤ a then Int.ofNat (decimalExponentUp a b (a + 1) 1)
  else 1 - Int.ofNat (decimalExponentDown a b (b + 1) 1)

/-- Whether the decimal `s * 10 ^ (n - k)` rounds to the double `a / b`. -/
def roundsTo (a b s : Nat) (n : Int) (k : Nat) : Bool :=
  let e := n - (k : Int)
  (if 0 ≤ e then toDouble (s * 10 ^ e.toNat) 1 else toDouble s (10 ^ (-e).toNat)) == mkFin a b

/-- The decimal with `k` significant digits that rounds to the double `a / b`, if
there is one: of the two `k`-digit decimals around `a / b` the nearer one that rounds
to it (the even one on a tie). The result is the pair `(s, n)` of the digits `s`,
with `10 ^ (k - 1) ≤ s < 10 ^ k`, and the exponent `n`: the decimal is
`s * 10 ^ (n - k)`. -/
def shortestAt (a b : Nat) (n0 : Int) (k : Nat) : Option (Nat × Int) :=
  let e := (k : Int) - n0
  let A := if 0 ≤ e then a * 10 ^ e.toNat else a
  let B := if 0 ≤ e then b else b * 10 ^ (-e).toNat
  let sL := A / B
  let r := A % B
  if r = 0 then some (sL, n0)
  else
    let up : Nat × Int := if sL + 1 = 10 ^ k then (10 ^ (k - 1), n0 + 1) else (sL + 1, n0)
    let lowOk := roundsTo a b sL n0 k
    let upOk := roundsTo a b up.1 up.2 k
    if lowOk && upOk then
      (if 2 * r < B then some (sL, n0)
       else if B < 2 * r then some up
       else if sL % 2 = 0 then some (sL, n0) else some up)
    else if lowOk then some (sL, n0)
    else if upOk then some up
    else none

/-- The shortest digit string that rounds to the double `a / b`: the first `k` from
`k` upwards for which `shortestAt` finds a decimal. -/
def shortestDigits (a b : Nat) (n0 : Int) : Nat → Nat → Nat × Int
  | 0, _ => (0, 0)
  | fuel + 1, k =>
    match shortestAt a b n0 k with
    | some r => r
    | none => shortestDigits a b n0 fuel (k + 1)

/-- The text of a number given by its digit string `ds` and exponent `n`
(steps 6 to 10 of `Number::toString`). -/
def formatDecimal (ds : List Char) (n : Int) : List Char :=
  let k := ds.length
  if (k : Int) ≤ n ∧ n ≤ 21 then ds ++ List.replicate (n.toNat - k) '0'
  else if 0 < n ∧ n ≤ 21 then ds.take n.toNat ++ '.' :: ds.drop n.toNat
  else if -6 < n ∧ n ≤ 0 then '0' :: '.' :: (List.replicate (-n).toNat '0' ++ ds)
  else
    let e := n - 1
    let sign := if e < 0 then '-' else '+'
    if k = 1 then ds ++ 'e' :: sign :: Nat.toDigits 10 e.natAbs
    else ds.take 1 ++ '.' :: (ds.drop 1 ++ 'e' :: sign :: Nat.toDigits 10 e.natAbs)

/-- The text of the positive double `a / b` by the general rule of
`Number::toString`: the shortest digit string that rounds to it, laid out by
`formatDecimal`. -/
def shortestToString (a b : Nat) : String :=
  let r := shortestDigits a b (decimalExponent a b) 800 1
  String.mk (formatDecimal (Nat.toDigits 10 r.1) r.2)

/-- The text of the positive double `a / b` (in lowest terms). An integer up to
`2 ^ 53` is its own shortest decimal, so its text is its decimal numeral; every
other double goes through the general rule. -/
def positiveToString (a b : Nat) : String :=
  if b = 1 ∧ a ≤ 2 ^ 53 then String.mk (Nat.toDigits 10 a)
  else shortestToString a b

/-- The conversion of a number to a string (`Number::toString`, radix 10), as done
by a template literal. -/
def numberToString : JsNumber → String
  | JsNumber.nan => "NaN"
  | JsNumber.inf s => if s then "-Infinity" else "Infinity"
  | JsNumber.fin p q =>
    if p = 0 then "0"
    else if p < 0 then "-" ++ positiveToString p.natAbs q
    else positiveToString p.natAbs q

/-! ## Quantity model: `parseQuantity`, `formatQuantity` and the quantity edits -/

/-- The characters that `.` of a pattern does not match (LineTerminator). -/
def isLineTerminator (c : Char) : Bool :=
  c.toNat == 0x0A || c.toNat == 0x0D || c.toNat == 0x2028 || c.toNat == 0x2029

/-- The class `[\d.]` of the quantity pattern. -/
def isDigitOrDot (c : Char) : Bool :=
  c.isDigit || c == '.'

/-- The match of the pattern `/^([\d.]+)\s*(.*)$/` (source line 42): its two groups,
or `none` when the text does not match. The first group is the longest run of digits
and dots at the start and must not be empty; `\s*` then takes all white space; the
second group is the rest, which must reach the end of the text and so must hold no
line terminator. Giving back characters of the first group or of the white space
never turns a failed match into a match, because the rest would still have to be
matched by `.*`. -/
def matchQuantity (cs : List Char) : Option (List Char × List Char) :=
  let g1 := cs.takeWhile isDigitOrDot
  let g2 := (cs.dropWhile isDigitOrDot).dropWhile isJsWhitespace
  if g1 = [] ∨ g2.any isLineTerminator then none else some (g1, g2)

/-- The object `{ number, unit }` returned by `parseQuantity`. -/
structure Quantity where
  number : JsNumber
  unit : String
deriving DecidableEq, Repr

/-- The function `parseQuantity` (source lines 41-45). -/
def parseQuantity (quantityStr : String) : Quantity :=
  match matchQuantity quantityStr.toList with
  | some (g1, g2) => { number := jsOrZero (parseFloat g1), unit := jsTrim (String.mk g2) }
  | none => { number := JsNumber.fin 0 1, unit := "" }

/-- The function `formatQuantity` (source lines 47-50). -/
def formatQuantity (number : JsNumber) (unit : String) : String :=
  if jsIsZero number then (if unit != "" then "0" ++ unit else "0")
  else (if unit != "" then numberToString number ++ unit else numberToString number)

/-- The function `updateItemQuantity` (source lines 107-109): the new item list. -/
def updateItemQuantity (items : List Item) (id : Nat) (newQuantity : String) : List Item :=
  items.map (fun item => if item.id = id then { item with quantity := newQuantity } else item)

/-- The text `newQuantity` computed by `handleQuantityChange` (source lines 866-868)
from the stored quantity text and `delta`. -/
def newQuantityOf (quantity : String) (delta : Int) : String :=
  let q := parseQuantity quantity
  let newNumber := mathMaxZero (jsAdd q.number delta)
  formatQuantity newNumber q.unit

/-- The function `handleQuantityChange` (source lines 865-870): the new item list. -/
def handleQuantityChange (items : List Item) (item : Item) (delta : Int) : List Item :=
  updateItemQuantity items item.id (newQuantityOf item.quantity delta)

/-- The state that `saveQuantity` reads and writes. -/
structure EditState where
  items : List Item
  editingItemId : Option Nat
  editingQuantity : String
deriving DecidableEq, Repr

/-- The function `saveQuantity` (source lines 877-893). The result says whether the
alert was shown (the entry was rejected) and gives the new state. With an `item`
argument the function only opens the editor (`startEditQuantity`). -/
def saveQuantity (st : EditState) (id : Nat) (item : Option Item) : Bool × EditState :=
  match item with
  | some it => (false, { st with editingItemId := some it.id, editingQuantity := it.quantity })
  | none =>
    let trimmed := jsTrim st.editingQuantity
    if trimmed != "" then
      let number := (parseQuantity trimmed).number
      if jsIsNaN number || jsLtZero number then (true, st)
      else (false, { items := updateItemQuantity st.items id trimmed,
                     editingItemId := none, editingQuantity := "" })
    else (false, { st with editingItemId := none, editingQuantity := "" })

/-! ## Expiry status and statistics -/

/-- The object returned by `getExpiryStatus`. -/
structure ExpiryStatus where
  text : String
  color : String
  bg : String
  darkBg : String
  darkTextColor : String
deriving DecidableEq, Repr

/-- The function `getExpiryStatus` (source lines 32-39). -/
def getExpiryStatus (parseDate : String → Option Int) (now : Int) (date : String) :
    ExpiryStatus :=
  let days := getDaysUntilExpiry parseDate now date
  if days < 0 then
    { text := "유통기한 만료", color := "text-red-600", bg := "bg-red-50",
      darkBg := "bg-red-950", darkTextColor := "text-red-200" }
  else if days = 0 then
    { text := "오늘 만료", color := "text-red-500", bg := "bg-red-50",
      darkBg := "bg-red-950", darkTextColor := "text-red-200" }
  else if days ≤ 3 then
    { text := numberToString (JsNumber.fin days 1) ++ "일 남음", color := "text-orange-600",
      bg := "bg-orange-50", darkBg := "bg-orange-950", darkTextColor := "text-orange-200" }
  else if days ≤ 7 then
    { text := numberToString (JsNumber.fin days 1) ++ "일 남음", color := "text-yellow-600",
      bg := "bg-yellow-50", darkBg := "bg-yellow-950", darkTextColor := "text-yellow-200" }
  else
    { text := numberToString (JsNumber.fin days 1) ++ "일 남음", color := "text-green-600",
      bg := "bg-green-50", darkBg := "bg-green-950", darkTextColor := "text-green-200" }

/-- The object `expiryStats` (source lines 1005-1020); its five properties are
`'만료'`, `'3일 이내'`, `'1주일 이내'`, `'1개월 이내'` and `'1개월 이상'`. -/
structure ExpiryStats where
  expired : Nat
  within3Days : Nat
  withinWeek : Nat
  withinMonth : Nat
  beyondMonth : Nat
deriving DecidableEq, Repr

/-- The computation of `expiryStats` (source lines 1005-1020). -/
def expiryStats (parseDate : String → Option Int) (now : Int) (items : List Item) :
    ExpiryStats :=
  { expired :=
      (items.filter (fun i => decide (getDaysUntilExpiry parseDate now i.expiryDate < 0))).length
    within3Days :=
      (items.filter (fun i =>
        let days := getDaysUntilExpiry parseDate now i.expiryDate
        decide (days ≥ 0) && decide (days ≤ 3))).length
    withinWeek :=
      (items.filter (fun i =>
        let days := getDaysUntilExpiry parseDate now i.expiryDate
        decide (days > 3) && decide (days ≤ 7))).length
    withinMonth :=
      (items.filter (fun i =>
        let days := getDaysUntilExpiry parseDate now i.expiryDate
        decide (days > 7) && decide (days ≤ 30))).length
    beyondMonth :=
      (items.filter (fun i => decide (getDaysUntilExpiry parseDate now i.expiryDate > 30))).length }

/-- The assignment `acc[key] = v` on a plain object that holds numbers, given as the
list of its own properties in creation order. An existing property is overwritten, a
new one is added at the end; the key `__proto__` is the accessor inherited from
`Object.prototype`, whose setter ignores a value that is not an object, so no
property is created. -/
def objSet (o : List (String × Nat)) (key : String) (v : Nat) : List (String × Nat) :=
  if key = "__proto__" then o
  else if o.any (fun kv => kv.1 == key) then
    o.map (fun kv => if kv.1 = key then (key, v) else kv)
  else o ++ [(key, v)]

/-- The own property `key` of the object, if there is one. -/
def objGet (o : List (String × Nat)) (key : String) : Option Nat :=
  (o.find? (fun kv => kv.1 == key)).map (fun kv => kv.2)

/-- The computation of `categoryStats` (source lines 1000-1003): a `reduce` over the
categories that starts from the empty object. -/
def categoryStats (items : List Item) (categories : List String) : List (String × Nat) :=
  categories.foldl
    (fun acc cat => objSet acc cat (items.filter (fun i => i.category == cat)).length) []

/-! ## Food categories -/

/-- The function `handleDeleteCategory` (source lines 962-968): the new values of
`categories` and of the selected `category` (`newCats[0]` is `undefined` when
nothing is left). -/
def handleDeleteCategory (categories : List String) (category : Option String)
    (cat : String) : List String × Option String :=
  if categories.length > 1 then
    let newCats := categories.filter (fun c => c != cat)
    (newCats, if category = some cat then newCats.head? else category)
  else (categories, category)

/-! ## Descriptions used to state the properties -/

/-- Some ingredient of the recipe is the name of some item. -/
def holdsIngredient (items : List Item) (r : Recipe) : Prop :=
  ∃ ings, r.ingredients = some ings ∧ ∃ ing ∈ ings, ∃ i ∈ items, i.name = ing

/-- As the specification words it: the number of entries of the ingredient sequence,
repeated entries counted, that are the name of some item. -/
def specMatchCount (items : List Item) (r : Recipe) : Nat :=
  match r.ingredients with
  | none => 0
  | some ings => ings.countP (fun ing => decide (∃ i ∈ items, i.name = ing))

/-- As the specification words it: the length of the ingredient sequence, or 1 when
the sequence is empty or absent. -/
def specIngredientCount (r : Recipe) : Nat :=
  match r.ingredients with
  | none => 1
  | some [] => 1
  | some (ing :: ings) => (ing :: ings).length

/-- The list that `generateRecipes` sorts: every recipe annotated, those without a
match removed, still in input order. -/
def matchedInput (parseDate : String → Option Int) (now : Int) (items : List Item)
    (customRecipes : List Recipe) : List MatchedRecipe :=
  ((RECIPE_DB ++ customRecipes).map
      (annotate (items.map (fun i => i.name)) (urgentItemsOf parseDate now items))).filter
    (fun r => decide (r.matchCount > 0))


/-! ## Sample data -/

/-- A date parser that knows three dates, in milliseconds since the epoch. -/
def sampleParse (s : String) : Option Int :=
  if s = "1970-01-03" then some 172800000
  else if s = "1970-01-01" then some 0
  else if s = "1970-02-01" then some 2678400000
  else none

/-- An egg that expires in two days (taking the current instant to be `0`). -/
def eggItem : Item :=
  { id := 1, name := "egg", quantity := "2개", expiryDate := "1970-01-03",
    category := "기타", addedDate := "1970-01-01" }

/-- The recipe Omelet(egg, milk). -/
def omelet : Recipe :=
  { id := some 11, name := some "Omelet", description := some "d", cookingTime := some "10분",
    ingredients := some ["egg", "milk"], url := some "", recipeCategory := some "양식",
    isCustom := some true }

/-- The recipe Toast(bread). -/
def toast : Recipe :=
  { id := some 12, name := some "Toast", description := some "d", cookingTime := some "5분",
    ingredients := some ["bread"], url := some "", recipeCategory := some "양식",
    isCustom := some true }

/-- Milk that expires in a month. -/
def milkItem : Item :=
  { id := 2, name := "milk", quantity := "1L", expiryDate := "1970-02-01",
    category := "유제품", addedDate := "1970-01-01" }

/-- The recipe MilkToast(bread, milk). -/
def milkToast : Recipe :=
  { id := some 13, name := some "MilkToast", description := some "d",
    cookingTime := some "5분", ingredients := some ["bread", "milk"], url := some "",
    recipeCategory := some "양식", isCustom := some true }

/-- The recipe EggToast(egg, bread). -/
def eggToast : Recipe :=
  { id := some 14, name := some "EggToast", description := some "d",
    cookingTime := some "5분", ingredients := some ["egg", "bread"], url := some "",
    recipeCategory := some "양식", isCustom := some true }

/-- The recipe Latte(milk, coffee). -/
def latte : Recipe :=
  { id := some 15, name := some "Latte", description := some "d",
    cookingTime := some "3분", ingredients := some ["milk", "coffee"], url := some "",
    recipeCategory := some "디저트", isCustom := some true }

/-- An import record whose `ingredients` is the empty array. -/
def emptyIngredientsCandidate : Recipe :=
  { id := none, name := some "A", description := some "d", cookingTime := some "10분",
    ingredients := some [], url := none, recipeCategory := none, isCustom := none }

/-- The import record `{name: "A", description: "d", cookingTime: "10분",
ingredients: ["egg"]}`. -/
def candidateA : Recipe :=
  { id := none, name := some "A", description := some "d", cookingTime := some "10분",
    ingredients := some ["egg"], url := none, recipeCategory := none, isCustom := none }

/-- The import record `{name: ""}`. -/
def emptyNameCandidate : Recipe :=
  { id := none, name := some "", description := none, cookingTime := none,
    ingredients := none, url := none, recipeCategory := none, isCustom := none }

/-- A bundled recipe named A, without an id, as listed by `generateRecipes`. -/
def bundledA : MatchedRecipe :=
  { recipe := { id := none, name := some "A", description := some "d",
                cookingTime := some "10분", ingredients := some ["egg"], url := some "",
                recipeCategory := some "한식", isCustom := none },
    matchCount := 1, matchPercentage := 100, hasUrgent := false }

/-- A bundled recipe named B, without an id, as listed by `generateRecipes`. -/
def bundledB : MatchedRecipe :=
  { recipe := { id := none, name := some "B", description := some "d",
                cookingTime := some "10분", ingredients := some ["egg"], url := some "",
                recipeCategory := some "한식", isCustom := none },
    matchCount := 1, matchPercentage := 100, hasUrgent := false }

/-- An item with the quantity text "2개", for the quantity edits. -/
def riceItem : Item :=
  { id := 3, name := "rice", quantity := "2개", expiryDate := "1970-02-01",
    category := "기타", addedDate := "1970-01-01" }

/-! ## Food categories: adding -/

/-- The default food categories, `DEFAULT_CATEGORIES` (source line 5). -/
def DEFAULT_CATEGORIES : List String := ["채소", "과일", "육류", "유제품", "기타"]

/-- The function `handleAddCategory` (source lines 958-960): the new category list. -/
def handleAddCategory (categories : List String) (cat : String) : List String :=
  categories ++ [cat]

/-- The function `CategoryManager.handleAdd` (source lines 239-244) with
`onAddCategory = handleAddCategory`: the new category list for the text `newCategory`
of the input field. -/
def handleAdd (categories : List String) (newCategory : String) : List String :=
  if jsTrim newCategory != "" && !categories.contains (jsTrim newCategory) then
    handleAddCategory categories (jsTrim newCategory)
  else categories

/-- One user action on the food categories. -/
inductive CategoryAction where
  | add (newCategory : String) : CategoryAction
  | delete (cat : String) : CategoryAction
deriving DecidableEq, Repr

/-- The effect of one action on the pair of the category list and the selected
category. -/
def applyCategoryAction (st : List String × Option String) :
    CategoryAction → List String × Option String
  | CategoryAction.add newCategory => (handleAdd st.1 newCategory, st.2)
  | CategoryAction.delete cat => handleDeleteCategory st.1 st.2 cat

/-- The state after a sequence of actions that starts from the default categories,
with the first of them selected (`categories[0] || '기타'`, source line 828). -/
def runCategoryActions (actions : List CategoryAction) : List String × Option String :=
  actions.foldl applyCategoryAction (DEFAULT_CATEGORIES, some "채소")

/-! ## Recipe store: `updateRecipe`, `deleteRecipe`; inventory store: `deleteItem` -/

/-- The object `{...r, ...updatedRecipe}`: a property that the patch holds replaces
the one of `r`. -/
def mergeRecipe (r updatedRecipe : Recipe) : Recipe :=
  { id := updatedRecipe.id.orElse (fun _ => r.id)
    name := updatedRecipe.name.orElse (fun _ => r.name)
    description := updatedRecipe.description.orElse (fun _ => r.description)
    cookingTime := updatedRecipe.cookingTime.orElse (fun _ => r.cookingTime)
    ingredients := updatedRecipe.ingredients.orElse (fun _ => r.ingredients)
    url := updatedRecipe.url.orElse (fun _ => r.url)
    recipeCategory := updatedRecipe.recipeCategory.orElse (fun _ => r.recipeCategory)
    isCustom := updatedRecipe.isCustom.orElse (fun _ => r.isCustom) }

/-- The function `updateRecipe` (source lines 121-123): the new recipe store. -/
def updateRecipe (recipes : List Recipe) (id : Option Nat) (updatedRecipe : Recipe) :
    List Recipe :=
  recipes.map (fun r => if r.id = id then mergeRecipe r updatedRecipe else r)

/-- The function `deleteRecipe` (source lines 125-127): the new recipe store. -/
def deleteRecipe (recipes : List Recipe) (id : Option Nat) : List Recipe :=
  recipes.filter (fun r => r.id != id)

/-- The function `deleteItem` (source lines 103-105): the new item list. -/
def deleteItem (items : List Item) (id : Nat) : List Item :=
  items.filter (fun item => item.id != id)

/-! ## Export and import of the custom recipes

The export renders the recipe store as JSON text (`JSON.stringify`) and the import
parses such a text (`JSON.parse`). The text itself is not modelled: a document is
given by the JSON value it denotes, which `JSON.parse` gives back from the text that
`JSON.stringify` writes. -/

/-- A JSON value. -/
inductive Json where
  | null : Json
  | bool (b : Bool) : Json
  | num (n : Nat) : Json
  | str (s : String) : Json
  | arr (elems : List Json) : Json
  | obj (props : List (String × Json)) : Json

/-- The property `key` of a record, written only when the record holds it. -/
def optProp (key : String) : Option Json → List (String × Json)
  | some v => [(key, v)]
  | none => []

/-- The JSON value of a recipe record: its properties, in the order in which
`addRecipe` creates them. -/
def recipeToJson (r : Recipe) : Json :=
  Json.obj
    (optProp "name" (r.name.map Json.str) ++
     optProp "description" (r.description.map Json.str) ++
     optProp "cookingTime" (r.cookingTime.map Json.str) ++
     optProp "ingredients" (r.ingredients.map (fun ings => Json.arr (ings.map Json.str))) ++
     optProp "url" (r.url.map Json.str) ++
     optProp "recipeCategory" (r.recipeCategory.map Json.str) ++
     optProp "id" (r.id.map Json.num) ++
     optProp "isCustom" (r.isCustom.map Json.bool))

/-- The value that `handleExportRecipes` (source lines 970-973) renders as text:
`JSON.stringify(customRecipes, null, 2)`. -/
def handleExportRecipes (customRecipes : List Recipe) : Json :=
  Json.arr (customRecipes.map recipeToJson)

/-- The property `key` of a JSON object. -/
def jsonProp (props : List (String × Json)) (key : String) : Option Json :=
  (props.find? (fun kv => kv.1 == key)).map (fun kv => kv.2)

/-- A text property, as far as the value is a string. -/
def jsonStr : Option Json → Option String
  | some (Json.str s) => some s
  | _ => none

/-- A numeric property, as far as the value is a number. -/
def jsonNum : Option Json → Option Nat
  | some (Json.num n) => some n
  | _ => none

/-- A boolean property, as far as the value is a boolean. -/
def jsonBool : Option Json → Option Bool
  | some (Json.bool b) => some b
  | _ => none

/-- The string elements of an array property. -/
def jsonStrings : Option Json → Option (List String)
  | some (Json.arr elems) =>
    some (elems.filterMap (fun e => match e with
      | Json.str s => some s
      | _ => none))
  | _ => none

/-- The recipe record that a parsed JSON object is, within the typed records of this
embedding (a property whose value has another type than the record field is read
as absent). -/
def recipeOfJson : Json → Recipe
  | Json.obj props =>
    { id := jsonNum (jsonProp props "id")
      name := jsonStr (jsonProp props "name")
      description := jsonStr (jsonProp props "description")
      cookingTime := jsonStr (jsonProp props "cookingTime")
      ingredients := jsonStrings (jsonProp props "ingredients")
      url := jsonStr (jsonProp props "url")
      recipeCategory := jsonStr (jsonProp props "recipeCategory")
      isCustom := jsonBool (jsonProp props "isCustom") }
  | _ =>
    { id := none, name := none, description := none, cookingTime := none,
      ingredients := none, url := none, recipeCategory := none, isCustom := none }

/-- The value is `null`. -/
def isJsonNull : Json → Bool
  | Json.null => true
  | _ => false

/-- The function `handleImport` (source lines 453-477) on a parsed document: when the
document is an array (`Array.isArray(imported)`) its records go to `importRecipes`
and the result is the count with the new store; otherwise nothing is imported
(`none`, the alert for a wrong file format). Nothing is imported either when an
element of the array is `null`: the filter of `importRecipes` then throws on
`r.name` before the store is set, and the `catch` shows the alert for a read
error. -/
def handleImport (freshId : Nat → Nat) (recipes : List Recipe) (imported : Json) :
    Option (Nat × List Recipe) :=
  match imported with
  | Json.arr elems =>
    if elems.any isJsonNull then none
    else some (importRecipes freshId recipes (elems.map recipeOfJson))
  | _ => none

/-! ## Browsing all recipes and the item list -/

/-- The method `String.prototype.includes`: `q` occurs in `s`. -/
def jsIncludes (s q : String) : Bool :=
  decide (q.toList <:+: s.toList)

/-- The search test of the all-recipes list for one recipe (source lines 1426-1430).
`toLowerCase` is the case mapping of the language. The result is `none` when the
test throws: `r.name.toLowerCase()` on a recipe without a name, or
`r.description.toLowerCase()` when the description is reached and absent. -/
def matchesRecipeSearch (toLowerCase : String → String) (allRecipesSearch : String)
    (r : Recipe) : Option Bool :=
  match r.name with
  | none => none
  | some name =>
    if jsIncludes (toLowerCase name) (toLowerCase allRecipesSearch) then some true
    else
      match r.description with
      | none => none
      | some description =>
        if jsIncludes (toLowerCase description) (toLowerCase allRecipesSearch) then some true
        else
          match r.ingredients with
          | none => some false
          | some ings =>
            some (ings.any (fun ing =>
              jsIncludes (toLowerCase ing) (toLowerCase allRecipesSearch)))

/-- The first `filter` of the all-recipes list (source lines 1425-1430); `none` when
the test throws for some recipe. -/
def filterRecipeSearch (toLowerCase : String → String) (allRecipesSearch : String) :
    List Recipe → Option (List Recipe)
  | [] => some []
  | r :: rs =>
    match matchesRecipeSearch toLowerCase allRecipesSearch r with
    | none => none
    | some keep =>
      match filterRecipeSearch toLowerCase allRecipesSearch rs with
      | none => none
      | some rest => some (if keep then r :: rest else rest)

/-- The callback of `map` in the all-recipes list (source lines 1432-1441). -/
def annotateBrowse (items : List Item) (r : Recipe) : MatchedRecipe :=
  let ingredientCount := ingredientCountOf r
  let matchCount :=
    if items.length > 0 then
      (match r.ingredients with
       | none => 0
       | some ings =>
         (ings.filter (fun ing => items.any (fun item => item.name == ing))).length)
    else 0
  { recipe := r
    matchCount := matchCount
    matchPercentage := matchPercentageOf matchCount ingredientCount
    hasUrgent := false }

/-- The list `filteredRecipes` of the all-recipes view (source lines 1423-1441), from
the item list, the custom recipes, the search text and the category filter; `none`
when the search test throws. -/
def browseAll (toLowerCase : String → String) (items : List Item)
    (customRecipes : List Recipe) (allRecipesSearch allRecipesFilter : String) :
    Option (List MatchedRecipe) :=
  match filterRecipeSearch toLowerCase allRecipesSearch (RECIPE_DB ++ customRecipes) with
  | none => none
  | some found =>
    some ((found.filter (fun r =>
        allRecipesFilter == "전체" ||
          (if truthyStr r.recipeCategory then r.recipeCategory else some "기타") ==
            some allRecipesFilter)).map (annotateBrowse items))

/-- The comparator of `sortedItems` (source line 986). -/
def compareItems (parseDate : String → Option Int) (now : Int) (a b : Item) : Int :=
  getDaysUntilExpiry parseDate now a.expiryDate - getDaysUntilExpiry parseDate now b.expiryDate

/-- The order induced by the comparator: `a` may stand before `b`. -/
def itemLE (parseDate : String → Option Int) (now : Int) (a b : Item) : Prop :=
  compareItems parseDate now a b ≤ 0

instance (parseDate : String → Option Int) (now : Int) : DecidableRel (itemLE parseDate now) :=
  fun a b => by
    unfold itemLE; infer_instance

/-- The list `sortedItems` (source line 986): a copy of the items in the order of the
stable sort with the comparator above. -/
def sortedItems (parseDate : String → Option Int) (now : Int) (items : List Item) :
    List Item :=
  items.insertionSort (itemLE parseDate now)

/-- The callback of `filter` in `filteredItems` (source lines 988-998). -/
def showsItem (toLowerCase : String → String) (parseDate : String → Option Int) (now : Int)
    (searchQuery expiryFilter : String) (item : Item) : Bool :=
  let isMatch := jsIncludes (toLowerCase item.name) (toLowerCase searchQuery)
  if expiryFilter = "전체" then isMatch
  else
    let days := getDaysUntilExpiry parseDate now item.expiryDate
    if expiryFilter = "만료" then isMatch && decide (days < 0)
    else if expiryFilter = "3일" then isMatch && decide (days ≥ 0) && decide (days ≤ 3)
    else if expiryFilter = "1주일" then isMatch && decide (days ≥ 0) && decide (days ≤ 7)
    else if expiryFilter = "1개월" then isMatch && decide (days ≥ 0) && decide (days ≤ 30)
    else if expiryFilter = "1개월+" then isMatch && decide (days > 30)
    else isMatch

/-- The list `filteredItems` (source lines 988-998). -/
def filteredItems (toLowerCase : String → String) (parseDate : String → Option Int)
    (now : Int) (items : List Item) (searchQuery expiryFilter : String) : List Item :=
  (sortedItems parseDate now items).filter
    (showsItem toLowerCase parseDate now searchQuery expiryFilter)

/-! ## Sample data for the store operations and the views -/

/-- An ASCII case mapping, standing in for `toLowerCase` on sample texts. -/
def asciiLower (s : String) : String :=
  String.mk (s.toList.map Char.toLower)

/-- An item whose expiry date does not parse. -/
def brokenItem : Item :=
  { id := 4, name := "jam", quantity := "1병", expiryDate := "soon",
    category := "기타", addedDate := "1970-01-01" }

/-- An item that expires 2000 days after the instant 0. -/
def cannedItem : Item :=
  { id := 5, name := "canned tuna", quantity := "3캔", expiryDate := "1975-06-24",
    category := "기타", addedDate := "1970-01-01" }

/-- A date parser that knows the sample dates, in milliseconds since the epoch. -/
def sampleParse2 (s : String) : Option Int :=
  if s = "1975-06-24" then some 172800000000 else sampleParse s

/-- A patch as the recipe form builds it: no `id`, no `isCustom`. -/
def formPatch : Recipe :=
  { id := none, name := some "Omelet 2", description := some "d2", cookingTime := some "15분",
    ingredients := some ["egg", "cheese"], url := some "", recipeCategory := some "양식",
    isCustom := none }

/-- A patch that carries an `id`. -/
def idPatch : Recipe :=
  { id := some 99, name := some "X", description := none, cookingTime := none,
    ingredients := none, url := none, recipeCategory := none, isCustom := none }

/-- A date parser that knows the text of the latest instant a date can hold. -/
def sampleParseFar (s : String) : Option Int :=
  if s = "+275760-09-13T00:00:00.000Z" then some 8640000000000000 else none

/-- A recipe with 40 ingredients, 23 of them eggs. -/
def fortyIngredients : Recipe :=
  { id := some 13, name := some "Feast", description := some "d", cookingTime := some "3시간",
    ingredients := some (List.replicate 23 "egg" ++ List.replicate 17 "truffle"),
    url := some "", recipeCategory := some "양식", isCustom := some true }

/-! ## Lemmas on the rounding functions -/

theorem roundHalfEven_near (a b : Nat) (hb : 0 < b) :
    2 * (roundHalfEven a b * b) ≤ 2 * a + b ∧ 2 * a ≤ 2 * (roundHalfEven a b * b) + b := by
  have hdm : b * (a / b) + a % b = a := Nat.div_add_mod a b
  have hlt : a % b < b := Nat.mod_lt a hb
  have hmul : (a / b + 1) * b = b * (a / b) + b := by ring
  have hmul0 : (a / b) * b = b * (a / b) := by ring
  unfold roundHalfEven
  simp only []
  split_ifs <;> (first | rw [hmul] | rw [hmul0]) <;> omega

theorem scaleUp_spec (a b : Nat) (fuel k : Nat) (h : 2 ^ 52 * b ≤ a * 2 ^ (k + fuel)) :
    2 ^ 52 * b ≤ a * 2 ^ (scaleUp a b fuel k) := by
  induction fuel generalizing k with
  | zero => simpa [scaleUp] using h
  | succ f ih =>
    unfold scaleUp
    split_ifs with hc
    · exact hc
    · apply ih
      have : k + 1 + f = k + (f + 1) := by omega
      rw [this]
      exact h

theorem scaleUp_top (a b : Nat) (ha : 0 < a) :
    2 ^ 52 * b ≤ a * 2 ^ (scaleUp a b (52 + b) 0) := by
  apply scaleUp_spec
  have h1 : b ≤ 2 ^ b := Nat.lt_two_pow b |>.le
  calc 2 ^ 52 * b ≤ 2 ^ 52 * 2 ^ b := Nat.mul_le_mul_left _ h1
    _ = 1 * 2 ^ (0 + (52 + b)) := by rw [Nat.zero_add, pow_add, one_mul]
    _ ≤ a * 2 ^ (0 + (52 + b)) := Nat.mul_le_mul_right _ ha


theorem fl_near (a b : Nat) (ha : 0 < a) (hb : 0 < b) (hlt : a < 2 ^ 53 * b) :
    0 < (fl a b).2 ∧
    2 ^ 53 * ((fl a b).1 * b) ≤ (2 ^ 53 + 1) * (a * (fl a b).2) ∧
    (2 ^ 53 - 1) * (a * (fl a b).2) ≤ 2 ^ 53 * ((fl a b).1 * b) := by
  have hfl : fl a b =
      (roundHalfEven (a * 2 ^ (scaleUp a b (52 + b) 0)) b, 2 ^ (scaleUp a b (52 + b) 0)) := by
    unfold fl
    rw [if_neg (by omega), if_pos hlt]
  rw [hfl]
  simp only []
  have hnear := roundHalfEven_near (a * 2 ^ (scaleUp a b (52 + b) 0)) b hb
  have htop := scaleUp_top a b ha
  refine ⟨by positivity, ?_, ?_⟩
  · norm_num at htop hnear ⊢
    omega
  · norm_num at htop hnear ⊢
    omega

/-- Both bounds relating a rounded fraction to the exact one, over the rationals. -/
theorem ratio_bounds (M D a b : Nat) (hD : 0 < D) (hb : 0 < b)
    (h1 : 2 ^ 53 * (M * b) ≤ (2 ^ 53 + 1) * (a * D))
    (h2 : (2 ^ 53 - 1) * (a * D) ≤ 2 ^ 53 * (M * b)) :
    ((M : ℚ) / D ≤ (1 + 1 / 2 ^ 53) * ((a : ℚ) / b)) ∧
    ((1 - 1 / 2 ^ 53) * ((a : ℚ) / b) ≤ (M : ℚ) / D) := by
  have hDq : (0 : ℚ) < D := by exact_mod_cast hD
  have hbq : (0 : ℚ) < b := by exact_mod_cast hb
  have h1q : (2 ^ 53 : ℚ) * (M * b) ≤ (2 ^ 53 + 1) * (a * D) := by exact_mod_cast h1
  have h2q : ((2 ^ 53 : ℚ) - 1) * (a * D) ≤ 2 ^ 53 * (M * b) := by
    have h2n : (2 ^ 53 - 1 : Nat) * (a * D) ≤ 2 ^ 53 * (M * b) := h2
    have hq : (((2 ^ 53 - 1) * (a * D) : Nat) : ℚ) ≤ ((2 ^ 53 * (M * b) : Nat) : ℚ) :=
      Nat.cast_le.mpr h2n
    push_cast at hq
    linarith
  constructor
  · rw [div_le_iff₀ hDq]
    have e : (1 + 1 / 2 ^ 53) * ((a : ℚ) / b) * D = ((2 ^ 53 + 1) * (a * D)) / (2 ^ 53 * b) := by
      field_simp
      ring
    rw [e, le_div_iff₀ (by positivity)]
    linarith
  · rw [le_div_iff₀ hDq]
    have e : (1 - 1 / 2 ^ 53) * ((a : ℚ) / b) * D = ((2 ^ 53 - 1) * (a * D)) / (2 ^ 53 * b) := by
      field_simp
      ring
    rw [e, div_le_iff₀ (by positivity)]
    linarith

theorem mathRound_bounds (M D : Nat) (hD : 0 < D) :
    ((mathRound (M, D) : Nat) : ℚ) ≤ (M : ℚ) / D + 1 / 2 ∧
    (M : ℚ) / D - 1 / 2 < ((mathRound (M, D) : Nat) : ℚ) := by
  have hDq : (0 : ℚ) < D := by exact_mod_cast hD
  have h1 : 2 * D * mathRound (M, D) ≤ 2 * M + D := by
    unfold mathRound
    exact Nat.mul_div_le _ _
  have h2 : 2 * M + D < 2 * D * mathRound (M, D) + 2 * D := by
    unfold mathRound
    have := Nat.lt_mul_div_succ (2 * M + D) (show 0 < 2 * D by omega)
    simp only [] at this ⊢
    rw [Nat.mul_add, Nat.mul_one] at this
    exact this
  have h1q : (2 : ℚ) * D * mathRound (M, D) ≤ 2 * M + D := by exact_mod_cast h1
  have h2q : (2 : ℚ) * M + D < 2 * D * mathRound (M, D) + 2 * D := by exact_mod_cast h2
  have e : (M : ℚ) / D * D = M := by field_simp
  constructor
  · by_contra hc
    push_neg at hc
    have := mul_lt_mul_of_pos_right hc (show (0 : ℚ) < 2 * D by positivity)
    nlinarith
  · by_contra hc
    push_neg at hc
    have := mul_le_mul_of_nonneg_right hc (show (0 : ℚ) ≤ 2 * D by positivity)
    nlinarith

/-- The double-precision percentage is within one half of the exact value
`100 * m / n`, whenever the divisor is below `2 ^ 32`. -/
theorem matchPercentageOf_near (m n : Nat) (hn : 0 < n) (hmn : m ≤ n) (hn32 : n < 2 ^ 32) :
    n * (2 * matchPercentageOf m n) ≤ 200 * m + n ∧
    200 * m ≤ n * (2 * matchPercentageOf m n) + n := by
  rcases Nat.eq_zero_or_pos m with hm | hm
  · subst hm
    have : matchPercentageOf 0 n = 0 := by
      simp [matchPercentageOf, fl, mathRound]
    rw [this]
    omega
  · have hlt : m < 2 ^ 53 * n := by
      have : n ≤ 2 ^ 53 * n := Nat.le_mul_of_pos_left n (by positivity)
      omega
    obtain ⟨hD1, hq1, hq2⟩ := fl_near m n hm hn hlt
    set M1 := (fl m n).1 with hM1
    set D1 := (fl m n).2 with hD1def
    have hmD : m * D1 ≤ n * D1 := Nat.mul_le_mul_right D1 hmn
    have hmDpos : 0 < m * D1 := Nat.mul_pos hm hD1
    have hM1pos : 0 < M1 := by
      rcases Nat.eq_zero_or_pos M1 with h0 | h0
      · rw [h0] at hq2
        norm_num at hq2
        omega
      · exact h0
    have hM1le : 2 ^ 53 * M1 ≤ (2 ^ 53 + 1) * D1 := by
      have h : (2 ^ 53 * M1) * n ≤ ((2 ^ 53 + 1) * D1) * n := by
        have e1 : (2 ^ 53 * M1) * n = 2 ^ 53 * (M1 * n) := by ring
        have e2 : ((2 ^ 53 + 1) * D1) * n = (2 ^ 53 + 1) * (n * D1) := by ring
        rw [e1, e2]
        norm_num at hq1 ⊢
        omega
      exact Nat.le_of_mul_le_mul_right h hn
    have hlt2 : M1 * 100 < 2 ^ 53 * D1 := by
      norm_num at hM1le ⊢
      omega
    obtain ⟨hD2, hr1, hr2⟩ := fl_near (M1 * 100) D1 (by omega) hD1 hlt2
    unfold matchPercentageOf
    simp only []
    rw [← hM1, ← hD1def]
    set M2 := (fl (M1 * 100) D1).1 with hM2
    set D2 := (fl (M1 * 100) D1).2 with hD2def
    have hpair : fl (M1 * 100) D1 = (M2, D2) := rfl
    rw [hpair]
    obtain ⟨hy1, hy2⟩ := ratio_bounds M1 D1 m n hD1 hn hq1 hq2
    obtain ⟨hz1, hz2⟩ := ratio_bounds M2 D2 (M1 * 100) D1 hD2 hD1 hr1 hr2
    obtain ⟨hp1, hp2⟩ := mathRound_bounds M2 D2 hD2
    set p := mathRound (M2, D2) with hp
    have hnq : (0 : ℚ) < n := by exact_mod_cast hn
    have hn32q : (n : ℚ) < 2 ^ 32 := by exact_mod_cast hn32
    have hx1 : (m : ℚ) / n ≤ 1 := by
      rw [div_le_one hnq]
      exact_mod_cast hmn
    have hx0 : (0 : ℚ) ≤ (m : ℚ) / n := by positivity
    have hcast : ((M1 * 100 : Nat) : ℚ) / D1 = 100 * ((M1 : ℚ) / D1) := by
      push_cast
      ring
    rw [hcast] at hz1 hz2
    have hxn : (m : ℚ) / n * n = m := by field_simp
    have hup : (p : ℚ) ≤ 100 * ((m : ℚ) / n) + 1 / 2 + 1 / 2 ^ 40 := by
      norm_num at hy1 hz1 hp1 ⊢
      linarith
    have hlo : 100 * ((m : ℚ) / n) - 1 / 2 - 1 / 2 ^ 40 < (p : ℚ) := by
      norm_num at hy2 hz2 hp2 ⊢
      linarith
    have hnm : (n : ℚ) * ((m : ℚ) / n) = m := by field_simp
    have hsmall : (n : ℚ) / 2 ^ 40 < 1 / 2 := by
      rw [div_lt_iff₀ (by positivity)]
      have : (2 : ℚ) ^ 32 ≤ 1 / 2 * 2 ^ 40 := by norm_num
      linarith
    have hup2 : (n : ℚ) * (2 * p) < 200 * m + n + 1 := by
      have h := mul_le_mul_of_nonneg_left hup hnq.le
      have e : (n : ℚ) * (100 * ((m : ℚ) / n) + 1 / 2 + 1 / 2 ^ 40) =
          100 * ((n : ℚ) * ((m : ℚ) / n)) + n / 2 + n / 2 ^ 40 := by ring
      rw [e, hnm] at h
      linarith
    have hlo2 : (200 : ℚ) * m < n * (2 * p) + n + 1 := by
      have h := mul_lt_mul_of_pos_left hlo hnq
      have e : (n : ℚ) * (100 * ((m : ℚ) / n) - 1 / 2 - 1 / 2 ^ 40) =
          100 * ((n : ℚ) * ((m : ℚ) / n)) - n / 2 - n / 2 ^ 40 := by ring
      rw [e, hnm] at h
      linarith
    have hup3 : n * (2 * p) < 200 * m + n + 1 := by exact_mod_cast hup2
    have hlo3 : 200 * m < n * (2 * p) + n + 1 := by exact_mod_cast hlo2
    omega

/-! ## Lemmas on the order of rounded numbers -/

theorem roundHalfEven_tie (a b : Nat) (hb : 0 < b)
    (h : 2 * (roundHalfEven a b * b) = 2 * a + b ∨ 2 * a = 2 * (roundHalfEven a b * b) + b) :
    roundHalfEven a b % 2 = 0 := by
  have hdm : b * (a / b) + a % b = a := Nat.div_add_mod a b
  have hlt : a % b < b := Nat.mod_lt a hb
  have hmul : (a / b + 1) * b = b * (a / b) + b := by ring
  have hmul0 : (a / b) * b = b * (a / b) := by ring
  unfold roundHalfEven at h ⊢
  simp only [] at h ⊢
  split_ifs at h ⊢ <;> (first | rw [hmul] at h | rw [hmul0] at h) <;> omega

/-- The rounded quotient is a nearest integer to the exact one, and an even one when
the exact quotient lies half-way between two integers. -/
theorem roundHalfEven_char (A B : Nat) (hB : 0 < B) :
    (roundHalfEven A B : ℚ) - 1 / 2 ≤ (A : ℚ) / B ∧
    (A : ℚ) / B ≤ (roundHalfEven A B : ℚ) + 1 / 2 ∧
    (((A : ℚ) / B = (roundHalfEven A B : ℚ) - 1 / 2 ∨
        (A : ℚ) / B = (roundHalfEven A B : ℚ) + 1 / 2) → roundHalfEven A B % 2 = 0) := by
  obtain ⟨h1, h2⟩ := roundHalfEven_near A B hB
  have ht := roundHalfEven_tie A B hB
  generalize roundHalfEven A B = M at h1 h2 ht
  have hBq : (0 : ℚ) < B := by exact_mod_cast hB
  have h1q : (2 : ℚ) * (M * B) ≤ 2 * A + B := by exact_mod_cast h1
  have h2q : (2 : ℚ) * A ≤ 2 * (M * B) + B := by exact_mod_cast h2
  refine ⟨?_, ?_, ?_⟩
  · rw [le_div_iff₀ hBq]
    linarith
  · rw [div_le_iff₀ hBq]
    linarith
  · rintro (h | h)
    · rw [div_eq_iff hBq.ne'] at h
      apply ht
      left
      have : (2 : ℚ) * (M * B) = 2 * A + B := by rw [h]; ring
      exact_mod_cast this
    · rw [div_eq_iff hBq.ne'] at h
      apply ht
      right
      have : (2 : ℚ) * A = 2 * (M * B) + B := by rw [h]; ring
      exact_mod_cast this

/-- Rounding to a nearest integer, ties to even, keeps the order. -/
theorem nearest_even_mono (M N : Nat) (z w : ℚ) (hzw : z ≤ w)
    (h1 : (M : ℚ) - 1 / 2 ≤ z)
    (ht : (z = (M : ℚ) - 1 / 2 ∨ z = (M : ℚ) + 1 / 2) → M % 2 = 0)
    (h2 : w ≤ (N : ℚ) + 1 / 2)
    (hu : (w = (N : ℚ) - 1 / 2 ∨ w = (N : ℚ) + 1 / 2) → N % 2 = 0) :
    M ≤ N := by
  by_contra hc
  have hlt : N + 1 ≤ M := by omega
  have hltq : (N : ℚ) + 1 ≤ M := by exact_mod_cast hlt
  have hz : z = (M : ℚ) - 1 / 2 := by linarith
  have hw : w = (N : ℚ) + 1 / 2 := by linarith
  have hMN : (M : ℚ) = N + 1 := by linarith
  have hMN2 : M = N + 1 := by exact_mod_cast hMN
  have e1 := ht (Or.inl hz)
  have e2 := hu (Or.inr hw)
  omega

theorem scaleUp_min (a b : Nat) : ∀ (fuel k : Nat),
    (k = 0 ∨ a * 2 ^ (k - 1) < 2 ^ 52 * b) →
    (scaleUp a b fuel k = 0 ∨ a * 2 ^ (scaleUp a b fuel k - 1) < 2 ^ 52 * b) := by
  intro fuel
  induction fuel with
  | zero =>
    intro k h
    exact h
  | succ f ih =>
    intro k h
    unfold scaleUp
    split_ifs with hc
    · exact h
    · apply ih
      right
      simpa using hc

theorem scaleDown_spec (a b : Nat) : ∀ (fuel k : Nat), a < 2 ^ 53 * b * 2 ^ (k + fuel) →
    a < 2 ^ 53 * b * 2 ^ (scaleDown a b fuel k) := by
  intro fuel
  induction fuel with
  | zero =>
    intro k h
    simpa [scaleDown] using h
  | succ f ih =>
    intro k h
    unfold scaleDown
    split_ifs with hc
    · exact hc
    · apply ih
      rw [show k + 1 + f = k + (f + 1) by omega]
      exact h

theorem scaleDown_min (a b : Nat) : ∀ (fuel k : Nat),
    (k = 0 ∨ 2 ^ 53 * b * 2 ^ (k - 1) ≤ a) →
    (scaleDown a b fuel k = 0 ∨ 2 ^ 53 * b * 2 ^ (scaleDown a b fuel k - 1) ≤ a) := by
  intro fuel
  induction fuel with
  | zero =>
    intro k h
    exact h
  | succ f ih =>
    intro k h
    unfold scaleDown
    split_ifs with hc
    · exact h
    · apply ih
      right
      simpa using hc

theorem scaleDown_top (a b : Nat) (hb : 0 < b) :
    a < 2 ^ 53 * b * 2 ^ (scaleDown a b a 0) := by
  apply scaleDown_spec
  have h1 : a < 2 ^ a := Nat.lt_two_pow a
  have h2 : 1 ≤ 2 ^ 53 * b := Nat.mul_pos (by positivity) hb
  calc a < 2 ^ a := h1
    _ = 1 * 2 ^ (0 + a) := by rw [Nat.zero_add, one_mul]
    _ ≤ 2 ^ 53 * b * 2 ^ (0 + a) := Nat.mul_le_mul_right _ h2

/-- The scaled quotient before rounding: between `2 ^ 52` and `2 ^ 53`, with the
rounded significand a nearest integer to it, even on a tie. -/
theorem significand_char (A B : Nat) (hB : 0 < B) (hlo : 2 ^ 52 * B ≤ A)
    (hhi : A < 2 ^ 53 * B) :
    (2 : ℚ) ^ 52 ≤ (A : ℚ) / B ∧ (A : ℚ) / B < 2 ^ 53 ∧
    (roundHalfEven A B : ℚ) - 1 / 2 ≤ (A : ℚ) / B ∧
    (A : ℚ) / B ≤ (roundHalfEven A B : ℚ) + 1 / 2 ∧
    (((A : ℚ) / B = (roundHalfEven A B : ℚ) - 1 / 2 ∨
        (A : ℚ) / B = (roundHalfEven A B : ℚ) + 1 / 2) → roundHalfEven A B % 2 = 0) := by
  have hBq : (0 : ℚ) < B := by exact_mod_cast hB
  have hloq : (2 : ℚ) ^ 52 * B ≤ A := by exact_mod_cast hlo
  have hhiq : (A : ℚ) < 2 ^ 53 * B := by exact_mod_cast hhi
  obtain ⟨h1, h2, h3⟩ := roundHalfEven_char A B hB
  refine ⟨?_, ?_, h1, h2, h3⟩
  · rw [le_div_iff₀ hBq]
    exact hloq
  · rw [div_lt_iff₀ hBq]
    exact hhiq

/-- The rounded number: a significand `M` times a power of two `2 ^ e`, where the
exact quotient is `z * 2 ^ e` with `z` between `2 ^ 52` and `2 ^ 53`, and `M` is the
nearest integer to `z`, even on a tie. -/
theorem fl_char (a b : Nat) (ha : 0 < a) (hb : 0 < b) :
    ∃ (e : Int) (M : Nat) (z : ℚ), 0 < (fl a b).2 ∧
      ((fl a b).1 : ℚ) / ((fl a b).2 : ℚ) = (M : ℚ) * (2 : ℚ) ^ e ∧
      (a : ℚ) / b = z * (2 : ℚ) ^ e ∧
      (2 : ℚ) ^ 52 ≤ z ∧ z < 2 ^ 53 ∧
      (M : ℚ) - 1 / 2 ≤ z ∧ z ≤ (M : ℚ) + 1 / 2 ∧
      ((z = (M : ℚ) - 1 / 2 ∨ z = (M : ℚ) + 1 / 2) → M % 2 = 0) := by
  have hbq : (0 : ℚ) < b := by exact_mod_cast hb
  by_cases hlt : a < 2 ^ 53 * b
  · have hfl : fl a b =
        (roundHalfEven (a * 2 ^ (scaleUp a b (52 + b) 0)) b, 2 ^ (scaleUp a b (52 + b) 0)) := by
      unfold fl
      rw [if_neg (by omega), if_pos hlt]
    have htop := scaleUp_top a b ha
    have hmin := scaleUp_min a b (52 + b) 0 (Or.inl rfl)
    generalize scaleUp a b (52 + b) 0 = s at hfl htop hmin
    have hhi : a * 2 ^ s < 2 ^ 53 * b := by
      rcases hmin with h0 | h0
      · rw [h0]
        simpa using hlt
      · have hs : s ≠ 0 := by
          intro h
          subst h
          simp at h0 htop
          omega
        have e : 2 ^ s = 2 ^ (s - 1) * 2 := by
          rw [← pow_succ]
          congr 1
          omega
        rw [e]
        have e2 : (2 : Nat) ^ 53 = 2 ^ 52 * 2 := by norm_num
        rw [e2]
        nlinarith
    obtain ⟨c1, c2, c3, c4, c5⟩ := significand_char (a * 2 ^ s) b hb htop hhi
    have hsq : (0 : ℚ) < 2 ^ s := by positivity
    refine ⟨-(s : Int), roundHalfEven (a * 2 ^ s) b, ((a * 2 ^ s : Nat) : ℚ) / b, ?_, ?_, ?_,
      c1, c2, c3, c4, c5⟩
    · rw [hfl]
      positivity
    · rw [hfl, zpow_neg, zpow_natCast]
      push_cast
      rfl
    · rw [zpow_neg, zpow_natCast]
      push_cast
      field_simp
      ring
  · have hfl : fl a b =
        (roundHalfEven a (b * 2 ^ (scaleDown a b a 0)) * 2 ^ (scaleDown a b a 0), 1) := by
      unfold fl
      rw [if_neg (by omega), if_neg hlt]
    have htop := scaleDown_top a b hb
    have hmin := scaleDown_min a b a 0 (Or.inl rfl)
    generalize scaleDown a b a 0 = t at hfl htop hmin
    have ht : t ≠ 0 := by
      intro h
      subst h
      simp at htop
      omega
    have hlo : 2 ^ 52 * (b * 2 ^ t) ≤ a := by
      rcases hmin with h0 | h0
      · exact absurd h0 ht
      · have e : 2 ^ t = 2 ^ (t - 1) * 2 := by
          rw [← pow_succ]
          congr 1
          omega
        rw [e]
        have e2 : (2 : Nat) ^ 53 = 2 ^ 52 * 2 := by norm_num
        rw [e2] at h0
        nlinarith
    have hhi : a < 2 ^ 53 * (b * 2 ^ t) := by
      rw [← Nat.mul_assoc]
      exact htop
    have hBpos : 0 < b * 2 ^ t := Nat.mul_pos hb (by positivity)
    obtain ⟨c1, c2, c3, c4, c5⟩ := significand_char a (b * 2 ^ t) hBpos hlo hhi
    refine ⟨(t : Int), roundHalfEven a (b * 2 ^ t), (a : ℚ) / ((b * 2 ^ t : Nat) : ℚ), ?_, ?_, ?_,
      c1, c2, c3, c4, c5⟩
    · rw [hfl]
      exact Nat.one_pos
    · rw [hfl, zpow_natCast]
      push_cast
      simp
    · rw [zpow_natCast]
      push_cast
      field_simp
      ring

theorem fl_zero (b : Nat) : fl 0 b = (0, 1) := by
  simp [fl]

theorem fl_den_pos (a b : Nat) : 0 < (fl a b).2 := by
  unfold fl
  split_ifs
  · exact Nat.one_pos
  · exact Nat.pow_pos (by decide)
  · exact Nat.one_pos

/-- Rounding to 53 bits keeps the order of the rationals. -/
theorem fl_mono (a b c d : Nat) (hb : 0 < b) (hd : 0 < d) (h : (a : ℚ) / b ≤ (c : ℚ) / d) :
    ((fl a b).1 : ℚ) / ((fl a b).2 : ℚ) ≤ ((fl c d).1 : ℚ) / ((fl c d).2 : ℚ) := by
  rcases Nat.eq_zero_or_pos a with ha | ha
  · subst ha
    rw [fl_zero]
    simp only [Nat.cast_zero, zero_div]
    positivity
  · have hbq : (0 : ℚ) < b := by exact_mod_cast hb
    have haq : (0 : ℚ) < a := by exact_mod_cast ha
    have hc : 0 < c := by
      rcases Nat.eq_zero_or_pos c with hc0 | hc0
      · subst hc0
        have hpos : (0 : ℚ) < (a : ℚ) / b := div_pos haq hbq
        simp only [Nat.cast_zero, zero_div] at h
        linarith
      · exact hc0
    obtain ⟨e, M, z, _, hv, hx, z1, z2, m1, m2, mt⟩ := fl_char a b ha hb
    obtain ⟨f, N, w, _, hv2, hx2, w1, w2, n1, n2, nt⟩ := fl_char c d hc hd
    rw [hv, hv2]
    rw [hx, hx2] at h
    have hpe : (0 : ℚ) < 2 ^ e := zpow_pos (by norm_num) e
    have hpf : (0 : ℚ) < 2 ^ f := zpow_pos (by norm_num) f
    rcases lt_trichotomy e f with hlt | heq | hgt
    · have h2 : (2 : ℚ) ^ (e + 1) ≤ 2 ^ f := zpow_le_zpow_right₀ (by norm_num) (by omega)
      rw [zpow_add_one₀ (by norm_num)] at h2
      have hM : (M : ℚ) ≤ 2 ^ 53 := by
        have h3 : (M : ℚ) < ((2 ^ 53 + 1 : Nat) : ℚ) := by
          push_cast
          linarith
        have h4 : M < 2 ^ 53 + 1 := by exact_mod_cast h3
        have h5 : M ≤ 2 ^ 53 := by omega
        exact_mod_cast h5
      have hN : (2 : ℚ) ^ 52 ≤ N := by
        have h3 : ((2 ^ 52 : Nat) : ℚ) < ((N + 1 : Nat) : ℚ) := by
          push_cast
          linarith
        have h4 : 2 ^ 52 < N + 1 := by exact_mod_cast h3
        have h5 : 2 ^ 52 ≤ N := by omega
        exact_mod_cast h5
      calc (M : ℚ) * 2 ^ e ≤ 2 ^ 53 * 2 ^ e := mul_le_mul_of_nonneg_right hM hpe.le
        _ = 2 ^ 52 * (2 ^ e * 2) := by ring
        _ ≤ 2 ^ 52 * 2 ^ f := mul_le_mul_of_nonneg_left h2 (by positivity)
        _ ≤ (N : ℚ) * 2 ^ f := mul_le_mul_of_nonneg_right hN hpf.le
    · subst heq
      have hzw : z ≤ w := le_of_mul_le_mul_right h hpe
      have hMN := nearest_even_mono M N z w hzw m1 mt n2 nt
      have hMNq : (M : ℚ) ≤ N := by exact_mod_cast hMN
      exact mul_le_mul_of_nonneg_right hMNq hpe.le
    · exfalso
      have h2 : (2 : ℚ) ^ (f + 1) ≤ 2 ^ e := zpow_le_zpow_right₀ (by norm_num) (by omega)
      rw [zpow_add_one₀ (by norm_num)] at h2
      have h3 : w * 2 ^ f < 2 ^ 53 * 2 ^ f := mul_lt_mul_of_pos_right w2 hpf
      have h4 : (2 : ℚ) ^ 52 * 2 ^ e ≤ z * 2 ^ e := mul_le_mul_of_nonneg_right z1 hpe.le
      have h5 : (2 : ℚ) ^ 52 * (2 ^ f * 2) ≤ 2 ^ 52 * 2 ^ e :=
        mul_le_mul_of_nonneg_left h2 (by positivity)
      have h6 : (2 : ℚ) ^ 52 * (2 ^ f * 2) = 2 ^ 53 * 2 ^ f := by ring
      linarith

theorem natAbs_cast_of_nonneg (p : Int) (h : 0 ≤ p) : ((p.natAbs : Nat) : ℚ) = (p : ℚ) := by
  have h1 := Int.natAbs_of_nonneg h
  have h2 : (((p.natAbs : Nat) : Int) : ℚ) = (p : ℚ) := by rw [h1]
  rw [Int.cast_natCast] at h2
  exact h2

theorem natAbs_cast_of_neg (p : Int) (h : p < 0) : ((p.natAbs : Nat) : ℚ) = -(p : ℚ) := by
  have h1 := Int.ofNat_natAbs_of_nonpos h.le
  have h2 : (((p.natAbs : Nat) : Int) : ℚ) = ((-p : Int) : ℚ) := by rw [h1]
  rw [Int.cast_natCast, Int.cast_neg] at h2
  exact h2

theorem flSigned_den (p : Int) (q : Nat) : (flSigned p q).2 = (fl p.natAbs q).2 := rfl

theorem flSigned_den_pos (p : Int) (q : Nat) : 0 < (flSigned p q).2 :=
  fl_den_pos p.natAbs q

theorem flSigned_value_neg (p : Int) (q : Nat) (h : p < 0) :
    ((flSigned p q).1 : ℚ) / ((flSigned p q).2 : ℚ) =
      -(((fl p.natAbs q).1 : ℚ) / ((fl p.natAbs q).2 : ℚ)) := by
  unfold flSigned
  simp only [h, if_true]
  push_cast
  ring

theorem flSigned_value_nonneg (p : Int) (q : Nat) (h : 0 ≤ p) :
    ((flSigned p q).1 : ℚ) / ((flSigned p q).2 : ℚ) =
      ((fl p.natAbs q).1 : ℚ) / ((fl p.natAbs q).2 : ℚ) := by
  unfold flSigned
  have h2 : ¬ p < 0 := by omega
  simp only [h2, if_false]
  push_cast
  rfl

theorem fl_value_nonneg (a b : Nat) : (0 : ℚ) ≤ ((fl a b).1 : ℚ) / ((fl a b).2 : ℚ) := by
  positivity

/-- Rounding a signed rational to 53 bits keeps the order. -/
theorem flSigned_mono (p r : Int) (q s : Nat) (hq : 0 < q) (hs : 0 < s)
    (h : (p : ℚ) / q ≤ (r : ℚ) / s) :
    ((flSigned p q).1 : ℚ) / ((flSigned p q).2 : ℚ) ≤
      ((flSigned r s).1 : ℚ) / ((flSigned r s).2 : ℚ) := by
  have hqq : (0 : ℚ) < q := by exact_mod_cast hq
  have hsq : (0 : ℚ) < s := by exact_mod_cast hs
  by_cases hp : p < 0
  · by_cases hr : r < 0
    · rw [flSigned_value_neg p q hp, flSigned_value_neg r s hr, neg_le_neg_iff]
      apply fl_mono r.natAbs s p.natAbs q hs hq
      rw [natAbs_cast_of_neg p hp, natAbs_cast_of_neg r hr, neg_div, neg_div, neg_le_neg_iff]
      exact h
    · rw [flSigned_value_neg p q hp, flSigned_value_nonneg r s (by omega)]
      have h1 := fl_value_nonneg p.natAbs q
      have h2 := fl_value_nonneg r.natAbs s
      linarith
  · have hp0 : 0 ≤ p := by omega
    by_cases hr : r < 0
    · exfalso
      have h1 : (0 : ℚ) ≤ (p : ℚ) / q := div_nonneg (by exact_mod_cast hp0) hqq.le
      have h2 : (r : ℚ) / s < 0 := div_neg_of_neg_of_pos (by exact_mod_cast hr) hsq
      linarith
    · rw [flSigned_value_nonneg p q hp0, flSigned_value_nonneg r s (by omega)]
      apply fl_mono p.natAbs q r.natAbs s hq hs
      rw [natAbs_cast_of_nonneg p hp0, natAbs_cast_of_nonneg r (by omega)]
      exact h

/-- The function `mathCeil` is the ceiling of the fraction. -/
theorem mathCeil_eq_ceil (x : Int × Nat) (h : 0 < x.2) :
    mathCeil x = ⌈(x.1 : ℚ) / (x.2 : ℚ)⌉ := by
  have hD : (0 : Int) < (x.2 : Int) := by exact_mod_cast h
  have hDq : (0 : ℚ) < (x.2 : ℚ) := by exact_mod_cast h
  have e := Int.ediv_add_emod (-x.1) (x.2 : Int)
  have r0 := Int.emod_nonneg (-x.1) hD.ne'
  have r1 := Int.emod_lt_of_pos (-x.1) hD
  have h1 : (mathCeil x - 1) * (x.2 : Int) < x.1 := by
    unfold mathCeil
    linarith
  have h2 : x.1 ≤ mathCeil x * (x.2 : Int) := by
    unfold mathCeil
    linarith
  have h1q : ((mathCeil x : ℚ) - 1) * (x.2 : ℚ) < (x.1 : ℚ) := by exact_mod_cast h1
  have h2q : (x.1 : ℚ) ≤ (mathCeil x : ℚ) * (x.2 : ℚ) := by exact_mod_cast h2
  symm
  rw [Int.ceil_eq_iff]
  constructor
  · rw [lt_div_iff₀ hDq]
    exact h1q
  · rw [div_le_iff₀ hDq]
    exact h2q

/-- The day count of a date that parses: the ceiling of the rounded quotient of the
rounded difference. -/
theorem getDaysUntilExpiry_eq_ceil (parseDate : String → Option Int) (now : Int) (date : String)
    (expiry : Int) (h : parseDate date = some expiry) :
    getDaysUntilExpiry parseDate now date =
      ⌈((flSigned (flSigned (expiry - now) 1).1
            ((flSigned (expiry - now) 1).2 * msPerDay)).1 : ℚ) /
        ((flSigned (flSigned (expiry - now) 1).1
            ((flSigned (expiry - now) 1).2 * msPerDay)).2 : ℚ)⌉ := by
  unfold getDaysUntilExpiry
  rw [h]
  exact mathCeil_eq_ceil _ (flSigned_den_pos _ _)

theorem getDaysUntilExpiry_none (parseDate : String → Option Int) (now : Int) (date : String)
    (h : parseDate date = none) : getDaysUntilExpiry parseDate now date = 999 := by
  unfold getDaysUntilExpiry
  rw [h]

/-- The day count does not increase when the current instant advances. -/
theorem getDaysUntilExpiry_mono (parseDate : String → Option Int) (date : String)
    (now1 now2 : Int) (hle : now1 ≤ now2) :
    getDaysUntilExpiry parseDate now2 date ≤ getDaysUntilExpiry parseDate now1 date := by
  cases h : parseDate date with
  | none =>
    rw [getDaysUntilExpiry_none _ _ _ h, getDaysUntilExpiry_none _ _ _ h]
  | some expiry =>
    rw [getDaysUntilExpiry_eq_ceil _ _ _ _ h, getDaysUntilExpiry_eq_ceil _ _ _ _ h]
    apply Int.ceil_mono
    have hc : 0 < msPerDay := by decide
    have hcq : (0 : ℚ) < (msPerDay : ℚ) := by exact_mod_cast hc
    have hd : ((expiry - now2 : Int) : ℚ) / ((1 : Nat) : ℚ) ≤
        ((expiry - now1 : Int) : ℚ) / ((1 : Nat) : ℚ) := by
      have : expiry - now2 ≤ expiry - now1 := by omega
      have hq : ((expiry - now2 : Int) : ℚ) ≤ ((expiry - now1 : Int) : ℚ) := by
        exact_mod_cast this
      simpa using hq
    have h1 := flSigned_mono (expiry - now2) (expiry - now1) 1 1 Nat.one_pos Nat.one_pos hd
    have p2 := flSigned_den_pos (expiry - now2) 1
    have p1 := flSigned_den_pos (expiry - now1) 1
    apply flSigned_mono _ _ _ _ (Nat.mul_pos p2 hc) (Nat.mul_pos p1 hc)
    have p2q : (0 : ℚ) < ((flSigned (expiry - now2) 1).2 : ℚ) := by exact_mod_cast p2
    have p1q : (0 : ℚ) < ((flSigned (expiry - now1) 1).2 : ℚ) := by exact_mod_cast p1
    push_cast
    rw [← div_div, ← div_div]
    exact div_le_div_of_nonneg_right h1 hcq.le

/-! ## Lemmas on matching -/

theorem RECIPE_DB_append (l : List Recipe) : RECIPE_DB ++ l = l := rfl

theorem matchCountOf_pos_iff (items : List Item) (r : Recipe) :
    0 < matchCountOf (items.map (fun i => i.name)) r ↔ holdsIngredient items r := by
  unfold matchCountOf holdsIngredient
  cases h : r.ingredients with
  | none => simp
  | some ings =>
    simp [List.length_pos_iff_exists_mem]

theorem annotate_recipe (names : List String) (urgent : List Item) (r : Recipe) :
    (annotate names urgent r).recipe = r := rfl

theorem matchedInput_eq_map (parseDate : String → Option Int) (now : Int) (items : List Item)
    (customRecipes : List Recipe) :
    matchedInput parseDate now items customRecipes =
      ((RECIPE_DB ++ customRecipes).filter
        (fun r => decide (0 < matchCountOf (items.map (fun i => i.name)) r))).map
        (annotate (items.map (fun i => i.name)) (urgentItemsOf parseDate now items)) := by
  unfold matchedInput
  rw [List.filter_map]
  rfl

theorem generateRecipes_of_ne_nil (parseDate : String → Option Int) (now : Int)
    (items : List Item) (customRecipes : List Recipe) (h : items ≠ []) :
    generateRecipes parseDate now items customRecipes =
      sortMatched (matchedInput parseDate now items customRecipes) := by
  unfold generateRecipes matchedInput
  have : items.length ≠ 0 := by simpa using h
  simp [this]

theorem sortMatched_perm (l : List MatchedRecipe) : (sortMatched l).Perm l :=
  List.perm_insertionSort _ l


/-! ## Lemmas on the ranking order -/

theorem matchedLE_iff (a b : MatchedRecipe) :
    matchedLE a b ↔
      (a.hasUrgent = true ∧ b.hasUrgent = false) ∨
        (a.hasUrgent = b.hasUrgent ∧ b.matchCount ≤ a.matchCount) := by
  unfold matchedLE compareMatched
  cases ha : a.hasUrgent <;> cases hb : b.hasUrgent <;> simp

theorem matchedLE_total : IsTotal MatchedRecipe matchedLE := by
  constructor
  intro a b
  rw [matchedLE_iff, matchedLE_iff]
  cases ha : a.hasUrgent <;> cases hb : b.hasUrgent <;> simp
  all_goals omega

theorem matchedLE_trans : IsTrans MatchedRecipe matchedLE := by
  constructor
  intro a b c
  rw [matchedLE_iff, matchedLE_iff, matchedLE_iff]
  cases ha : a.hasUrgent <;> cases hb : b.hasUrgent <;> cases hc : c.hasUrgent <;>
    simp
  all_goals omega

theorem sortMatched_sorted (l : List MatchedRecipe) :
    (sortMatched l).Pairwise matchedLE :=
  @List.sorted_insertionSort _ matchedLE _ matchedLE_total matchedLE_trans l

/-- Stability of the sort: the entries with a given pair of keys keep their order. -/
theorem sortMatched_stable (l : List MatchedRecipe) (u : Bool) (c : Nat) :
    (sortMatched l).filter (fun a => a.hasUrgent == u && a.matchCount == c) =
      l.filter (fun a => a.hasUrgent == u && a.matchCount == c) := by
  set p : MatchedRecipe → Bool := fun a => a.hasUrgent == u && a.matchCount == c with hp
  have hpw : (l.filter p).Pairwise matchedLE := by
    rw [List.pairwise_iff_forall_sublist]
    intro a b hab
    have ha : a ∈ l.filter p := hab.subset (by simp)
    have hb : b ∈ l.filter p := hab.subset (by simp)
    rw [List.mem_filter] at ha hb
    have ha2 := ha.2
    have hb2 := hb.2
    simp only [hp, Bool.and_eq_true, beq_iff_eq] at ha2 hb2
    rw [matchedLE_iff]
    right
    exact ⟨ha2.1.trans hb2.1.symm, by omega⟩
  have hsub : (l.filter p).Sublist (sortMatched l) :=
    List.sublist_insertionSort hpw (List.filter_sublist l)
  have hsub2 : (l.filter p).Sublist ((sortMatched l).filter p) := by
    have := hsub.filter p
    simpa [List.filter_filter] using this
  have hlen : ((sortMatched l).filter p).length = (l.filter p).length :=
    ((sortMatched_perm l).filter p).length_eq
  exact (hsub2.eq_of_length hlen.symm).symm

/-- Every entry of the output is the annotation of its own recipe. -/
theorem mem_generateRecipes_eq_annotate (parseDate : String → Option Int)
    (now : Int) (items : List Item) (customRecipes : List Recipe) (h : items ≠ [])
    (a : MatchedRecipe) (ha : a ∈ generateRecipes parseDate now items customRecipes) :
    a = annotate (items.map (fun i => i.name)) (urgentItemsOf parseDate now items)
          a.recipe := by
  rw [generateRecipes_of_ne_nil parseDate now items customRecipes h] at ha
  have ha2 : a ∈ matchedInput parseDate now items customRecipes :=
    (sortMatched_perm _).mem_iff.mp ha
  rw [matchedInput_eq_map, List.mem_map] at ha2
  obtain ⟨r, _, rfl⟩ := ha2
  rfl

/-! ## Matching and ranking: the properties -/

/-- C1. For a non-empty item list, `generateRecipes` returns exactly the recipes
that have an ingredient equal to the name of some item: every returned entry has a
positive `matchCount`, holds such an ingredient and is the annotation of its recipe;
a recipe with such an ingredient is returned as often as it occurs in the input, a
recipe without one is not returned. -/
theorem generateRecipes_returns_exactly_matching (parseDate : String → Option Int)
    (now : Int) (items : List Item) (customRecipes : List Recipe) (h : items ≠ []) :
    (∀ a ∈ generateRecipes parseDate now items customRecipes,
        0 < a.matchCount ∧ holdsIngredient items a.recipe ∧
        a = annotate (items.map (fun i => i.name)) (urgentItemsOf parseDate now items)
              a.recipe) ∧
    (∀ r, holdsIngredient items r →
        ((generateRecipes parseDate now items customRecipes).map (fun a => a.recipe)).count r =
          (RECIPE_DB ++ customRecipes).count r) ∧
    (∀ r, ¬ holdsIngredient items r →
        ((generateRecipes parseDate now items customRecipes).map (fun a => a.recipe)).count r =
          0) := by
  rw [generateRecipes_of_ne_nil parseDate now items customRecipes h]
  have hperm := sortMatched_perm (matchedInput parseDate now items customRecipes)
  have hcount : ∀ r,
      ((sortMatched (matchedInput parseDate now items customRecipes)).map
          (fun a => a.recipe)).count r =
        ((RECIPE_DB ++ customRecipes).filter
          (fun r => decide (0 < matchCountOf (items.map (fun i => i.name)) r))).count r := by
    intro r
    rw [(hperm.map (fun a => a.recipe)).count_eq, matchedInput_eq_map, List.map_map]
    have hid : ((fun a : MatchedRecipe => a.recipe) ∘
        annotate (items.map (fun i => i.name)) (urgentItemsOf parseDate now items)) = id := by
      funext r
      rfl
    rw [hid, List.map_id]
  refine ⟨?_, ?_, ?_⟩
  · intro a ha
    have ha2 : a ∈ matchedInput parseDate now items customRecipes := hperm.mem_iff.mp ha
    rw [matchedInput_eq_map, List.mem_map] at ha2
    obtain ⟨r, hr, rfl⟩ := ha2
    rw [List.mem_filter] at hr
    have hpos : 0 < matchCountOf (items.map (fun i => i.name)) r := by simpa using hr.2
    exact ⟨hpos, (matchCountOf_pos_iff items r).mp hpos, rfl⟩
  · intro r hr
    rw [hcount r, List.count_filter]
    simpa using (matchCountOf_pos_iff items r).mpr hr
  · intro r hr
    rw [hcount r, List.count_eq_zero]
    intro hmem
    rw [List.mem_filter] at hmem
    exact hr ((matchCountOf_pos_iff items r).mp (by simpa using hmem.2))

/-- Witness for C1: with one egg in the inventory, of Omelet(egg, milk) and
Toast(bread) only Omelet is returned, with 1 match, 50 percent and the urgent flag. -/
theorem generateRecipes_returns_exactly_matching_witness :
    generateRecipes sampleParse 0 [eggItem] [omelet, toast] =
        [{ recipe := omelet, matchCount := 1, matchPercentage := 50, hasUrgent := true }] ∧
    (∀ a ∈ generateRecipes sampleParse 0 [eggItem] [omelet, toast],
        0 < a.matchCount ∧ holdsIngredient [eggItem] a.recipe ∧
        a = annotate ([eggItem].map (fun i => i.name)) (urgentItemsOf sampleParse 0 [eggItem])
              a.recipe) ∧
    (∀ r, holdsIngredient [eggItem] r →
        ((generateRecipes sampleParse 0 [eggItem] [omelet, toast]).map
            (fun a => a.recipe)).count r =
          (RECIPE_DB ++ [omelet, toast]).count r) ∧
    (∀ r, ¬ holdsIngredient [eggItem] r →
        ((generateRecipes sampleParse 0 [eggItem] [omelet, toast]).map
            (fun a => a.recipe)).count r = 0) :=
  ⟨by decide,
    generateRecipes_returns_exactly_matching sampleParse 0 [eggItem] [omelet, toast]
      (by decide)⟩

/-- C2. For a non-empty item list, in the output of `generateRecipes` every entry
with `hasUrgent = true` stands before every entry with `hasUrgent = false`, among
entries with the same `hasUrgent` the `matchCount` does not increase, and the entries
that agree on both keys stand in the order they have in the input list (the bundled
recipes followed by the custom recipes). -/
theorem generateRecipes_ordered_and_stable (parseDate : String → Option Int) (now : Int)
    (items : List Item) (customRecipes : List Recipe) (h : items ≠ []) :
    (generateRecipes parseDate now items customRecipes).Pairwise
        (fun a b => (b.hasUrgent = true → a.hasUrgent = true) ∧
          (a.hasUrgent = b.hasUrgent → b.matchCount ≤ a.matchCount)) ∧
    (∀ (u : Bool) (c : Nat),
        (generateRecipes parseDate now items customRecipes).filter
            (fun a => a.hasUrgent == u && a.matchCount == c) =
          (((RECIPE_DB ++ customRecipes).map
              (annotate (items.map (fun i => i.name))
                (urgentItemsOf parseDate now items))).filter
            (fun a => decide (a.matchCount > 0))).filter
            (fun a => a.hasUrgent == u && a.matchCount == c)) := by
  rw [generateRecipes_of_ne_nil parseDate now items customRecipes h]
  refine ⟨?_, ?_⟩
  · refine (sortMatched_sorted _).imp ?_
    intro a b hab
    rw [matchedLE_iff] at hab
    rcases hab with ⟨ha, _⟩ | ⟨he, hc⟩
    · exact ⟨fun _ => ha, fun he => by simp_all⟩
    · exact ⟨fun hb => he.trans hb, fun _ => hc⟩
  · intro u c
    exact sortMatched_stable _ u c

/-- Witness for C2: an inventory with an urgent egg and a non-urgent milk. Omelet
(urgent, 2 matches) comes first, then EggToast (urgent, 1 match), then MilkToast and
Latte (not urgent, 1 match each) in their input order. -/
theorem generateRecipes_ordered_and_stable_witness :
    generateRecipes sampleParse 0 [milkItem, eggItem]
        [milkToast, toast, eggToast, latte, omelet] =
      [{ recipe := omelet, matchCount := 2, matchPercentage := 100, hasUrgent := true },
       { recipe := eggToast, matchCount := 1, matchPercentage := 50, hasUrgent := true },
       { recipe := milkToast, matchCount := 1, matchPercentage := 50, hasUrgent := false },
       { recipe := latte, matchCount := 1, matchPercentage := 50, hasUrgent := false }] ∧
    (generateRecipes sampleParse 0 [milkItem, eggItem]
        [milkToast, toast, eggToast, latte, omelet]).Pairwise
        (fun a b => (b.hasUrgent = true → a.hasUrgent = true) ∧
          (a.hasUrgent = b.hasUrgent → b.matchCount ≤ a.matchCount)) ∧
    (∀ (u : Bool) (c : Nat),
        (generateRecipes sampleParse 0 [milkItem, eggItem]
            [milkToast, toast, eggToast, latte, omelet]).filter
            (fun a => a.hasUrgent == u && a.matchCount == c) =
          (((RECIPE_DB ++ [milkToast, toast, eggToast, latte, omelet]).map
              (annotate ([milkItem, eggItem].map (fun i => i.name))
                (urgentItemsOf sampleParse 0 [milkItem, eggItem]))).filter
            (fun a => decide (a.matchCount > 0))).filter
            (fun a => a.hasUrgent == u && a.matchCount == c)) :=
  ⟨by decide,
    generateRecipes_ordered_and_stable sampleParse 0 [milkItem, eggItem]
      [milkToast, toast, eggToast, latte, omelet] (by decide)⟩

/-- C3 (counterexample). For a recipe with 40 ingredients of which 23 are held, the
exact percentage is 57.5, which rounds to 58; the program divides first, and the
double nearest to 23 / 40 lies below 0.575, so its percentage is 57. -/
theorem matchPercentage_tie_rounds_down :
    (annotate ([eggItem].map (fun i => i.name)) (urgentItemsOf sampleParse 0 [eggItem])
        fortyIngredients).matchCount = 23 ∧
    specMatchCount [eggItem] fortyIngredients = 23 ∧
    specIngredientCount fortyIngredients = 40 ∧
    (annotate ([eggItem].map (fun i => i.name)) (urgentItemsOf sampleParse 0 [eggItem])
        fortyIngredients).matchPercentage = 57 ∧
    (200 * 23 + 40) / (2 * 40) = 58 ∧
    200 * 23 = 40 * (2 * 57 + 1) := by
  decide

/-- C3 (amended). For every item list and every recipe whose ingredient array has a length
below `2 ^ 32` (as every JavaScript array has), the annotation that `generateRecipes`
computes on its non-empty branch has `matchCount` equal
to the number of ingredient entries, repeated entries counted, that are the name of
some item, and `matchPercentage` is `100 * matchCount / n` rounded to a nearest
integer, where `n` is the number of ingredients, or 1 when they are empty or absent:
`n` is positive, the percentage differs from the exact quotient by at most one half,
and it is the quotient rounded half up unless the quotient lies exactly half-way
between two integers. -/
theorem annotate_matchCount_matchPercentage (parseDate : String → Option Int) (now : Int)
    (items : List Item) (r : Recipe)
    (hlen : (r.ingredients.getD []).length < 2 ^ 32) :
    (annotate (items.map (fun i => i.name)) (urgentItemsOf parseDate now items)
        r).matchCount = specMatchCount items r ∧
    0 < specIngredientCount r ∧
    specIngredientCount r *
        (2 * (annotate (items.map (fun i => i.name)) (urgentItemsOf parseDate now items)
          r).matchPercentage) ≤
      200 * specMatchCount items r + specIngredientCount r ∧
    200 * specMatchCount items r ≤
      specIngredientCount r *
        (2 * (annotate (items.map (fun i => i.name)) (urgentItemsOf parseDate now items)
          r).matchPercentage) + specIngredientCount r ∧
    (200 * specMatchCount items r ≠
        specIngredientCount r *
          (2 * (annotate (items.map (fun i => i.name)) (urgentItemsOf parseDate now items)
            r).matchPercentage + 1) →
      (annotate (items.map (fun i => i.name)) (urgentItemsOf parseDate now items)
          r).matchPercentage =
        (200 * specMatchCount items r + specIngredientCount r) /
          (2 * specIngredientCount r)) := by
  have hmc : matchCountOf (items.map (fun i => i.name)) r = specMatchCount items r := by
    unfold matchCountOf specMatchCount
    cases r.ingredients with
    | none => rfl
    | some ings =>
      simp only [List.countP_eq_length_filter]
      congr 2
      funext ing
      simp
  have hic : ingredientCountOf r = specIngredientCount r := by
    unfold ingredientCountOf specIngredientCount
    cases r.ingredients with
    | none => rfl
    | some ings =>
      cases ings with
      | nil => rfl
      | cons x xs => simp
  have hpos : 0 < specIngredientCount r := by
    unfold specIngredientCount
    cases r.ingredients with
    | none => decide
    | some ings =>
      cases ings with
      | nil => decide
      | cons x xs => simp
  have hle : specMatchCount items r ≤ specIngredientCount r := by
    unfold specMatchCount specIngredientCount
    cases r.ingredients with
    | none => exact Nat.zero_le _
    | some ings =>
      cases ings with
      | nil => exact Nat.zero_le _
      | cons x xs => exact List.countP_le_length _
  have hlt : specIngredientCount r < 2 ^ 32 := by
    unfold specIngredientCount
    cases hr : r.ingredients with
    | none => decide
    | some ings =>
      rw [hr] at hlen
      cases ings with
      | nil => decide
      | cons x xs => simpa using hlen
  have hp : (annotate (items.map (fun i => i.name)) (urgentItemsOf parseDate now items)
      r).matchPercentage =
      matchPercentageOf (specMatchCount items r) (specIngredientCount r) := by
    unfold annotate
    simp only [hmc, hic]
  obtain ⟨h1, h2⟩ := matchPercentageOf_near (specMatchCount items r) (specIngredientCount r)
    hpos hle hlt
  rw [hp]
  refine ⟨hmc, hpos, h1, h2, fun hne => ?_⟩
  apply Nat.le_antisymm
  · rw [Nat.le_div_iff_mul_le (by omega)]
    calc matchPercentageOf (specMatchCount items r) (specIngredientCount r) *
            (2 * specIngredientCount r)
        = specIngredientCount r *
            (2 * matchPercentageOf (specMatchCount items r) (specIngredientCount r)) := by
          ring
      _ ≤ _ := h1
  · apply Nat.le_of_lt_succ
    rw [Nat.div_lt_iff_lt_mul (by omega)]
    have e : (matchPercentageOf (specMatchCount items r) (specIngredientCount r)).succ *
        (2 * specIngredientCount r) =
        specIngredientCount r *
          (2 * matchPercentageOf (specMatchCount items r) (specIngredientCount r)) +
        2 * specIngredientCount r := by
      rw [Nat.succ_eq_add_one]
      ring
    have e2 : specIngredientCount r *
        (2 * matchPercentageOf (specMatchCount items r) (specIngredientCount r) + 1) =
        specIngredientCount r *
          (2 * matchPercentageOf (specMatchCount items r) (specIngredientCount r)) +
        specIngredientCount r := by ring
    rw [e]
    rw [e2] at hne
    omega

/-- Witness for C3: Omelet(egg, milk) against an inventory holding one egg. -/
theorem annotate_matchCount_matchPercentage_witness :
    (annotate ([eggItem].map (fun i => i.name)) (urgentItemsOf sampleParse 0 [eggItem])
        omelet).matchCount = 1 ∧
    (annotate ([eggItem].map (fun i => i.name)) (urgentItemsOf sampleParse 0 [eggItem])
        omelet).matchPercentage = 50 ∧
    ((annotate ([eggItem].map (fun i => i.name)) (urgentItemsOf sampleParse 0 [eggItem])
        omelet).matchCount = specMatchCount [eggItem] omelet ∧
    0 < specIngredientCount omelet ∧
    specIngredientCount omelet *
        (2 * (annotate ([eggItem].map (fun i => i.name))
          (urgentItemsOf sampleParse 0 [eggItem]) omelet).matchPercentage) ≤
      200 * specMatchCount [eggItem] omelet + specIngredientCount omelet ∧
    200 * specMatchCount [eggItem] omelet ≤
      specIngredientCount omelet *
        (2 * (annotate ([eggItem].map (fun i => i.name))
          (urgentItemsOf sampleParse 0 [eggItem]) omelet).matchPercentage) +
        specIngredientCount omelet ∧
    (200 * specMatchCount [eggItem] omelet ≠
        specIngredientCount omelet *
          (2 * (annotate ([eggItem].map (fun i => i.name))
            (urgentItemsOf sampleParse 0 [eggItem]) omelet).matchPercentage + 1) →
      (annotate ([eggItem].map (fun i => i.name)) (urgentItemsOf sampleParse 0 [eggItem])
          omelet).matchPercentage =
        (200 * specMatchCount [eggItem] omelet + specIngredientCount omelet) /
          (2 * specIngredientCount omelet))) :=
  ⟨by decide, by decide,
    annotate_matchCount_matchPercentage sampleParse 0 [eggItem] omelet (by decide)⟩

/-- C4. For a non-empty item list, the `hasUrgent` flag that `generateRecipes`
computes for a recipe is true exactly when some ingredient of the recipe is the name
of an item whose `getDaysUntilExpiry` value is at most 3 (zero and negative values
included); it is false for a recipe whose ingredients are absent or empty. The same
holds of every entry that `generateRecipes` returns. -/
theorem hasUrgent_iff_ingredient_expires_soon (parseDate : String → Option Int)
    (now : Int) (items : List Item) (customRecipes : List Recipe) (h : items ≠ []) :
    (∀ r : Recipe,
      ((annotate (items.map (fun i => i.name)) (urgentItemsOf parseDate now items)
          r).hasUrgent = true ↔
        ∃ ings, r.ingredients = some ings ∧ ∃ ing ∈ ings, ∃ i ∈ items,
          i.name = ing ∧ getDaysUntilExpiry parseDate now i.expiryDate ≤ 3) ∧
      (r.ingredients = none ∨ r.ingredients = some [] →
        (annotate (items.map (fun i => i.name)) (urgentItemsOf parseDate now items)
          r).hasUrgent = false)) ∧
    (∀ a ∈ generateRecipes parseDate now items customRecipes,
      (a.hasUrgent = true ↔
        ∃ ings, a.recipe.ingredients = some ings ∧ ∃ ing ∈ ings, ∃ i ∈ items,
          i.name = ing ∧ getDaysUntilExpiry parseDate now i.expiryDate ≤ 3)) := by
  have key : ∀ r : Recipe,
      ((annotate (items.map (fun i => i.name)) (urgentItemsOf parseDate now items)
          r).hasUrgent = true ↔
        ∃ ings, r.ingredients = some ings ∧ ∃ ing ∈ ings, ∃ i ∈ items,
          i.name = ing ∧ getDaysUntilExpiry parseDate now i.expiryDate ≤ 3) := by
    intro r
    unfold annotate hasUrgentOf urgentItemsOf
    cases hr : r.ingredients with
    | none => simp
    | some ings =>
      simp only [List.any_eq_true, List.mem_filter, decide_eq_true_eq, beq_iff_eq,
        Option.some.injEq, exists_eq_left']
      constructor
      · rintro ⟨ing, hing, i, ⟨hi, hd⟩, hn⟩
        exact ⟨ing, hing, i, hi, hn, hd⟩
      · rintro ⟨ing, hing, i, hi, hn, hd⟩
        exact ⟨ing, hing, i, ⟨hi, hd⟩, hn⟩
  refine ⟨fun r => ⟨key r, ?_⟩, ?_⟩
  · rintro (hr | hr) <;> simp [annotate, hasUrgentOf, hr]
  · intro a ha
    have ha2 := (mem_generateRecipes_eq_annotate parseDate now items
      customRecipes h a ha)
    rw [ha2]
    exact key a.recipe

/-- Witness for C4, on the inventory with an urgent egg and a non-urgent milk. -/
theorem hasUrgent_iff_ingredient_expires_soon_witness :
    (annotate ([milkItem, eggItem].map (fun i => i.name))
        (urgentItemsOf sampleParse 0 [milkItem, eggItem]) eggToast).hasUrgent = true ∧
    (annotate ([milkItem, eggItem].map (fun i => i.name))
        (urgentItemsOf sampleParse 0 [milkItem, eggItem]) latte).hasUrgent = false ∧
    ((∀ r : Recipe,
      ((annotate ([milkItem, eggItem].map (fun i => i.name))
          (urgentItemsOf sampleParse 0 [milkItem, eggItem]) r).hasUrgent = true ↔
        ∃ ings, r.ingredients = some ings ∧ ∃ ing ∈ ings, ∃ i ∈ [milkItem, eggItem],
          i.name = ing ∧ getDaysUntilExpiry sampleParse 0 i.expiryDate ≤ 3) ∧
      (r.ingredients = none ∨ r.ingredients = some [] →
        (annotate ([milkItem, eggItem].map (fun i => i.name))
          (urgentItemsOf sampleParse 0 [milkItem, eggItem]) r).hasUrgent = false)) ∧
    (∀ a ∈ generateRecipes sampleParse 0 [milkItem, eggItem] [latte, eggToast],
      (a.hasUrgent = true ↔
        ∃ ings, a.recipe.ingredients = some ings ∧ ∃ ing ∈ ings,
          ∃ i ∈ [milkItem, eggItem],
          i.name = ing ∧ getDaysUntilExpiry sampleParse 0 i.expiryDate ≤ 3))) :=
  ⟨by decide, by decide,
    hasUrgent_iff_ingredient_expires_soon sampleParse 0 [milkItem, eggItem]
      [latte, eggToast] (by decide)⟩

/-- C5. With an empty item list `generateRecipes` returns one entry per input recipe,
in input order, each holding the unchanged recipe with `matchCount = 0`,
`matchPercentage = 0` and `hasUrgent = false`; no recipe is removed, whatever its
ingredients. -/
theorem generateRecipes_empty_inventory (parseDate : String → Option Int) (now : Int)
    (customRecipes : List Recipe) :
    generateRecipes parseDate now [] customRecipes =
        (RECIPE_DB ++ customRecipes).map
          (fun r => { recipe := r, matchCount := 0, matchPercentage := 0,
                      hasUrgent := false }) ∧
    (generateRecipes parseDate now [] customRecipes).map (fun a => a.recipe) =
        RECIPE_DB ++ customRecipes ∧
    (generateRecipes parseDate now [] customRecipes).length =
        (RECIPE_DB ++ customRecipes).length ∧
    (∀ a ∈ generateRecipes parseDate now [] customRecipes,
        a.matchCount = 0 ∧ a.matchPercentage = 0 ∧ a.hasUrgent = false) := by
  have h : generateRecipes parseDate now [] customRecipes =
      (RECIPE_DB ++ customRecipes).map
        (fun r => { recipe := r, matchCount := 0, matchPercentage := 0,
                    hasUrgent := false }) := by
    simp [generateRecipes]
  rw [h]
  refine ⟨rfl, ?_, by simp, ?_⟩
  · rw [List.map_map]
    exact List.map_id _
  · intro a ha
    rw [List.mem_map] at ha
    obtain ⟨r, _, rfl⟩ := ha
    exact ⟨rfl, rfl, rfl⟩

/-! ## Recipe store: the properties -/

theorem stampImported_length (freshId : Nat → Nat) (k : Nat) (l : List Recipe) :
    (stampImported freshId k l).length = l.length := by
  induction l generalizing k with
  | nil => rfl
  | cons r rs ih => simp [stampImported, ih]

theorem stampImported_getElem? (freshId : Nat → Nat) (k : Nat) (l : List Recipe) (i : Nat) :
    (stampImported freshId k l)[i]? =
      (l[i]?).map (fun r => stampRecipe (freshId (k + i)) r) := by
  induction l generalizing k i with
  | nil => simp [stampImported]
  | cons r rs ih =>
    cases i with
    | zero => simp [stampImported]
    | succ j =>
      simp only [stampImported, List.getElem?_cons_succ, ih]
      have : k + 1 + j = k + (j + 1) := by omega
      rw [this]

/-- C6 (evaluation of the code). `importRecipes` accepts a record whose `ingredients`
is the empty array: the filter only asks `Array.isArray(r.ingredients)`. The record
is counted and appended to the store. -/
theorem importRecipes_accepts_empty_ingredients :
    isValidImport emptyIngredientsCandidate = true ∧
    emptyIngredientsCandidate.ingredients = some [] ∧
    importRecipes (fun k => 1000 + k) [] [emptyIngredientsCandidate] =
      (1, [stampRecipe 1000 emptyIngredientsCandidate]) := by
  decide

/-- C7. `importRecipes` returns the number `k` of records that pass its filter, and
the new store is the old store followed by exactly those records, in input order,
each unchanged except for a generated `id` and `isCustom = true`; with `k = 0` it
returns 0 and the store is unchanged; rejected records are not appended. On the two records A (complete) and a record
with an empty name it returns 1 and appends one recipe. -/
theorem importRecipes_appends_accepted (freshId : Nat → Nat)
    (recipes importedRecipes : List Recipe) :
    (importRecipes freshId recipes importedRecipes).1 =
        (importedRecipes.filter isValidImport).length ∧
    (∃ added : List Recipe,
        (importRecipes freshId recipes importedRecipes).2 = recipes ++ added ∧
        added.length = (importedRecipes.filter isValidImport).length ∧
        ∀ i : Nat, added[i]? =
          ((importedRecipes.filter isValidImport)[i]?).map
            (fun r => stampRecipe (freshId i) r)) ∧
    ((importedRecipes.filter isValidImport).length = 0 →
        importRecipes freshId recipes importedRecipes = (0, recipes)) ∧
    (∀ (newId : Nat) (r : Recipe),
        (stampRecipe newId r).name = r.name ∧
        (stampRecipe newId r).description = r.description ∧
        (stampRecipe newId r).cookingTime = r.cookingTime ∧
        (stampRecipe newId r).ingredients = r.ingredients ∧
        (stampRecipe newId r).url = r.url ∧
        (stampRecipe newId r).recipeCategory = r.recipeCategory ∧
        (stampRecipe newId r).id = some newId ∧
        (stampRecipe newId r).isCustom = some true) ∧
    importRecipes freshId [] [candidateA, emptyNameCandidate] =
        (1, [stampRecipe (freshId 0) candidateA]) := by
  have hstamp : ∀ (newId : Nat) (r : Recipe),
      (stampRecipe newId r).name = r.name ∧
      (stampRecipe newId r).description = r.description ∧
      (stampRecipe newId r).cookingTime = r.cookingTime ∧
      (stampRecipe newId r).ingredients = r.ingredients ∧
      (stampRecipe newId r).url = r.url ∧
      (stampRecipe newId r).recipeCategory = r.recipeCategory ∧
      (stampRecipe newId r).id = some newId ∧
      (stampRecipe newId r).isCustom = some true :=
    fun _ _ => ⟨rfl, rfl, rfl, rfl, rfl, rfl, rfl, rfl⟩
  by_cases hk : (importedRecipes.filter isValidImport).length = 0
  · have hnil : importedRecipes.filter isValidImport = [] := List.length_eq_zero.mp hk
    have heq : importRecipes freshId recipes importedRecipes = (0, recipes) := by
      simp [importRecipes, hnil]
    rw [heq, hnil]
    exact ⟨rfl, ⟨[], by simp, rfl, fun i => by simp⟩, fun _ => rfl, hstamp, rfl⟩
  · have heq : importRecipes freshId recipes importedRecipes =
        ((importedRecipes.filter isValidImport).length,
          recipes ++ stampImported freshId 0 (importedRecipes.filter isValidImport)) := by
      simp only [importRecipes, hk, if_false]
    rw [heq]
    refine ⟨rfl, ⟨stampImported freshId 0 (importedRecipes.filter isValidImport), rfl,
      stampImported_length _ _ _, fun i => ?_⟩, fun h => absurd h hk, hstamp, rfl⟩
    rw [stampImported_getElem?, Nat.zero_add]

/-! ## Recipe selection: the properties -/

/-- C8 (evaluation of the code). Two recipes without an id and with different names
are treated as the same selection, because `r.id === recipe.id` already holds when
both ids are absent: with A selected, B is shown as selected, and toggling B removes
A instead of adding B. -/
theorem sameSelection_idless_different_names :
    bundledA.recipe.id = none ∧ bundledB.recipe.id = none ∧
    bundledA.recipe.name ≠ bundledB.recipe.name ∧
    sameSelection bundledA bundledB = true ∧
    isRecipeSelected [bundledA] bundledB = true ∧
    toggleRecipeSelection [bundledA] bundledB = [] := by
  decide

/-! ## Inventory store: the properties -/

/-- C9. `addItem` returns false and leaves the item list unchanged exactly when
`name`, `quantity` or `expiryDate` is empty or `expiryDate` does not parse; otherwise
it returns true and the new list is the old list followed by one new item that
carries the given `expiryDate` and `category`. -/
theorem addItem_rejects_iff_invalid (parseDate : String → Option Int) (dateNow : Nat)
    (today : String) (items : List Item) (name quantity expiryDate category : String) :
    (((addItem parseDate dateNow today items name quantity expiryDate category).1 = false ∧
        (addItem parseDate dateNow today items name quantity expiryDate category).2 = items) ↔
      (name = "" ∨ quantity = "" ∨ expiryDate = "" ∨ parseDate expiryDate = none)) ∧
    (¬ (name = "" ∨ quantity = "" ∨ expiryDate = "" ∨ parseDate expiryDate = none) →
      ∃ newItem : Item,
        addItem parseDate dateNow today items name quantity expiryDate category =
          (true, items ++ [newItem]) ∧
        newItem.expiryDate = expiryDate ∧ newItem.category = category) := by
  by_cases h1 : name = "" ∨ quantity = "" ∨ expiryDate = ""
  · have heq : addItem parseDate dateNow today items name quantity expiryDate category =
        (false, items) := by
      simp only [addItem, h1, if_true]
    have hc : name = "" ∨ quantity = "" ∨ expiryDate = "" ∨ parseDate expiryDate = none := by
      tauto
    rw [heq]
    exact ⟨⟨fun _ => hc, fun _ => ⟨rfl, rfl⟩⟩, fun hn => absurd hc hn⟩
  · cases hp : parseDate expiryDate with
    | none =>
      have heq : addItem parseDate dateNow today items name quantity expiryDate category =
          (false, items) := by
        simp only [addItem, h1, if_false, hp]
      rw [heq]
      exact ⟨⟨fun _ => by tauto, fun _ => ⟨rfl, rfl⟩⟩, fun hn => absurd (by tauto) hn⟩
    | some e =>
      have heq : addItem parseDate dateNow today items name quantity expiryDate category =
          (true, items ++ [{ id := dateNow, name := jsTrim name, quantity := jsTrim quantity,
                             expiryDate := expiryDate, category := category,
                             addedDate := today }]) := by
        simp only [addItem, h1, if_false, hp]
      rw [heq]
      refine ⟨⟨fun h => ?_, fun h => ?_⟩, fun _ => ⟨_, rfl, rfl, rfl⟩⟩
      · exact absurd h.1 (by simp)
      · exfalso
        rcases h with h | h | h | h
        · exact h1 (Or.inl h)
        · exact h1 (Or.inr (Or.inl h))
        · exact h1 (Or.inr (Or.inr h))
        · exact absurd h (by simp)

/-- C10 (evaluation of the code). `addItem` tests `name` and `quantity` for emptiness
before trimming and stores the trimmed text: with a name and a quantity made of
blanks it returns true and appends an item whose name and quantity are empty. -/
theorem addItem_stores_empty_name :
    addItem sampleParse 7 "1970-01-01" [] "  " " " "1970-01-03" "기타" =
      (true, [{ id := 7, name := "", quantity := "", expiryDate := "1970-01-03",
                category := "기타", addedDate := "1970-01-01" }]) := by
  decide

/-! ## Lemmas on numbers and their decimal text -/

set_option exponentiation.threshold 1100

theorem roundHalfEven_one (x : Nat) : roundHalfEven x 1 = x := by
  simp [roundHalfEven, Nat.mod_one]

theorem mkFin_mul_right (n k : Nat) (hk : 0 < k) : mkFin (n * k) k = JsNumber.fin n 1 := by
  unfold mkFin
  simp only [Nat.gcd_mul_left_left]
  rw [if_neg (by omega), Nat.mul_div_cancel n hk, Nat.div_self hk]
  rfl

theorem fl_nat (n : Nat) (h0 : 0 < n) (h : n < 2 ^ 53) :
    fl n 1 = (n * 2 ^ scaleUp n 1 (52 + 1) 0, 2 ^ scaleUp n 1 (52 + 1) 0) := by
  unfold fl
  rw [if_neg (by omega), if_pos (by omega)]
  simp only [roundHalfEven_one]

/-- A natural number up to `2 ^ 53` is a double. -/
theorem toDouble_nat (n : Nat) (h : n ≤ 2 ^ 53) : toDouble n 1 = JsNumber.fin n 1 := by
  rcases Nat.eq_zero_or_pos n with h0 | h0
  · subst h0
    rfl
  · rcases Nat.lt_or_eq_of_le h with hlt | heq
    · unfold toDouble
      have h1 : ¬ (n * 2 ^ 1022 < 1) := by
        have : 0 < n * 2 ^ 1022 := Nat.mul_pos h0 (Nat.pow_pos (by decide))
        omega
      rw [if_neg (by omega), if_neg h1, fl_nat n h0 hlt]
      simp only []
      have h2 : ¬ (2 ^ 1024 * 2 ^ scaleUp n 1 (52 + 1) 0 ≤ n * 2 ^ scaleUp n 1 (52 + 1) 0) := by
        intro hc
        have hn : 2 ^ 1024 ≤ n := Nat.le_of_mul_le_mul_right hc (Nat.pow_pos (by decide))
        have : (2 : Nat) ^ 53 < 2 ^ 1024 := Nat.pow_lt_pow_right (by decide) (by decide)
        omega
      rw [if_neg h2]
      exact mkFin_mul_right n _ (Nat.pow_pos (by decide))
    · subst heq
      decide

theorem digitChar_spec : ∀ d, d < 10 →
    (Nat.digitChar d).isDigit = true ∧ (Nat.digitChar d).toNat - 48 = d := by
  decide

theorem digitsValue_append_singleton (X : List Char) (c : Char) :
    digitsValue (X ++ [c]) = 10 * digitsValue X + (c.toNat - 48) := by
  simp [digitsValue, List.foldl_append]

theorem toDigitsCore_spec (fuel : Nat) : ∀ (n : Nat) (ds : List Char), n < 10 ^ (fuel + 1) →
    ∃ X, Nat.toDigitsCore 10 (fuel + 1) n ds = X ++ ds ∧ X ≠ [] ∧
      (∀ c ∈ X, c.isDigit = true) ∧ digitsValue X = n := by
  induction fuel with
  | zero =>
    intro n ds h
    have hn : n < 10 := by simpa using h
    have hd := digitChar_spec n hn
    refine ⟨[Nat.digitChar n], ?_, by simp, ?_, ?_⟩
    · simp [Nat.toDigitsCore, Nat.div_eq_of_lt hn, Nat.mod_eq_of_lt hn]
    · intro c hc
      simp only [List.mem_singleton] at hc
      rw [hc]
      exact hd.1
    · simp [digitsValue, hd.2]
  | succ f ih =>
    intro n ds h
    have hmod : n % 10 < 10 := Nat.mod_lt n (by decide)
    have hd := digitChar_spec (n % 10) hmod
    by_cases hdiv : n / 10 = 0
    · have hn : n < 10 := by omega
      refine ⟨[Nat.digitChar (n % 10)], ?_, by simp, ?_, ?_⟩
      · simp [Nat.toDigitsCore, hdiv]
      · intro c hc
        simp only [List.mem_singleton] at hc
        rw [hc]
        exact hd.1
      · have h2 := hd.2
        rw [Nat.mod_eq_of_lt hn] at h2 ⊢
        simp [digitsValue, h2]
    · have hlt : n / 10 < 10 ^ (f + 1) := by
        rw [Nat.div_lt_iff_lt_mul (by decide)]
        rw [pow_succ] at h
        exact h
      obtain ⟨X, hX, hne, hdig, hval⟩ := ih (n / 10) (Nat.digitChar (n % 10) :: ds) hlt
      refine ⟨X ++ [Nat.digitChar (n % 10)], ?_, by simp, ?_, ?_⟩
      · rw [Nat.toDigitsCore]
        simp only [hdiv, if_false]
        rw [hX]
        simp
      · intro c hc
        rw [List.mem_append] at hc
        rcases hc with hc | hc
        · exact hdig c hc
        · simp only [List.mem_singleton] at hc
          rw [hc]
          exact hd.1
      · rw [digitsValue_append_singleton, hval, hd.2]
        omega

/-- The decimal numeral of `n`: a non-empty string of digits whose value is `n`. -/
theorem toDigits_spec (n : Nat) :
    Nat.toDigits 10 n ≠ [] ∧ (∀ c ∈ Nat.toDigits 10 n, c.isDigit = true) ∧
      digitsValue (Nat.toDigits 10 n) = n := by
  have h : n < 10 ^ (n + 1) := Nat.lt_of_lt_of_le (Nat.lt_pow_self (by decide) n)
    (Nat.pow_le_pow_right (by decide) (Nat.le_succ n))
  obtain ⟨X, hX, hne, hdig, hval⟩ := toDigitsCore_spec n n [] h
  have hX2 : Nat.toDigits 10 n = X := by
    unfold Nat.toDigits
    rw [hX, List.append_nil]
  rw [hX2]
  exact ⟨hne, hdig, hval⟩

/-- Sample values of the conversion of a number to text: on integers the general
rule gives the decimal numeral, and the texts of `0.1`, `1.1 - 1`, `10 ^ 21`,
`2 ^ 60` and `10 ^ (-7)` are the ones the language prints. -/
theorem numberToString_samples :
    (∀ n ∈ [1, 2, 9, 10, 35, 100, 500, 1024, 99999, 120000, 2 ^ 52 + 1, 2 ^ 53 - 1, 2 ^ 53],
      shortestToString n 1 = String.mk (Nat.toDigits 10 n)) ∧
    numberToString (toDouble 1 10) = "0.1" ∧
    numberToString (jsAdd (toDouble 11 10) (-1)) = "0.10000000000000009" ∧
    numberToString (toDouble (10 ^ 21) 1) = "1e+21" ∧
    numberToString (toDouble (2 ^ 60) 1) = "1152921504606847000" ∧
    numberToString (toDouble 1 (10 ^ 7)) = "1e-7" := by
  decide

/-! ## Lemmas on trimming and on the quantity pattern -/

theorem jsTrim_data (s : String) :
    (jsTrim s).data = (s.data.dropWhile isJsWhitespace).rdropWhile isJsWhitespace := rfl

theorem trimmed_no_leading (l : List Char) :
    ((l.dropWhile isJsWhitespace).rdropWhile isJsWhitespace).dropWhile isJsWhitespace =
      (l.dropWhile isJsWhitespace).rdropWhile isJsWhitespace := by
  have hm : (l.dropWhile isJsWhitespace).dropWhile isJsWhitespace =
      l.dropWhile isJsWhitespace := List.dropWhile_idempotent _ _
  have hpre : (l.dropWhile isJsWhitespace).rdropWhile isJsWhitespace <+:
      l.dropWhile isJsWhitespace := List.rdropWhile_prefix _ _
  generalize l.dropWhile isJsWhitespace = m at hm hpre
  cases m with
  | nil =>
    have : List.rdropWhile isJsWhitespace ([] : List Char) = [] := by simp [List.rdropWhile]
    rw [this]
    rfl
  | cons a t =>
    have ha : isJsWhitespace a = false := by
      have := (List.dropWhile_eq_self_iff).mp hm (by simp)
      simpa using this
    generalize List.rdropWhile isJsWhitespace (a :: t) = r at hpre
    cases r with
    | nil => rfl
    | cons b t2 =>
      obtain ⟨k, hk⟩ := hpre
      have hb : b = a := by
        simp only [List.cons_append, List.cons.injEq] at hk
        exact hk.1
      subst hb
      simp [List.dropWhile, ha]

theorem jsTrim_no_leading (s : String) :
    (jsTrim s).data.dropWhile isJsWhitespace = (jsTrim s).data := by
  rw [jsTrim_data]
  exact trimmed_no_leading s.data

theorem jsTrim_idempotent (s : String) : jsTrim (jsTrim s) = jsTrim s := by
  apply String.ext
  rw [jsTrim_data (jsTrim s), jsTrim_no_leading, jsTrim_data s]
  exact List.rdropWhile_idempotent _ _

theorem mem_jsTrim (s : String) (c : Char) (h : c ∈ (jsTrim s).data) : c ∈ s.data := by
  rw [jsTrim_data] at h
  exact (List.dropWhile_sublist _).subset
    ((List.rdropWhile_prefix isJsWhitespace _).sublist.subset h)

theorem digit_isDigitOrDot (c : Char) (h : c.isDigit = true) : isDigitOrDot c = true := by
  simp [isDigitOrDot, h]

/-- The pattern splits a numeral followed by a clean unit into the numeral and the
unit. -/
theorem matchQuantity_numeral_append (X U : List Char) (hne : X ≠ [])
    (hdig : ∀ c ∈ X, c.isDigit = true)
    (hws : U.dropWhile isJsWhitespace = U)
    (hlt : ∀ c ∈ U, isLineTerminator c = false)
    (hhead : ∀ c ∈ U.head?, isDigitOrDot c = false) :
    matchQuantity (X ++ U) = some (X, U) := by
  have hX : ∀ c ∈ X, isDigitOrDot c = true := fun c hc => digit_isDigitOrDot c (hdig c hc)
  have htU : U.takeWhile isDigitOrDot = [] := by
    cases U with
    | nil => rfl
    | cons a t =>
      have := hhead a (by simp)
      simp [List.takeWhile, this]
  have hdU : U.dropWhile isDigitOrDot = U := by
    cases U with
    | nil => rfl
    | cons a t =>
      have := hhead a (by simp)
      simp [List.dropWhile, this]
  have hany : U.any isLineTerminator = false := by
    rw [List.any_eq_false]
    intro c hc
    simp [hlt c hc]
  unfold matchQuantity
  simp only [List.takeWhile_append_of_pos hX, List.dropWhile_append_of_pos hX, htU, hdU, hws,
    List.append_nil, hany]
  simp [hne]

theorem parseFloat_digits (X : List Char) (hne : X ≠ []) (hdig : ∀ c ∈ X, c.isDigit = true) :
    parseFloat X = toDouble (digitsValue X) 1 := by
  have h1 : X.takeWhile Char.isDigit = X := List.takeWhile_eq_self_iff.mpr hdig
  have h2 : X.dropWhile Char.isDigit = [] := by
    rw [List.dropWhile_eq_nil_iff]
    exact hdig
  unfold parseFloat
  simp only [h1, h2]
  simp [hne]

theorem no_leading_of_trimmed (u : String) (h : jsTrim u = u) :
    u.data.dropWhile isJsWhitespace = u.data := by
  have := jsTrim_no_leading u
  rwa [h] at this

/-- Parsing a numeral followed by a clean unit gives back the number and the unit. -/
theorem parseQuantity_numeral_append (n : Nat) (hn : n ≤ 2 ^ 53) (u : String)
    (htrim : jsTrim u = u) (hlt : ∀ c ∈ u.toList, isLineTerminator c = false)
    (hhead : ∀ c ∈ u.toList.head?, isDigitOrDot c = false) :
    parseQuantity (String.mk (Nat.toDigits 10 n) ++ u) =
      { number := JsNumber.fin n 1, unit := u } := by
  obtain ⟨hne, hdig, hval⟩ := toDigits_spec n
  have hm : matchQuantity (String.mk (Nat.toDigits 10 n) ++ u).toList =
      some (Nat.toDigits 10 n, u.data) :=
    matchQuantity_numeral_append _ _ hne hdig (no_leading_of_trimmed u htrim) hlt hhead
  unfold parseQuantity
  rw [hm]
  simp only []
  rw [parseFloat_digits _ hne hdig, hval, toDouble_nat n hn]
  have hu : jsTrim (String.mk u.data) = u := htrim
  rw [hu]
  have hz : jsOrZero (JsNumber.fin n 1) = JsNumber.fin n 1 := by
    show (if (n : Int) = 0 then JsNumber.fin 0 1 else JsNumber.fin n 1) = JsNumber.fin n 1
    split_ifs with h0
    · rw [h0]
    · rfl
  rw [hz]

/-- The text that `formatQuantity` builds for a natural number up to `2 ^ 53`. -/
theorem formatQuantity_nat (n : Nat) (hn : n ≤ 2 ^ 53) (u : String) :
    formatQuantity (JsNumber.fin n 1) u = String.mk (Nat.toDigits 10 n) ++ u := by
  have hnum : n ≠ 0 → numberToString (JsNumber.fin n 1) = String.mk (Nat.toDigits 10 n) := by
    intro h0
    have h1 : ¬ ((n : Int) = 0) := by exact_mod_cast h0
    have h2 : ¬ ((n : Int) < 0) := by omega
    unfold numberToString positiveToString
    simp only [h1, h2, if_false, Int.natAbs_ofNat]
    rw [if_pos (And.intro trivial hn)]
  have hempty : ∀ s : String, s ++ "" = s := fun s => by
    apply String.ext
    simp
  unfold formatQuantity jsIsZero
  by_cases h0 : n = 0
  · subst h0
    by_cases hu : u = ""
    · subst hu
      decide
    · simp [hu]
      rfl
  · have h1 : ¬ ((n : Int) = 0) := by exact_mod_cast h0
    by_cases hu : u = ""
    · subst hu
      simp [h1, hnum h0, hempty]
    · simp [h1, hu, hnum h0]

theorem mkFin_nonNeg (a b : Nat) : (mkFin a b).NonNeg := by
  unfold mkFin
  simp only []
  split_ifs
  · exact Int.le_refl 0
  · exact Int.ofNat_nonneg _

theorem toDouble_nonNeg (a b : Nat) : (toDouble a b).NonNeg := by
  unfold toDouble
  simp only []
  split_ifs
  · exact Int.le_refl 0
  · exact mkFin_nonNeg _ _
  · rfl
  · exact mkFin_nonNeg _ _

theorem jsOrZero_nonNeg (x : JsNumber) (h : x = JsNumber.nan ∨ x.NonNeg) :
    (jsOrZero x).NonNeg := by
  cases x with
  | nan => exact Int.le_refl 0
  | inf s =>
    rcases h with h | h
    · cases h
    · exact h
  | fin p q =>
    rcases h with h | h
    · cases h
    · show (if p = 0 then JsNumber.fin 0 1 else JsNumber.fin p q).NonNeg
      split_ifs
      · exact Int.le_refl 0
      · exact h

theorem parseFloat_nan_or_nonNeg (cs : List Char) :
    parseFloat cs = JsNumber.nan ∨ (parseFloat cs).NonNeg := by
  unfold parseFloat
  simp only []
  split_ifs
  · exact Or.inl rfl
  · exact Or.inr (toDouble_nonNeg _ _)

/-- The magnitude that `parseQuantity` returns is never `NaN` and never negative. -/
theorem parseQuantity_nonNeg (s : String) : (parseQuantity s).number.NonNeg := by
  unfold parseQuantity
  cases matchQuantity s.toList with
  | none => exact Int.le_refl 0
  | some g => exact jsOrZero_nonNeg _ (parseFloat_nan_or_nonNeg _)

theorem not_nan_of_nonNeg (x : JsNumber) (h : x.NonNeg) :
    jsIsNaN x = false ∧ jsLtZero x = false := by
  cases x with
  | nan => exact absurd h (fun h => h)
  | inf s => exact ⟨rfl, h⟩
  | fin p q =>
    refine ⟨rfl, ?_⟩
    show decide (p < 0) = false
    have hp : 0 ≤ p := h
    simp [hp]

theorem mathMaxZero_jsAdd_nonNeg (x : JsNumber) (d : Int) (h : x.NonNeg) :
    (mathMaxZero (jsAdd x d)).NonNeg := by
  have key : ∀ y : JsNumber, y ≠ JsNumber.nan → (mathMaxZero y).NonNeg := by
    intro y hy
    cases y with
    | nan => exact absurd rfl hy
    | inf s =>
      show (if s then JsNumber.fin 0 1 else JsNumber.inf false).NonNeg
      split_ifs
      · exact Int.le_refl 0
      · rfl
    | fin p q =>
      show (if p < 0 then JsNumber.fin 0 1 else JsNumber.fin p q).NonNeg
      split_ifs with hp
      · exact Int.le_refl 0
      · exact Int.not_lt.mp hp
  have hneg : ∀ y : JsNumber, y.NonNeg → jsNeg y ≠ JsNumber.nan := by
    intro y hy
    cases y with
    | nan => exact absurd hy (fun h => h)
    | inf s => intro hc; cases hc
    | fin p q => intro hc; cases hc
  have hnn : ∀ y : JsNumber, y.NonNeg → y ≠ JsNumber.nan := by
    intro y hy hc
    rw [hc] at hy
    exact hy
  apply key
  cases x with
  | nan => exact absurd h (fun h => h)
  | inf s => intro hc; cases hc
  | fin p q =>
    show (if p + d * (q : Int) < 0 then jsNeg (toDouble (-(p + d * (q : Int))).toNat q)
      else toDouble (p + d * (q : Int)).toNat q) ≠ JsNumber.nan
    split_ifs
    · exact hneg _ (toDouble_nonNeg _ _)
    · exact hnn _ (toDouble_nonNeg _ _)

/-- The unit that `parseQuantity` returns is trimmed and holds no line terminator. -/
theorem parseQuantity_unit_clean (s : String) :
    jsTrim (parseQuantity s).unit = (parseQuantity s).unit ∧
    ∀ c ∈ (parseQuantity s).unit.toList, isLineTerminator c = false := by
  unfold parseQuantity
  cases hm : matchQuantity s.toList with
  | none => exact ⟨by decide, by intro c hc; cases hc⟩
  | some g =>
    obtain ⟨g1, g2⟩ := g
    simp only []
    refine ⟨jsTrim_idempotent _, ?_⟩
    intro c hc
    have hc2 : c ∈ g2 := mem_jsTrim (String.mk g2) c hc
    unfold matchQuantity at hm
    simp only [] at hm
    split_ifs at hm with hcond
    cases hm
    have hany : ¬ ((List.dropWhile isJsWhitespace
        (List.dropWhile isDigitOrDot s.toList)).any isLineTerminator = true) :=
      fun h => hcond (Or.inr h)
    rw [List.any_eq_true] at hany
    cases hlt : isLineTerminator c with
    | false => rfl
    | true => exact absurd ⟨c, hc2, hlt⟩ hany

/-! ## Quantity model: the properties -/

/-- C11 (counterexample). The round trip fails for the magnitude 2 with the unit
"5g": the text is "25g", which parses to 25 and "g". It also fails for a unit that
is not trimmed, for a unit that holds a line break, for the magnitude `10 ^ 21`,
whose text is "1e+21", and for the magnitude `10 ^ (-7)`, whose text is "1e-7". -/
theorem parse_format_roundtrip_fails :
    parseQuantity (formatQuantity (JsNumber.fin 2 1) "5g") =
        { number := JsNumber.fin 25 1, unit := "g" } ∧
    parseQuantity (formatQuantity (JsNumber.fin 2 1) "5g") ≠
        { number := JsNumber.fin 2 1, unit := "5g" } ∧
    parseQuantity (formatQuantity (JsNumber.fin 2 1) " kg") ≠
        { number := JsNumber.fin 2 1, unit := " kg" } ∧
    parseQuantity (formatQuantity (JsNumber.fin 2 1) "k\ng") ≠
        { number := JsNumber.fin 2 1, unit := "k\ng" } ∧
    formatQuantity (JsNumber.fin (10 ^ 21) 1) "kg" = "1e+21kg" ∧
    parseQuantity (formatQuantity (JsNumber.fin (10 ^ 21) 1) "kg") ≠
        { number := JsNumber.fin (10 ^ 21) 1, unit := "kg" } ∧
    formatQuantity (toDouble 1 (10 ^ 7)) "" = "1e-7" ∧
    parseQuantity (formatQuantity (toDouble 1 (10 ^ 7)) "") =
        { number := JsNumber.fin 1 1, unit := "e-7" } := by
  decide

/-- C11 (amended). For every natural number `m` up to `2 ^ 53` and every unit `u`
that is trimmed, holds no line terminator and does not begin with a digit or a dot,
`parseQuantity (formatQuantity m u)` is the magnitude `m` with the unit `u`; for
`m = 0` and the empty unit this is `(0, "")`. -/
theorem parse_format_roundtrip_integer (m : Nat) (u : String) (hm : m ≤ 2 ^ 53)
    (htrim : jsTrim u = u) (hlt : ∀ c ∈ u.toList, isLineTerminator c = false)
    (hhead : ∀ c ∈ u.toList.head?, isDigitOrDot c = false) :
    parseQuantity (formatQuantity (JsNumber.fin m 1) u) =
      { number := JsNumber.fin m 1, unit := u } := by
  rw [formatQuantity_nat m hm u]
  exact parseQuantity_numeral_append m hm u htrim hlt hhead

/-- Witness for C11 (amended): the magnitude 500 with the unit "g", and zero without
a unit. -/
theorem parse_format_roundtrip_integer_witness :
    formatQuantity (JsNumber.fin 500 1) "g" = "500g" ∧
    parseQuantity (formatQuantity (JsNumber.fin 500 1) "g") =
      { number := JsNumber.fin 500 1, unit := "g" } ∧
    parseQuantity (formatQuantity (JsNumber.fin (0 : Nat) 1) "") =
      { number := JsNumber.fin (0 : Nat) 1, unit := "" } :=
  ⟨by decide,
    parse_format_roundtrip_integer 500 "g" (by decide) (by decide) (by decide) (by decide),
    parse_format_roundtrip_integer 0 "" (by decide) (by decide) (by decide) (by decide)⟩

/-- C12 (counterexample). The text "2 5g" parses to 2 and "5g"; the step by +1
produces "35g", which parses to 35 and "g", not to 3 and "5g". For a magnitude that
is not an integer the step can produce a text in exponent form: "1.0000001" steps
down to "1.0000000005838672e-7", which parses to the unit "e-7". -/
theorem step_parse_back_fails :
    parseQuantity "2 5g" = { number := JsNumber.fin 2 1, unit := "5g" } ∧
    newQuantityOf "2 5g" 1 = "35g" ∧
    parseQuantity (newQuantityOf "2 5g" 1) = { number := JsNumber.fin 35 1, unit := "g" } ∧
    parseQuantity (newQuantityOf "2 5g" 1) ≠ { number := JsNumber.fin 3 1, unit := "5g" } ∧
    (parseQuantity "1.0000001").unit = "" ∧
    newQuantityOf "1.0000001" (-1) = "1.0000000005838672e-7" ∧
    (parseQuantity (newQuantityOf "1.0000001" (-1))).unit = "e-7" := by
  decide

/-- C12 (amended). For every text that parses to a natural number `m` below `2 ^ 53`
and a unit `u` that does not begin with a digit or a dot, and for `delta` +1 or -1,
the text produced by the step parses back to the magnitude `max 0 (m + delta)` and
to the unit `u`. -/
theorem step_parses_back_integer (t : String) (m : Nat) (u : String) (delta : Int)
    (hdelta : delta = 1 ∨ delta = -1) (hm : m < 2 ^ 53)
    (hparse : parseQuantity t = { number := JsNumber.fin m 1, unit := u })
    (hhead : ∀ c ∈ u.toList.head?, isDigitOrDot c = false) :
    parseQuantity (newQuantityOf t delta) =
      { number := JsNumber.fin (max 0 ((m : Int) + delta)) 1, unit := u } := by
  obtain ⟨htrim, hlt⟩ := parseQuantity_unit_clean t
  rw [hparse] at htrim hlt
  simp only [] at htrim hlt
  have hstep : ∃ k : Nat, k ≤ 2 ^ 53 ∧ ((k : Int) = max 0 ((m : Int) + delta)) ∧
      mathMaxZero (jsAdd (JsNumber.fin m 1) delta) = JsNumber.fin k 1 := by
    rcases hdelta with hd | hd
    · subst hd
      refine ⟨m + 1, by omega, by omega, ?_⟩
      have hs : ¬ ((m : Int) + 1 * ((1 : Nat) : Int) < 0) := by omega
      have hnat : ((m : Int) + 1 * ((1 : Nat) : Int)).toNat = m + 1 := by omega
      unfold jsAdd
      simp only [hs, if_false, hnat]
      rw [toDouble_nat (m + 1) (by omega)]
      show (if ((m + 1 : Nat) : Int) < 0 then JsNumber.fin 0 1
        else JsNumber.fin ((m + 1 : Nat) : Int) 1) = JsNumber.fin ((m + 1 : Nat) : Int) 1
      rw [if_neg (by omega)]
    · subst hd
      rcases Nat.eq_zero_or_pos m with h0 | h0
      · subst h0
        exact ⟨0, by omega, by decide, by decide⟩
      · refine ⟨m - 1, by omega, by omega, ?_⟩
        have hs : ¬ ((m : Int) + -1 * ((1 : Nat) : Int) < 0) := by omega
        have hnat : ((m : Int) + -1 * ((1 : Nat) : Int)).toNat = m - 1 := by omega
        unfold jsAdd
        simp only [hs, if_false, hnat]
        rw [toDouble_nat (m - 1) (by omega)]
        show (if ((m - 1 : Nat) : Int) < 0 then JsNumber.fin 0 1
          else JsNumber.fin ((m - 1 : Nat) : Int) 1) = JsNumber.fin ((m - 1 : Nat) : Int) 1
        rw [if_neg (by omega)]
  obtain ⟨k, hk, hkeq, hnum⟩ := hstep
  unfold newQuantityOf
  simp only [hparse, hnum]
  rw [formatQuantity_nat k hk u, parseQuantity_numeral_append k hk u htrim hlt hhead, hkeq]

/-- Witness for C12 (amended): "2개" steps to "3개" and "0g" stays at zero. -/
theorem step_parses_back_integer_witness :
    newQuantityOf "2개" 1 = "3개" ∧
    parseQuantity (newQuantityOf "2개" 1) =
      { number := JsNumber.fin (max 0 (((2 : Nat) : Int) + 1)) 1, unit := "개" } ∧
    parseQuantity (newQuantityOf "0g" (-1)) =
      { number := JsNumber.fin (max 0 (((0 : Nat) : Int) + -1)) 1, unit := "g" } :=
  ⟨by decide,
    step_parses_back_integer "2개" 2 "개" 1 (Or.inl rfl) (by decide) (by decide) (by decide),
    step_parses_back_integer "0g" 0 "g" (-1) (Or.inr rfl) (by decide) (by decide)
      (by decide)⟩

/-- C13 (counterexample). The text "abc" parses to the magnitude 0 and the empty
unit, not to the unit "abc". -/
theorem parseQuantity_abc_unit_empty :
    parseQuantity "abc" = { number := JsNumber.fin 0 1, unit := "" } ∧
    parseQuantity "abc" ≠ { number := JsNumber.fin 0 1, unit := jsTrim "abc" } := by
  decide

/-- C13 (amended). For every text that does not begin with a digit or a dot,
`parseQuantity` returns the magnitude 0 and the empty unit. -/
theorem parseQuantity_no_number (s : String)
    (h : ∀ c ∈ s.toList.head?, isDigitOrDot c = false) :
    parseQuantity s = { number := JsNumber.fin 0 1, unit := "" } := by
  have ht : s.toList.takeWhile isDigitOrDot = [] := by
    cases hs : s.toList with
    | nil => rfl
    | cons a t =>
      rw [hs] at h
      have := h a (by simp)
      simp [List.takeWhile, this]
  have hm : matchQuantity s.toList = none := by
    unfold matchQuantity
    simp only [ht]
    rw [if_pos (Or.inl trivial)]
  unfold parseQuantity
  rw [hm]

/-- Witness for C13 (amended): the texts "abc" and "-5". -/
theorem parseQuantity_no_number_witness :
    parseQuantity "abc" = { number := JsNumber.fin 0 1, unit := "" } ∧
    parseQuantity "-5" = { number := JsNumber.fin 0 1, unit := "" } :=
  ⟨parseQuantity_no_number "abc" (by decide), parseQuantity_no_number "-5" (by decide)⟩

/-- C14 (evaluation of the code). `saveQuantity` never rejects an entry: the
magnitude that `parseQuantity` returns is never `NaN` and never negative, so the
test `isNaN(number) || number < 0` never holds. The entries "abc" and "-5" are
stored as they are. -/
theorem saveQuantity_never_rejects :
    (∀ (st : EditState) (id : Nat), (saveQuantity st id none).1 = false) ∧
    saveQuantity { items := [riceItem], editingItemId := some 3, editingQuantity := "abc" }
        3 none =
      (false, { items := [{ riceItem with quantity := "abc" }], editingItemId := none,
                editingQuantity := "" }) ∧
    saveQuantity { items := [riceItem], editingItemId := some 3, editingQuantity := " -5 " }
        3 none =
      (false, { items := [{ riceItem with quantity := "-5" }], editingItemId := none,
                editingQuantity := "" }) := by
  refine ⟨?_, by decide, by decide⟩
  intro st id
  unfold saveQuantity
  simp only []
  split_ifs with h1 h2
  · exfalso
    obtain ⟨hn, hl⟩ := not_nan_of_nonNeg _ (parseQuantity_nonNeg (jsTrim st.editingQuantity))
    rw [hn, hl] at h2
    exact absurd h2 (by decide)
  · rfl
  · rfl

/-- C15. For every starting quantity text and every sequence of steps, the magnitude
parsed from the starting text and from every text the steps produce is not negative
(and is a number); so is the magnitude that each step computes before formatting. -/
theorem quantity_steps_nonNeg (t : String) (deltas : List Int) :
    (∀ q ∈ List.scanl newQuantityOf t deltas, (parseQuantity q).number.NonNeg) ∧
    (∀ q ∈ List.scanl newQuantityOf t deltas, ∀ delta : Int,
      (mathMaxZero (jsAdd (parseQuantity q).number delta)).NonNeg) :=
  ⟨fun q _ => parseQuantity_nonNeg q,
    fun q _ delta => mathMaxZero_jsAdd_nonNeg _ delta (parseQuantity_nonNeg q)⟩

/-! ## Expiry calculator and statistics: the properties -/

theorem fl_nat_value (K : Nat) (h : K < 2 ^ 53) :
    ((fl K 1).1 : ℚ) / ((fl K 1).2 : ℚ) = (K : ℚ) := by
  rcases Nat.eq_zero_or_pos K with h0 | h0
  · subst h0
    rw [fl_zero]
    simp
  · rw [fl_nat K h0 h]
    push_cast
    field_simp

/-- Dividing a natural number below `2 ^ 53` by a positive natural number in doubles
gives a quotient with the ceiling and the floor of the exact quotient. -/
theorem fl_quotient_ceil_floor (n c : Nat) (hn : n < 2 ^ 53) (hc : 0 < c) :
    ⌈((fl (fl n 1).1 ((fl n 1).2 * c)).1 : ℚ) / ((fl (fl n 1).1 ((fl n 1).2 * c)).2 : ℚ)⌉ =
      ⌈(n : ℚ) / (c : ℚ)⌉ ∧
    ⌊((fl (fl n 1).1 ((fl n 1).2 * c)).1 : ℚ) / ((fl (fl n 1).1 ((fl n 1).2 * c)).2 : ℚ)⌋ =
      ⌊(n : ℚ) / (c : ℚ)⌋ := by
  have hcq : (0 : ℚ) < (c : ℚ) := by exact_mod_cast hc
  have hc1 : (1 : ℚ) ≤ (c : ℚ) := by exact_mod_cast hc
  rcases Nat.eq_zero_or_pos n with h0 | h0
  · subst h0
    rw [fl_zero]
    simp only [fl_zero]
    simp
  · have hnq : (0 : ℚ) < (n : ℚ) := by exact_mod_cast h0
    have hn53 : (n : ℚ) < 2 ^ 53 := by exact_mod_cast hn
    rw [fl_nat n h0 hn]
    simp only []
    generalize scaleUp n 1 (52 + 1) 0 = s
    have hspos : 0 < 2 ^ s := Nat.pow_pos (by decide)
    have ha : 0 < n * 2 ^ s := Nat.mul_pos h0 hspos
    have hb : 0 < 2 ^ s * c := Nat.mul_pos hspos hc
    have hlt : n * 2 ^ s < 2 ^ 53 * (2 ^ s * c) := by
      calc n * 2 ^ s < 2 ^ 53 * 2 ^ s := Nat.mul_lt_mul_of_pos_right hn hspos
        _ = 2 ^ 53 * (2 ^ s * 1) := by rw [Nat.mul_one]
        _ ≤ 2 ^ 53 * (2 ^ s * c) :=
          Nat.mul_le_mul_left _ (Nat.mul_le_mul_left _ hc)
    have hx : ((n * 2 ^ s : Nat) : ℚ) / ((2 ^ s * c : Nat) : ℚ) = (n : ℚ) / (c : ℚ) := by
      push_cast
      field_simp
      ring
    obtain ⟨hD, hq1, hq2⟩ := fl_near (n * 2 ^ s) (2 ^ s * c) ha hb hlt
    obtain ⟨hup, hdown⟩ := ratio_bounds _ _ _ _ hD hb hq1 hq2
    rw [hx] at hup hdown
    have hmono := fl_mono (n * 2 ^ s) (2 ^ s * c)
    have hmono2 := fun K => fl_mono K 1 (n * 2 ^ s) (2 ^ s * c) Nat.one_pos hb
    rw [hx] at hmono
    simp only [hx] at hmono2
    generalize ((fl (n * 2 ^ s) (2 ^ s * c)).1 : ℚ) / ((fl (n * 2 ^ s) (2 ^ s * c)).2 : ℚ) = v
      at hup hdown hmono hmono2
    have hsmall : (n : ℚ) / c * (1 / 2 ^ 53) < 1 / c := by
      rw [div_mul_eq_mul_div]
      apply div_lt_div_of_pos_right _ hcq
      have h1 : (n : ℚ) * (1 / 2 ^ 53) < 2 ^ 53 * (1 / 2 ^ 53) :=
        mul_lt_mul_of_pos_right hn53 (by positivity)
      have h2 : (2 : ℚ) ^ 53 * (1 / 2 ^ 53) = 1 := by norm_num
      linarith
    have hxn : (n : ℚ) / c ≤ n := div_le_self hnq.le hc1
    have hxpos : (0 : ℚ) < (n : ℚ) / c := div_pos hnq hcq
    have hxc : (n : ℚ) / c * c = n := div_mul_cancel₀ _ hcq.ne'
    have hinv : (1 : ℚ) / c * c = 1 := div_mul_cancel₀ _ hcq.ne'
    constructor
    · have hk1 := Int.ceil_lt_add_one ((n : ℚ) / c)
      have hk2 := Int.le_ceil ((n : ℚ) / c)
      have hkn : ⌈(n : ℚ) / c⌉ ≤ (n : Int) := by
        rw [Int.ceil_le]
        exact_mod_cast hxn
      have hkpos : 0 < ⌈(n : ℚ) / c⌉ := Int.ceil_pos.mpr hxpos
      generalize ⌈(n : ℚ) / c⌉ = k at hk1 hk2 hkn hkpos
      obtain ⟨K, rfl⟩ : ∃ K : Nat, k = (K : Int) := ⟨k.toNat, by omega⟩
      have hK : K < 2 ^ 53 := by omega
      rw [Int.cast_natCast] at hk1 hk2
      rw [Int.ceil_eq_iff, Int.cast_natCast]
      constructor
      · have i1 : (K : ℚ) * c < n + c := by
          have := mul_lt_mul_of_pos_right hk1 hcq
          rw [add_mul, hxc, one_mul] at this
          exact this
        have i2 : K * c < n + c := by exact_mod_cast i1
        have i3 : K * c + 1 ≤ n + c := i2
        have i4 : (K : ℚ) * c + 1 ≤ n + c := by exact_mod_cast i3
        have i5 : ((K : ℚ) - 1 + 1 / c) * c ≤ (n : ℚ) / c * c := by
          rw [hxc, add_mul, hinv]
          linarith
        have i6 : (K : ℚ) - 1 + 1 / c ≤ (n : ℚ) / c := le_of_mul_le_mul_right i5 hcq
        linarith
      · have hm := hmono K 1 hb Nat.one_pos (by simpa using hk2)
        rw [fl_nat_value K hK] at hm
        exact hm
    · have hj1 := Int.floor_le ((n : ℚ) / c)
      have hj2 := Int.lt_floor_add_one ((n : ℚ) / c)
      have hjpos : 0 ≤ ⌊(n : ℚ) / c⌋ := Int.floor_nonneg.mpr hxpos.le
      generalize ⌊(n : ℚ) / c⌋ = j at hj1 hj2 hjpos
      obtain ⟨J, rfl⟩ : ∃ J : Nat, j = (J : Int) := ⟨j.toNat, by omega⟩
      rw [Int.cast_natCast] at hj1 hj2
      have hJn : (J : ℚ) ≤ n := le_trans hj1 hxn
      have hJn2 : J ≤ n := by exact_mod_cast hJn
      have hJ : J < 2 ^ 53 := by omega
      rw [Int.floor_eq_iff, Int.cast_natCast]
      constructor
      · have hm := hmono2 J (by simpa using hj1)
        rw [fl_nat_value J hJ] at hm
        exact hm
      · have i1 : (n : ℚ) < (J + 1) * c := by
          have := mul_lt_mul_of_pos_right hj2 hcq
          rw [hxc] at this
          exact this
        have i2 : n < (J + 1) * c := by exact_mod_cast i1
        have i3 : n + 1 ≤ (J + 1) * c := i2
        have i4 : (n : ℚ) + 1 ≤ (J + 1) * c := by exact_mod_cast i3
        have i5 : ((n : ℚ) / c + 1 / c) * c ≤ ((J : ℚ) + 1) * c := by
          rw [add_mul, hxc, hinv]
          exact i4
        have i6 : (n : ℚ) / c + 1 / c ≤ (J : ℚ) + 1 := le_of_mul_le_mul_right i5 hcq
        linarith

theorem flSigned_fst_natAbs (p : Int) (q : Nat) :
    (flSigned p q).1.natAbs = (fl p.natAbs q).1 := by
  unfold flSigned
  split_ifs <;> simp

/-- The day count computed from a difference of at most `2 ^ 53` milliseconds is
the ceiling of the exact quotient. -/
theorem days_of_difference_exact (d : Int) (h1 : -(2 ^ 53) ≤ d) (h2 : d ≤ 2 ^ 53) :
    mathCeil (flSigned (flSigned d 1).1 ((flSigned d 1).2 * msPerDay)) =
      ⌈(d : ℚ) / 86400000⌉ := by
  have hc : 0 < msPerDay := by decide
  have hcq : ((msPerDay : Nat) : ℚ) = 86400000 := by
    unfold msPerDay
    norm_num
  by_cases hmax : d = 2 ^ 53
  · subst hmax
    have e : mathCeil (flSigned (flSigned (2 ^ 53) 1).1 ((flSigned (2 ^ 53) 1).2 * msPerDay)) =
        104249992 := by decide
    rw [e]
    symm
    rw [Int.ceil_eq_iff]
    norm_num
  by_cases hmin : d = -(2 ^ 53)
  · subst hmin
    have e : mathCeil (flSigned (flSigned (-(2 ^ 53)) 1).1
        ((flSigned (-(2 ^ 53)) 1).2 * msPerDay)) = -104249991 := by decide
    rw [e]
    symm
    rw [Int.ceil_eq_iff]
    norm_num
  have hn : d.natAbs < 2 ^ 53 := by omega
  obtain ⟨hceil, hfloor⟩ := fl_quotient_ceil_floor d.natAbs msPerDay hn hc
  rw [hcq] at hceil hfloor
  rw [mathCeil_eq_ceil _ (flSigned_den_pos _ _)]
  by_cases hd : d < 0
  · have hpos : 0 < d.natAbs := by omega
    have hA : 0 < (fl d.natAbs 1).1 := by
      rw [fl_nat d.natAbs hpos hn]
      exact Nat.mul_pos hpos (Nat.pow_pos (by decide))
    have hp : (flSigned d 1).1 < 0 := by
      unfold flSigned
      simp only [hd, if_true]
      omega
    rw [flSigned_value_neg _ _ hp, flSigned_fst_natAbs, flSigned_den, Int.ceil_neg, hfloor,
      natAbs_cast_of_neg d hd, neg_div, Int.floor_neg, neg_neg]
  · have hp : 0 ≤ (flSigned d 1).1 := by
      unfold flSigned
      simp only [hd, if_false]
      omega
    rw [flSigned_value_nonneg _ _ hp, flSigned_fst_natAbs, flSigned_den, hceil,
      natAbs_cast_of_nonneg d (by omega)]

/-- C16 (counterexample). For the latest instant a date can hold and a current instant
more than `2 ^ 53` milliseconds before it, the difference is rounded to a double
before the division: the day count is 199999999, the ceiling of the exact quotient
is 200000000. -/
theorem getDaysUntilExpiry_far_apart_not_ceiling :
    sampleParseFar "+275760-09-13T00:00:00.000Z" = some 8640000000000000 ∧
    getDaysUntilExpiry sampleParseFar (-8639999913600001) "+275760-09-13T00:00:00.000Z" =
      199999999 ∧
    ⌈((8640000000000000 - (-8639999913600001) : Int) : ℚ) / 86400000⌉ = 200000000 := by
  refine ⟨by decide, by decide, ?_⟩
  rw [Int.ceil_eq_iff]
  norm_num

/-- C16 (amended). With the date parser and the current instant as inputs,
`getDaysUntilExpiry` returns 999 for a date text that does not parse; for one that
parses to an instant at most `2 ^ 53` milliseconds away from the current instant it
returns the ceiling of `(expiry - now) / 86 400 000`, that is the integer `d` with
`(d - 1) * 86 400 000 < expiry - now ≤ d * 86 400 000`. So an expiry instant less than
24 hours in the past (or equal to now) gives 0 and one at most 24 hours in the future
gives 1. -/
theorem getDaysUntilExpiry_ceiling_in_range (parseDate : String → Option Int) (now : Int)
    (date : String) :
    (parseDate date = none → getDaysUntilExpiry parseDate now date = 999) ∧
    (∀ expiry : Int, parseDate date = some expiry →
      (-(2 ^ 53) ≤ expiry - now → expiry - now ≤ 2 ^ 53 →
        getDaysUntilExpiry parseDate now date = ⌈((expiry - now : Int) : ℚ) / 86400000⌉ ∧
        (getDaysUntilExpiry parseDate now date - 1) * 86400000 < expiry - now ∧
        expiry - now ≤ getDaysUntilExpiry parseDate now date * 86400000) ∧
      (-86400000 < expiry - now → expiry - now ≤ 0 →
        getDaysUntilExpiry parseDate now date = 0) ∧
      (0 < expiry - now → expiry - now ≤ 86400000 →
        getDaysUntilExpiry parseDate now date = 1)) := by
  refine ⟨getDaysUntilExpiry_none parseDate now date, ?_⟩
  intro expiry h
  have hd : getDaysUntilExpiry parseDate now date =
      mathCeil (flSigned (flSigned (expiry - now) 1).1
        ((flSigned (expiry - now) 1).2 * msPerDay)) := by
    unfold getDaysUntilExpiry
    rw [h]
  have hrange : -(2 ^ 53) ≤ expiry - now → expiry - now ≤ 2 ^ 53 →
      getDaysUntilExpiry parseDate now date = ⌈((expiry - now : Int) : ℚ) / 86400000⌉ ∧
      (getDaysUntilExpiry parseDate now date - 1) * 86400000 < expiry - now ∧
      expiry - now ≤ getDaysUntilExpiry parseDate now date * 86400000 := by
    intro h1 h2
    have hc := days_of_difference_exact (expiry - now) h1 h2
    rw [← hd] at hc
    have hb := Int.ceil_eq_iff.mp hc.symm
    rw [lt_div_iff₀ (by norm_num), div_le_iff₀ (by norm_num)] at hb
    obtain ⟨b1, b2⟩ := hb
    refine ⟨hc, ?_, ?_⟩
    · exact_mod_cast b1
    · exact_mod_cast b2
  refine ⟨hrange, ?_, ?_⟩
  · intro h1 h2
    obtain ⟨_, b1, b2⟩ := hrange (by norm_num; omega) (by norm_num; omega)
    omega
  · intro h1 h2
    obtain ⟨_, b1, b2⟩ := hrange (by norm_num; omega) (by norm_num; omega)
    omega

/-- C17. `getExpiryStatus` selects one urgency bucket from the day count `days` of
`getDaysUntilExpiry`: the expired status iff `days < 0`, the due-today status iff
`days = 0`, the due-soon status iff `1 ≤ days ≤ 3`, the due-this-week status iff
`4 ≤ days ≤ 7` and the due-later status iff `days > 7`. The statuses are told apart
by their `color`. A date that does not parse (`days = 999`) gets the due-later
status. -/
theorem getExpiryStatus_bucket (parseDate : String → Option Int) (now : Int)
    (date : String) :
    ((getExpiryStatus parseDate now date).color = "text-red-600" ↔
      getDaysUntilExpiry parseDate now date < 0) ∧
    ((getExpiryStatus parseDate now date).color = "text-red-500" ↔
      getDaysUntilExpiry parseDate now date = 0) ∧
    ((getExpiryStatus parseDate now date).color = "text-orange-600" ↔
      1 ≤ getDaysUntilExpiry parseDate now date ∧
        getDaysUntilExpiry parseDate now date ≤ 3) ∧
    ((getExpiryStatus parseDate now date).color = "text-yellow-600" ↔
      4 ≤ getDaysUntilExpiry parseDate now date ∧
        getDaysUntilExpiry parseDate now date ≤ 7) ∧
    ((getExpiryStatus parseDate now date).color = "text-green-600" ↔
      7 < getDaysUntilExpiry parseDate now date) ∧
    (getDaysUntilExpiry parseDate now date < 0 →
      (getExpiryStatus parseDate now date).text = "유통기한 만료") ∧
    (getDaysUntilExpiry parseDate now date = 0 →
      (getExpiryStatus parseDate now date).text = "오늘 만료") ∧
    (0 < getDaysUntilExpiry parseDate now date →
      (getExpiryStatus parseDate now date).text =
        numberToString (JsNumber.fin (getDaysUntilExpiry parseDate now date) 1) ++
          "일 남음") ∧
    (parseDate date = none →
      (getExpiryStatus parseDate now date).color = "text-green-600") := by
  have h999 : parseDate date = none → getDaysUntilExpiry parseDate now date = 999 :=
    getDaysUntilExpiry_none parseDate now date
  unfold getExpiryStatus
  generalize getDaysUntilExpiry parseDate now date = days at h999 ⊢
  simp only []
  split_ifs with h1 h2 h3 h4
  · refine ⟨?_, ?_, ?_, ?_, ?_, ?_, ?_, ?_, fun hp => ?_⟩
    · simp; try omega
    · simp; try omega
    · simp; try omega
    · simp; try omega
    · simp; try omega
    · simp; try omega
    · simp; try omega
    · simp; try omega
    · have h9 := h999 hp
      first
        | rfl
        | (exfalso; omega)
  · refine ⟨?_, ?_, ?_, ?_, ?_, ?_, ?_, ?_, fun hp => ?_⟩
    · simp; try omega
    · simp; try omega
    · simp; try omega
    · simp; try omega
    · simp; try omega
    · simp; try omega
    · simp; try omega
    · simp; try omega
    · have h9 := h999 hp
      first
        | rfl
        | (exfalso; omega)
  · refine ⟨?_, ?_, ?_, ?_, ?_, ?_, ?_, ?_, fun hp => ?_⟩
    · simp; try omega
    · simp; try omega
    · simp; try omega
    · simp; try omega
    · simp; try omega
    · simp; try omega
    · simp; try omega
    · simp; try omega
    · have h9 := h999 hp
      first
        | rfl
        | (exfalso; omega)
  · refine ⟨?_, ?_, ?_, ?_, ?_, ?_, ?_, ?_, fun hp => ?_⟩
    · simp; try omega
    · simp; try omega
    · simp; try omega
    · simp; try omega
    · simp; try omega
    · simp; try omega
    · simp; try omega
    · simp; try omega
    · have h9 := h999 hp
      first
        | rfl
        | (exfalso; omega)
  · refine ⟨?_, ?_, ?_, ?_, ?_, ?_, ?_, ?_, fun hp => ?_⟩
    · simp; try omega
    · simp; try omega
    · simp; try omega
    · simp; try omega
    · simp; try omega
    · simp; try omega
    · simp; try omega
    · simp; try omega
    · rfl

/-- Five predicates of which every element satisfies exactly one split a list into
five parts whose lengths add up to the length of the list. -/
theorem five_way_partition {α : Type} (p1 p2 p3 p4 p5 : α → Bool) (l : List α)
    (h : ∀ a, (p1 a).toNat + (p2 a).toNat + (p3 a).toNat + (p4 a).toNat + (p5 a).toNat = 1) :
    (l.filter p1).length + (l.filter p2).length + (l.filter p3).length +
      (l.filter p4).length + (l.filter p5).length = l.length := by
  induction l with
  | nil => rfl
  | cons a rest ih =>
    have ha := h a
    simp only [List.filter_cons, List.length_cons]
    cases h1 : p1 a <;> cases h2 : p2 a <;> cases h3 : p3 a <;> cases h4 : p4 a <;>
      cases h5 : p5 a <;> simp [h1, h2, h3, h4, h5] at ha ⊢ <;> omega

/-- C18. For every item list, the five counts of `expiryStats` add up to the number
of items: every item, also one whose date does not parse, satisfies exactly one of
the five conditions. -/
theorem expiryStats_sum (parseDate : String → Option Int) (now : Int) (items : List Item) :
    (expiryStats parseDate now items).expired +
      (expiryStats parseDate now items).within3Days +
      (expiryStats parseDate now items).withinWeek +
      (expiryStats parseDate now items).withinMonth +
      (expiryStats parseDate now items).beyondMonth = items.length := by
  unfold expiryStats
  simp only []
  apply five_way_partition
  intro i
  generalize getDaysUntilExpiry parseDate now i.expiryDate = d
  by_cases h1 : d < 0
  · have h2 : ¬ (0 ≤ d) := by omega
    have h3 : ¬ (3 < d) := by omega
    have h4 : ¬ (7 < d) := by omega
    have h5 : ¬ (30 < d) := by omega
    simp [h1, h2, h3, h4, h5]
  · have h0 : 0 ≤ d := by omega
    by_cases h2 : d ≤ 3
    · have h3 : ¬ (3 < d) := by omega
      have h4 : ¬ (7 < d) := by omega
      have h5 : ¬ (30 < d) := by omega
      simp [h1, h0, h2, h3, h4, h5]
    · have h3b : 3 < d := by omega
      by_cases h3 : d ≤ 7
      · have h4 : ¬ (7 < d) := by omega
        have h5 : ¬ (30 < d) := by omega
        simp [h1, h0, h2, h3, h3b, h4, h5]
      · have h4b : 7 < d := by omega
        by_cases h4 : d ≤ 30
        · have h5 : ¬ (30 < d) := by omega
          simp [h1, h0, h2, h3, h3b, h4, h4b, h5]
        · have h5 : 30 < d := by omega
          simp [h1, h0, h2, h3, h3b, h4, h4b, h5]

/-! ## Category statistics and food categories: the properties -/

theorem objGet_cons (kv : String × Nat) (t : List (String × Nat)) (k : String) :
    objGet (kv :: t) k = if kv.1 = k then some kv.2 else objGet t k := by
  unfold objGet
  by_cases h : kv.1 = k
  · simp [List.find?_cons, h]
  · simp [List.find?_cons, h]

theorem objGet_map_update (o : List (String × Nat)) (key : String) (v : Nat) (k : String) :
    objGet (o.map (fun kv => if kv.1 = key then (key, v) else kv)) k =
      if k = key then (objGet o key).map (fun _ => v) else objGet o k := by
  induction o with
  | nil => simp [objGet]
  | cons kv t ih =>
    rw [List.map_cons, objGet_cons, ih, objGet_cons, objGet_cons]
    by_cases h1 : kv.1 = key
    · by_cases h2 : k = key
      · simp [h1, h2]
      · have h3 : ¬ (key = k) := fun h => h2 h.symm
        simp [h1, h2, h3]
    · by_cases h2 : k = key
      · subst h2
        simp [h1]
      · by_cases h3 : kv.1 = k
        · simp [h1, h2, h3]
        · simp [h1, h2, h3]

theorem objGet_append_single (o : List (String × Nat)) (key : String) (v : Nat) (k : String) :
    objGet (o ++ [(key, v)]) k =
      match objGet o k with
      | some w => some w
      | none => if k = key then some v else none := by
  induction o with
  | nil =>
    rw [List.nil_append, objGet_cons]
    by_cases h : key = k
    · simp [h, objGet]
    · have h2 : ¬ (k = key) := fun h3 => h h3.symm
      simp [h, h2, objGet]
  | cons kv t ih =>
    rw [List.cons_append, objGet_cons, ih, objGet_cons]
    by_cases h : kv.1 = k
    · simp [h]
    · simp [h]

theorem any_key_iff (o : List (String × Nat)) (key : String) :
    o.any (fun kv => kv.1 == key) = (objGet o key).isSome := by
  induction o with
  | nil => rfl
  | cons kv t ih =>
    rw [List.any_cons, ih, objGet_cons]
    by_cases h : kv.1 = key
    · simp [h]
    · simp [h]

/-- Reading a property after an assignment, for a key other than `__proto__`. -/
theorem objGet_objSet (o : List (String × Nat)) (key : String) (v : Nat) (k : String)
    (hkey : key ≠ "__proto__") :
    objGet (objSet o key v) k = if k = key then some v else objGet o k := by
  unfold objSet
  rw [if_neg hkey, any_key_iff]
  cases hget : objGet o key with
  | none =>
    simp only [Option.isSome_none, Bool.false_eq_true, if_false]
    rw [objGet_append_single]
    by_cases h : k = key
    · subst h
      simp [hget]
    · cases hk : objGet o k <;> simp [h]
  | some w =>
    simp only [Option.isSome_some, if_true]
    rw [objGet_map_update, hget]
    rfl

theorem categoryStats_append (items : List Item) (init : List String) (c : String) :
    categoryStats items (init ++ [c]) =
      objSet (categoryStats items init) c (items.filter (fun i => i.category == c)).length := by
  simp [categoryStats, List.foldl_append]

theorem objGet_categoryStats (items : List Item) (categories : List String) (cat : String) :
    objGet (categoryStats items categories) cat =
      if cat ∈ categories ∧ cat ≠ "__proto__" then
        some (items.filter (fun i => i.category == cat)).length
      else none := by
  induction categories using List.reverseRecOn with
  | nil => simp [categoryStats, objGet]
  | append_singleton init c ih =>
    rw [categoryStats_append]
    by_cases hc : c = "__proto__"
    · subst hc
      have hset : ∀ (o : List (String × Nat)) (v : Nat), objSet o "__proto__" v = o :=
        fun o v => by simp [objSet]
      rw [hset, ih]
      by_cases h1 : cat = "__proto__"
      · simp [h1]
      · simp [h1]
    · rw [objGet_objSet _ _ _ _ hc, ih]
      by_cases h1 : cat = c
      · subst h1
        simp [hc]
      · simp [h1]

/-- C19 (evaluation of the code). A category named `__proto__` gets no property in
`categoryStats`: the assignment `acc['__proto__'] = count` reaches the inherited
setter, which ignores a number. For every other label the claim holds: a listed
category is mapped to the number of items of that category (0 when there is none),
and a label that is not listed is not a property. -/
theorem categoryStats_proto_category :
    categoryStats [] ["채소", "__proto__"] = [("채소", 0)] ∧
    objGet (categoryStats [] ["채소", "__proto__"]) "__proto__" = none ∧
    (∀ (items : List Item) (categories : List String),
      objGet (categoryStats items categories) "__proto__" = none) ∧
    (∀ (items : List Item) (categories : List String) (cat : String), cat ≠ "__proto__" →
      objGet (categoryStats items categories) cat =
        if cat ∈ categories then some (items.filter (fun i => i.category == cat)).length
        else none) ∧
    categoryStats [] ["채소", "과일"] = [("채소", 0), ("과일", 0)] := by
  refine ⟨by decide, by decide, ?_, ?_, by decide⟩
  · intro items categories
    rw [objGet_categoryStats]
    simp
  · intro items categories cat hcat
    rw [objGet_categoryStats]
    simp [hcat]

/-- C20. `handleDeleteCategory` leaves the category list and the selection unchanged
when the list has exactly one entry. With two or more entries the new list is the
old one without the entries equal to `cat`, in the same order; the selection
becomes the first entry of the new list if it was `cat`, and is unchanged
otherwise. -/
theorem handleDeleteCategory_spec (categories : List String) (category : Option String)
    (cat : String) :
    (categories.length = 1 →
      handleDeleteCategory categories category cat = (categories, category)) ∧
    (2 ≤ categories.length →
      (handleDeleteCategory categories category cat).1 =
          categories.filter (fun c => c != cat) ∧
      cat ∉ (handleDeleteCategory categories category cat).1 ∧
      (handleDeleteCategory categories category cat).1.Sublist categories ∧
      (∀ c ∈ categories, c ≠ cat → c ∈ (handleDeleteCategory categories category cat).1) ∧
      (category = some cat →
        (handleDeleteCategory categories category cat).2 =
          (handleDeleteCategory categories category cat).1.head?) ∧
      (category ≠ some cat →
        (handleDeleteCategory categories category cat).2 = category)) := by
  constructor
  · intro h
    have hlen : ¬ (categories.length > 1) := by omega
    unfold handleDeleteCategory
    rw [if_neg hlen]
  · intro h
    have hlen : categories.length > 1 := by omega
    have heq : handleDeleteCategory categories category cat =
        (categories.filter (fun c => c != cat),
          if category = some cat then (categories.filter (fun c => c != cat)).head?
          else category) := by
      unfold handleDeleteCategory
      rw [if_pos hlen]
    rw [heq]
    refine ⟨rfl, ?_, List.filter_sublist _, ?_, ?_, ?_⟩
    · simp
    · intro c hc hne
      simp [hc, hne]
    · intro hs
      simp only [if_pos hs]
    · intro hs
      simp only [if_neg hs]

/-! ## Food categories: the invariant -/

theorem handleAdd_invariant (categories : List String) (newCategory : String)
    (hne : categories ≠ []) (hnd : categories.Nodup) :
    handleAdd categories newCategory ≠ [] ∧ (handleAdd categories newCategory).Nodup := by
  unfold handleAdd handleAddCategory
  split_ifs with h
  · refine ⟨by simp, ?_⟩
    have hnot : jsTrim newCategory ∉ categories := by
      have h2 := h
      simp at h2
      exact h2.2
    rw [List.nodup_append]
    refine ⟨hnd, List.nodup_singleton _, ?_⟩
    intro a ha hb
    simp only [List.mem_singleton] at hb
    rw [hb] at ha
    exact hnot ha
  · exact ⟨hne, hnd⟩

theorem filter_ne_nil_of_nodup (categories : List String) (cat : String)
    (hnd : categories.Nodup) (hlen : 1 < categories.length) :
    categories.filter (fun c => c != cat) ≠ [] := by
  match categories, hnd, hlen with
  | a :: b :: rest, hnd, _ =>
    have hab : a ≠ b := by
      intro h
      rw [h] at hnd
      simp at hnd
    intro hnil
    rw [List.filter_eq_nil_iff] at hnil
    have ha := hnil a (by simp)
    have hb := hnil b (by simp)
    simp only [bne_iff_ne, ne_eq, not_not] at ha hb
    exact hab (ha.trans hb.symm)

theorem handleDeleteCategory_invariant (categories : List String) (category : Option String)
    (cat : String) (hne : categories ≠ []) (hnd : categories.Nodup) :
    (handleDeleteCategory categories category cat).1 ≠ [] ∧
      (handleDeleteCategory categories category cat).1.Nodup := by
  by_cases h : categories.length > 1
  · have heq : (handleDeleteCategory categories category cat).1 =
        categories.filter (fun c => c != cat) := by
      unfold handleDeleteCategory
      rw [if_pos h]
    rw [heq]
    exact ⟨filter_ne_nil_of_nodup categories cat hnd h, hnd.filter _⟩
  · have heq : (handleDeleteCategory categories category cat).1 = categories := by
      unfold handleDeleteCategory
      rw [if_neg h]
    rw [heq]
    exact ⟨hne, hnd⟩

theorem runCategoryActions_invariant (actions : List CategoryAction) :
    (runCategoryActions actions).1 ≠ [] ∧ (runCategoryActions actions).1.Nodup := by
  unfold runCategoryActions
  induction actions using List.reverseRecOn with
  | nil => exact ⟨by decide, by decide⟩
  | append_singleton init a ih =>
    rw [List.foldl_append]
    simp only [List.foldl_cons, List.foldl_nil]
    cases a with
    | add newCategory => exact handleAdd_invariant _ newCategory ih.1 ih.2
    | delete cat => exact handleDeleteCategory_invariant _ _ cat ih.1 ih.2

/-- C21. Starting from the default categories, after any sequence of guarded
additions (`CategoryManager.handleAdd`) and deletions (`handleDeleteCategory`) the
food category list is not empty (and holds no label twice); in particular deleting
any label from a list reached in this way leaves a non-empty list. -/
theorem categories_never_empty (actions : List CategoryAction) :
    (runCategoryActions actions).1 ≠ [] ∧
    (runCategoryActions actions).1.Nodup ∧
    (∀ cat : String,
      (handleDeleteCategory (runCategoryActions actions).1 (runCategoryActions actions).2
        cat).1 ≠ []) := by
  obtain ⟨hne, hnd⟩ := runCategoryActions_invariant actions
  exact ⟨hne, hnd, fun cat => (handleDeleteCategory_invariant _ _ cat hne hnd).1⟩

/-! ## Store operations: the properties -/

/-- C22 (counterexample). A patch that carries an `id` overwrites the id of the
recipe it is merged into: the recipe with id 11 gets the id 99. -/
theorem updateRecipe_patch_id_overwrites :
    omelet.id = some 11 ∧ idPatch.id = some 99 ∧
    (updateRecipe [omelet, toast] (some 11) idPatch).map (fun r => r.id) =
      [some 99, some 12] := by
  decide

/-- C22 (amended). `updateRecipe` keeps the length and the order of the store and
replaces each recipe whose id is the given one by its merge with the patch, leaving
every other recipe as it is (so it does nothing when no recipe has that id). In the
merged recipe a field that the patch holds has the value of the patch and every
other field is kept; so the id is kept when the patch carries no `id`. -/
theorem updateRecipe_spec (recipes : List Recipe) (id : Option Nat) (updatedRecipe : Recipe) :
    (updateRecipe recipes id updatedRecipe).length = recipes.length ∧
    (∀ i : Nat, (updateRecipe recipes id updatedRecipe)[i]? =
      (recipes[i]?).map (fun r => if r.id = id then mergeRecipe r updatedRecipe else r)) ∧
    (∀ r : Recipe,
      (mergeRecipe r updatedRecipe).name =
          (match updatedRecipe.name with | some v => some v | none => r.name) ∧
      (mergeRecipe r updatedRecipe).description =
          (match updatedRecipe.description with | some v => some v | none => r.description) ∧
      (mergeRecipe r updatedRecipe).cookingTime =
          (match updatedRecipe.cookingTime with | some v => some v | none => r.cookingTime) ∧
      (mergeRecipe r updatedRecipe).ingredients =
          (match updatedRecipe.ingredients with | some v => some v | none => r.ingredients) ∧
      (mergeRecipe r updatedRecipe).url =
          (match updatedRecipe.url with | some v => some v | none => r.url) ∧
      (mergeRecipe r updatedRecipe).recipeCategory =
          (match updatedRecipe.recipeCategory with
            | some v => some v
            | none => r.recipeCategory) ∧
      (mergeRecipe r updatedRecipe).isCustom =
          (match updatedRecipe.isCustom with | some v => some v | none => r.isCustom) ∧
      (mergeRecipe r updatedRecipe).id =
          (match updatedRecipe.id with | some v => some v | none => r.id)) ∧
    (updatedRecipe.id = none → ∀ r : Recipe, (mergeRecipe r updatedRecipe).id = r.id) ∧
    ((∀ r ∈ recipes, r.id ≠ id) → updateRecipe recipes id updatedRecipe = recipes) ∧
    updateRecipe [omelet, toast] (some 11) formPatch =
      [{ formPatch with id := some 11, isCustom := some true }, toast] := by
  refine ⟨by simp [updateRecipe], fun i => by simp [updateRecipe], ?_, ?_, ?_, by decide⟩
  · intro r
    unfold mergeRecipe
    refine ⟨?_, ?_, ?_, ?_, ?_, ?_, ?_, ?_⟩
    · cases updatedRecipe.name <;> rfl
    · cases updatedRecipe.description <;> rfl
    · cases updatedRecipe.cookingTime <;> rfl
    · cases updatedRecipe.ingredients <;> rfl
    · cases updatedRecipe.url <;> rfl
    · cases updatedRecipe.recipeCategory <;> rfl
    · cases updatedRecipe.isCustom <;> rfl
    · cases updatedRecipe.id <;> rfl
  · intro h r
    unfold mergeRecipe
    simp only [h]
    rfl
  · intro h
    unfold updateRecipe
    conv_rhs => rw [← List.map_id recipes]
    apply List.map_congr_left
    intro r hr
    rw [if_neg (h r hr)]
    rfl

/-- C26. `deleteItem` and `deleteRecipe` return the entries whose id differs from the
given id, unchanged and in their original order; when no entry has that id the list
is returned as it is. -/
theorem delete_removes_exactly_id :
    (∀ (items : List Item) (id : Nat),
      deleteItem items id = items.filter (fun item => decide (item.id ≠ id)) ∧
      (∀ x : Item, x ∈ deleteItem items id ↔ x ∈ items ∧ x.id ≠ id) ∧
      (deleteItem items id).Sublist items ∧
      ((∀ x ∈ items, x.id ≠ id) → deleteItem items id = items)) ∧
    (∀ (recipes : List Recipe) (id : Option Nat),
      deleteRecipe recipes id = recipes.filter (fun r => decide (r.id ≠ id)) ∧
      (∀ x : Recipe, x ∈ deleteRecipe recipes id ↔ x ∈ recipes ∧ x.id ≠ id) ∧
      (deleteRecipe recipes id).Sublist recipes ∧
      ((∀ x ∈ recipes, x.id ≠ id) → deleteRecipe recipes id = recipes)) := by
  constructor
  · intro items id
    have heq : deleteItem items id = items.filter (fun item => decide (item.id ≠ id)) := by
      unfold deleteItem
      congr 1
      funext item
      by_cases h : item.id = id <;> simp [h]
    refine ⟨heq, ?_, ?_, ?_⟩
    · intro x
      rw [heq, List.mem_filter]
      simp
    · rw [heq]
      exact List.filter_sublist _
    · intro h
      rw [heq, List.filter_eq_self]
      intro x hx
      simpa using h x hx
  · intro recipes id
    have heq : deleteRecipe recipes id = recipes.filter (fun r => decide (r.id ≠ id)) := by
      unfold deleteRecipe
      congr 1
      funext r
      by_cases h : r.id = id <;> simp [h]
    refine ⟨heq, ?_, ?_, ?_⟩
    · intro x
      rw [heq, List.mem_filter]
      simp
    · rw [heq]
      exact List.filter_sublist _
    · intro h
      rw [heq, List.filter_eq_self]
      intro x hx
      simpa using h x hx

/-- C27. `updateItemQuantity` keeps the length and the order of the item list, gives
every item with the given id exactly the text `newQuantity` as quantity while keeping
its id, name, expiry date, category and added date, and leaves every other item as
it is; it does nothing when no item has that id. -/
theorem updateItemQuantity_spec (items : List Item) (id : Nat) (newQuantity : String) :
    (updateItemQuantity items id newQuantity).length = items.length ∧
    (∀ i : Nat, (updateItemQuantity items id newQuantity)[i]? =
      (items[i]?).map (fun item =>
        if item.id = id then
          { id := item.id, name := item.name, quantity := newQuantity,
            expiryDate := item.expiryDate, category := item.category,
            addedDate := item.addedDate }
        else item)) ∧
    ((∀ item ∈ items, item.id ≠ id) → updateItemQuantity items id newQuantity = items) := by
  refine ⟨by simp [updateItemQuantity], fun i => by simp [updateItemQuantity], ?_⟩
  intro h
  unfold updateItemQuantity
  conv_rhs => rw [← List.map_id items]
  apply List.map_congr_left
  intro item hitem
  rw [if_neg (h item hitem)]
  rfl

/-! ## Export and import: the properties -/

theorem filterMap_str_map (ings : List String) :
    (ings.map Json.str).filterMap (fun e => match e with
      | Json.str s => some s
      | _ => none) = ings := by
  induction ings with
  | nil => rfl
  | cons a t ih => simp [List.filterMap_cons, ih]

theorem jsonProp_append (l1 l2 : List (String × Json)) (k : String) :
    jsonProp (l1 ++ l2) k =
      match jsonProp l1 k with
      | some v => some v
      | none => jsonProp l2 k := by
  unfold jsonProp
  rw [List.find?_append]
  cases List.find? (fun kv => kv.1 == k) l1 <;> rfl

theorem jsonProp_optProp (k' k : String) (o : Option Json) :
    jsonProp (optProp k' o) k = if k' = k then o else none := by
  cases o with
  | none => simp [optProp, jsonProp]
  | some v =>
    by_cases h : k' = k
    · simp [optProp, jsonProp, h]
    · simp [optProp, jsonProp, h]

theorem jsonStr_map (o : Option String) : jsonStr (o.map Json.str) = o := by
  cases o <;> rfl

theorem jsonNum_map (o : Option Nat) : jsonNum (o.map Json.num) = o := by
  cases o <;> rfl

theorem jsonBool_map (o : Option Bool) : jsonBool (o.map Json.bool) = o := by
  cases o <;> rfl

theorem jsonStrings_map (o : Option (List String)) :
    jsonStrings (o.map (fun ings => Json.arr (ings.map Json.str))) = o := by
  cases o with
  | none => rfl
  | some ings =>
    show some ((ings.map Json.str).filterMap _) = some ings
    rw [filterMap_str_map]

/-- Reading back the JSON value of a recipe record gives the record. -/
theorem recipeOfJson_recipeToJson (r : Recipe) : recipeOfJson (recipeToJson r) = r := by
  obtain ⟨id, name, description, cookingTime, ingredients, url, recipeCategory, isCustom⟩ := r
  have hname : ∀ o : Option Json, (match o with | some v => some v | none => none) = o :=
    fun o => by cases o <;> rfl
  unfold recipeToJson recipeOfJson
  simp only [jsonProp_append, jsonProp_optProp]
  simp only [show ("name" = "id") = False from by decide,
    show ("description" = "id") = False from by decide,
    show ("cookingTime" = "id") = False from by decide,
    show ("ingredients" = "id") = False from by decide,
    show ("url" = "id") = False from by decide,
    show ("recipeCategory" = "id") = False from by decide,
    show ("isCustom" = "id") = False from by decide,
    show ("description" = "name") = False from by decide,
    show ("cookingTime" = "name") = False from by decide,
    show ("ingredients" = "name") = False from by decide,
    show ("url" = "name") = False from by decide,
    show ("recipeCategory" = "name") = False from by decide,
    show ("id" = "name") = False from by decide,
    show ("isCustom" = "name") = False from by decide,
    show ("name" = "description") = False from by decide,
    show ("cookingTime" = "description") = False from by decide,
    show ("ingredients" = "description") = False from by decide,
    show ("url" = "description") = False from by decide,
    show ("recipeCategory" = "description") = False from by decide,
    show ("id" = "description") = False from by decide,
    show ("isCustom" = "description") = False from by decide,
    show ("name" = "cookingTime") = False from by decide,
    show ("description" = "cookingTime") = False from by decide,
    show ("ingredients" = "cookingTime") = False from by decide,
    show ("url" = "cookingTime") = False from by decide,
    show ("recipeCategory" = "cookingTime") = False from by decide,
    show ("id" = "cookingTime") = False from by decide,
    show ("isCustom" = "cookingTime") = False from by decide,
    show ("name" = "ingredients") = False from by decide,
    show ("description" = "ingredients") = False from by decide,
    show ("cookingTime" = "ingredients") = False from by decide,
    show ("url" = "ingredients") = False from by decide,
    show ("recipeCategory" = "ingredients") = False from by decide,
    show ("id" = "ingredients") = False from by decide,
    show ("isCustom" = "ingredients") = False from by decide,
    show ("name" = "url") = False from by decide,
    show ("description" = "url") = False from by decide,
    show ("cookingTime" = "url") = False from by decide,
    show ("ingredients" = "url") = False from by decide,
    show ("recipeCategory" = "url") = False from by decide,
    show ("id" = "url") = False from by decide,
    show ("isCustom" = "url") = False from by decide,
    show ("name" = "recipeCategory") = False from by decide,
    show ("description" = "recipeCategory") = False from by decide,
    show ("cookingTime" = "recipeCategory") = False from by decide,
    show ("ingredients" = "recipeCategory") = False from by decide,
    show ("url" = "recipeCategory") = False from by decide,
    show ("id" = "recipeCategory") = False from by decide,
    show ("isCustom" = "recipeCategory") = False from by decide,
    show ("name" = "isCustom") = False from by decide,
    show ("description" = "isCustom") = False from by decide,
    show ("cookingTime" = "isCustom") = False from by decide,
    show ("ingredients" = "isCustom") = False from by decide,
    show ("url" = "isCustom") = False from by decide,
    show ("recipeCategory" = "isCustom") = False from by decide,
    show ("id" = "isCustom") = False from by decide,
    if_false, if_true, hname, jsonStr_map, jsonNum_map, jsonBool_map, jsonStrings_map]

theorem stampImported_eq_of_getElem? (freshId : Nat → Nat) (l : List Recipe) :
    ∀ i : Nat, (stampImported freshId 0 l)[i]? =
      (l[i]?).map (fun r => stampRecipe (freshId i) r) := by
  intro i
  rw [stampImported_getElem?, Nat.zero_add]

/-- C23. Export followed by import gives the collection back: for custom recipes with
a non-empty name, description and cooking time and a non-empty ingredient list, the
exported document, imported into an empty store, is accepted whole (the count is the
length of the collection) and the store then holds the same recipes in the same
order, each with all its fields except that the id is the one of the id
generator and `isCustom` is true. -/
theorem export_import_roundtrip (freshId : Nat → Nat) (customRecipes : List Recipe)
    (hvalid : ∀ r ∈ customRecipes,
      truthyStr r.name = true ∧ truthyStr r.description = true ∧
      truthyStr r.cookingTime = true ∧ 0 < (r.ingredients.getD []).length) :
    ∃ store : List Recipe,
      handleImport freshId [] (handleExportRecipes customRecipes) =
        some (customRecipes.length, store) ∧
      store.length = customRecipes.length ∧
      (∀ i : Nat, store[i]? =
        (customRecipes[i]?).map (fun r => stampRecipe (freshId i) r)) ∧
      (∀ (newId : Nat) (r : Recipe),
        (stampRecipe newId r).name = r.name ∧
        (stampRecipe newId r).description = r.description ∧
        (stampRecipe newId r).cookingTime = r.cookingTime ∧
        (stampRecipe newId r).ingredients = r.ingredients ∧
        (stampRecipe newId r).url = r.url ∧
        (stampRecipe newId r).recipeCategory = r.recipeCategory ∧
        (stampRecipe newId r).id = some newId ∧
        (stampRecipe newId r).isCustom = some true) := by
  have hdec : (customRecipes.map recipeToJson).map recipeOfJson = customRecipes := by
    rw [List.map_map]
    conv_rhs => rw [← List.map_id customRecipes]
    apply List.map_congr_left
    intro r _
    exact recipeOfJson_recipeToJson r
  have hfilter : customRecipes.filter isValidImport = customRecipes := by
    rw [List.filter_eq_self]
    intro r hr
    obtain ⟨h1, h2, h3, h4⟩ := hvalid r hr
    have h5 : r.ingredients.isSome = true := by
      cases hi : r.ingredients with
      | none =>
        rw [hi] at h4
        exact absurd h4 (by decide)
      | some ings => rfl
    simp [isValidImport, h1, h2, h3, h5]
  have hnull : (customRecipes.map recipeToJson).any isJsonNull = false := by
    rw [List.any_eq_false]
    intro x hx
    obtain ⟨r, _, rfl⟩ := List.mem_map.mp hx
    simp [recipeToJson, isJsonNull]
  have himp : handleImport freshId [] (handleExportRecipes customRecipes) =
      some (importRecipes freshId [] customRecipes) := by
    unfold handleImport handleExportRecipes
    simp only [hdec, hnull]
    rfl
  have hstamp : ∀ (newId : Nat) (r : Recipe),
      (stampRecipe newId r).name = r.name ∧
      (stampRecipe newId r).description = r.description ∧
      (stampRecipe newId r).cookingTime = r.cookingTime ∧
      (stampRecipe newId r).ingredients = r.ingredients ∧
      (stampRecipe newId r).url = r.url ∧
      (stampRecipe newId r).recipeCategory = r.recipeCategory ∧
      (stampRecipe newId r).id = some newId ∧
      (stampRecipe newId r).isCustom = some true :=
    fun _ _ => ⟨rfl, rfl, rfl, rfl, rfl, rfl, rfl, rfl⟩
  rcases customRecipes with _ | ⟨r0, rest⟩
  · exact ⟨[], by rw [himp]; rfl, rfl, fun i => by simp, hstamp⟩
  · refine ⟨stampImported freshId 0 (r0 :: rest), ?_, stampImported_length _ _ _,
      stampImported_eq_of_getElem? freshId _, hstamp⟩
    rw [himp]
    unfold importRecipes
    simp only [hfilter]
    simp

/-- Witness for C23: the store with the recipes Omelet and Toast. -/
theorem export_import_roundtrip_witness :
    handleImport (fun k => 100 + k) [] (handleExportRecipes [omelet, toast]) =
      some (2, [stampRecipe 100 omelet, stampRecipe 101 toast]) ∧
    ∃ store : List Recipe,
      handleImport (fun k => 100 + k) [] (handleExportRecipes [omelet, toast]) =
        some ([omelet, toast].length, store) ∧
      store.length = [omelet, toast].length ∧
      (∀ i : Nat, store[i]? =
        ([omelet, toast][i]?).map (fun r => stampRecipe ((fun k => 100 + k) i) r)) ∧
      (∀ (newId : Nat) (r : Recipe),
        (stampRecipe newId r).name = r.name ∧
        (stampRecipe newId r).description = r.description ∧
        (stampRecipe newId r).cookingTime = r.cookingTime ∧
        (stampRecipe newId r).ingredients = r.ingredients ∧
        (stampRecipe newId r).url = r.url ∧
        (stampRecipe newId r).recipeCategory = r.recipeCategory ∧
        (stampRecipe newId r).id = some newId ∧
        (stampRecipe newId r).isCustom = some true) :=
  ⟨by decide, export_import_roundtrip (fun k => 100 + k) [omelet, toast] (by decide)⟩

/-! ## Browsing all recipes: the properties -/

theorem jsIncludes_empty (s : String) : jsIncludes s "" = true := by
  unfold jsIncludes
  simp

theorem filterRecipeSearch_empty (toLowerCase : String → String)
    (hlower : toLowerCase "" = "") (recipes : List Recipe)
    (hname : ∀ r ∈ recipes, r.name.isSome = true) :
    filterRecipeSearch toLowerCase "" recipes = some recipes := by
  induction recipes with
  | nil => rfl
  | cons r rs ih =>
    have hr : r.name.isSome = true := hname r (by simp)
    have hrs := ih (fun x hx => hname x (by simp [hx]))
    obtain ⟨name, hn⟩ := Option.isSome_iff_exists.mp hr
    have hm : matchesRecipeSearch toLowerCase "" r = some true := by
      unfold matchesRecipeSearch
      rw [hn, hlower]
      simp only [jsIncludes_empty, if_true]
    unfold filterRecipeSearch
    rw [hm, hrs]
    rfl

theorem matchPercentageOf_zero (n : Nat) : matchPercentageOf 0 n = 0 := by
  simp [matchPercentageOf, fl, mathRound]

theorem any_name_eq_contains (items : List Item) (ing : String) :
    items.any (fun item => item.name == ing) = (items.map (fun i => i.name)).contains ing := by
  rw [Bool.eq_iff_iff]
  simp only [List.any_eq_true, beq_iff_eq, List.contains_iff_exists_mem_beq, List.mem_map]
  constructor
  · rintro ⟨x, hx, h⟩
    exact ⟨ing, ⟨x, hx, h⟩, rfl⟩
  · rintro ⟨a, ⟨x, hx, h⟩, ha⟩
    exact ⟨x, hx, by rw [h, ha]⟩

theorem annotateBrowse_matchCount (items : List Item) (r : Recipe) :
    (annotateBrowse items r).matchCount = matchCountOf (items.map (fun i => i.name)) r := by
  unfold annotateBrowse matchCountOf
  simp only []
  cases items with
  | nil =>
    cases r.ingredients with
    | none => rfl
    | some ings => simp
  | cons i rest =>
    cases r.ingredients with
    | none => simp
    | some ings =>
      simp only [List.length_cons, gt_iff_lt, Nat.zero_lt_succ, if_true]
      congr 2
      funext ing
      exact any_name_eq_contains (i :: rest) ing

/-- C24. With the empty search text and the category filter '전체', for recipes that
have a name (as every stored recipe has), the all-recipes list holds one annotated
entry per recipe, in input order, none dropped; the `matchCount` and
`matchPercentage` of an entry are the ones that `generateRecipes` computes for the
same recipe and items, `hasUrgent` is false, and with an empty item list both numbers
are 0. The case mapping is only required to map the empty text to itself. -/
theorem browseAll_annotates_every_recipe (toLowerCase : String → String)
    (parseDate : String → Option Int) (now : Int) (items : List Item)
    (customRecipes : List Recipe) (hlower : toLowerCase "" = "")
    (hname : ∀ r ∈ customRecipes, r.name.isSome = true) :
    browseAll toLowerCase items customRecipes "" "전체" =
        some ((RECIPE_DB ++ customRecipes).map (annotateBrowse items)) ∧
    (∀ r : Recipe,
      (annotateBrowse items r).recipe = r ∧
      (annotateBrowse items r).matchCount =
        (annotate (items.map (fun i => i.name)) (urgentItemsOf parseDate now items)
          r).matchCount ∧
      (annotateBrowse items r).matchPercentage =
        (annotate (items.map (fun i => i.name)) (urgentItemsOf parseDate now items)
          r).matchPercentage ∧
      (annotateBrowse items r).hasUrgent = false ∧
      (items = [] →
        (annotateBrowse items r).matchCount = 0 ∧
        (annotateBrowse items r).matchPercentage = 0)) := by
  constructor
  · unfold browseAll
    rw [filterRecipeSearch_empty toLowerCase hlower (RECIPE_DB ++ customRecipes) hname]
    simp
  · intro r
    have hmc := annotateBrowse_matchCount items r
    have hmp : (annotateBrowse items r).matchPercentage =
        matchPercentageOf (annotateBrowse items r).matchCount (ingredientCountOf r) := rfl
    refine ⟨rfl, hmc, ?_, rfl, ?_⟩
    · rw [hmp, hmc]
      rfl
    · intro hitems
      have h0 : (annotateBrowse items r).matchCount = 0 := by
        rw [hitems]
        rfl
      exact ⟨h0, by rw [hmp, h0, matchPercentageOf_zero]⟩

/-- Witness for C24: one egg in the inventory, the recipes Omelet and Toast. -/
theorem browseAll_annotates_every_recipe_witness :
    browseAll asciiLower [eggItem] [omelet, toast] "" "전체" =
        some [{ recipe := omelet, matchCount := 1, matchPercentage := 50, hasUrgent := false },
              { recipe := toast, matchCount := 0, matchPercentage := 0, hasUrgent := false }] ∧
    (browseAll asciiLower [eggItem] [omelet, toast] "" "전체" =
        some ((RECIPE_DB ++ [omelet, toast]).map (annotateBrowse [eggItem])) ∧
    (∀ r : Recipe,
      (annotateBrowse [eggItem] r).recipe = r ∧
      (annotateBrowse [eggItem] r).matchCount =
        (annotate ([eggItem].map (fun i => i.name)) (urgentItemsOf sampleParse 0 [eggItem])
          r).matchCount ∧
      (annotateBrowse [eggItem] r).matchPercentage =
        (annotate ([eggItem].map (fun i => i.name)) (urgentItemsOf sampleParse 0 [eggItem])
          r).matchPercentage ∧
      (annotateBrowse [eggItem] r).hasUrgent = false ∧
      ([eggItem] = [] →
        (annotateBrowse [eggItem] r).matchCount = 0 ∧
        (annotateBrowse [eggItem] r).matchPercentage = 0))) :=
  ⟨by decide,
    browseAll_annotates_every_recipe asciiLower sampleParse 0 [eggItem] [omelet, toast]
      (by decide) (by decide)⟩

/-! ## The item list: the properties -/

theorem mem_sortedItems (parseDate : String → Option Int) (now : Int) (items : List Item)
    (item : Item) : item ∈ sortedItems parseDate now items ↔ item ∈ items :=
  (List.perm_insertionSort _ items).mem_iff

theorem mem_filteredItems (toLowerCase : String → String) (parseDate : String → Option Int)
    (now : Int) (items : List Item) (searchQuery expiryFilter : String) (item : Item) :
    item ∈ filteredItems toLowerCase parseDate now items searchQuery expiryFilter ↔
      item ∈ items ∧
        showsItem toLowerCase parseDate now searchQuery expiryFilter item = true := by
  unfold filteredItems
  rw [List.mem_filter, mem_sortedItems]

/-- C25. An item of the list is shown by `filteredItems` under a window iff its name
matches the search text and its day count lies in the window: under '전체' always,
under '만료' iff `days < 0`, under '3일' iff `0 ≤ days ≤ 3`, under '1주일' iff
`0 ≤ days ≤ 7`, under '1개월' iff `0 ≤ days ≤ 30`, under '1개월+' iff `days > 30`.
So what is shown under '3일' is shown under '1주일', and what is shown under '1주일' is
shown under '1개월'. -/
theorem filteredItems_windows (toLowerCase : String → String)
    (parseDate : String → Option Int) (now : Int) (items : List Item) (searchQuery : String)
    (item : Item) :
    (item ∈ filteredItems toLowerCase parseDate now items searchQuery "전체" ↔
      item ∈ items ∧ jsIncludes (toLowerCase item.name) (toLowerCase searchQuery) = true) ∧
    (item ∈ filteredItems toLowerCase parseDate now items searchQuery "만료" ↔
      item ∈ items ∧ jsIncludes (toLowerCase item.name) (toLowerCase searchQuery) = true ∧
        getDaysUntilExpiry parseDate now item.expiryDate < 0) ∧
    (item ∈ filteredItems toLowerCase parseDate now items searchQuery "3일" ↔
      item ∈ items ∧ jsIncludes (toLowerCase item.name) (toLowerCase searchQuery) = true ∧
        0 ≤ getDaysUntilExpiry parseDate now item.expiryDate ∧
        getDaysUntilExpiry parseDate now item.expiryDate ≤ 3) ∧
    (item ∈ filteredItems toLowerCase parseDate now items searchQuery "1주일" ↔
      item ∈ items ∧ jsIncludes (toLowerCase item.name) (toLowerCase searchQuery) = true ∧
        0 ≤ getDaysUntilExpiry parseDate now item.expiryDate ∧
        getDaysUntilExpiry parseDate now item.expiryDate ≤ 7) ∧
    (item ∈ filteredItems toLowerCase parseDate now items searchQuery "1개월" ↔
      item ∈ items ∧ jsIncludes (toLowerCase item.name) (toLowerCase searchQuery) = true ∧
        0 ≤ getDaysUntilExpiry parseDate now item.expiryDate ∧
        getDaysUntilExpiry parseDate now item.expiryDate ≤ 30) ∧
    (item ∈ filteredItems toLowerCase parseDate now items searchQuery "1개월+" ↔
      item ∈ items ∧ jsIncludes (toLowerCase item.name) (toLowerCase searchQuery) = true ∧
        30 < getDaysUntilExpiry parseDate now item.expiryDate) ∧
    (item ∈ filteredItems toLowerCase parseDate now items searchQuery "3일" →
      item ∈ filteredItems toLowerCase parseDate now items searchQuery "1주일") ∧
    (item ∈ filteredItems toLowerCase parseDate now items searchQuery "1주일" →
      item ∈ filteredItems toLowerCase parseDate now items searchQuery "1개월") := by
  have h1 : showsItem toLowerCase parseDate now searchQuery "전체" item =
      jsIncludes (toLowerCase item.name) (toLowerCase searchQuery) := by
    simp [showsItem]
  have h2 : showsItem toLowerCase parseDate now searchQuery "만료" item =
      (jsIncludes (toLowerCase item.name) (toLowerCase searchQuery) &&
        decide (getDaysUntilExpiry parseDate now item.expiryDate < 0)) := by
    simp [showsItem]
  have h3 : showsItem toLowerCase parseDate now searchQuery "3일" item =
      (jsIncludes (toLowerCase item.name) (toLowerCase searchQuery) &&
        decide (getDaysUntilExpiry parseDate now item.expiryDate ≥ 0) &&
        decide (getDaysUntilExpiry parseDate now item.expiryDate ≤ 3)) := by
    simp [showsItem]
  have h4 : showsItem toLowerCase parseDate now searchQuery "1주일" item =
      (jsIncludes (toLowerCase item.name) (toLowerCase searchQuery) &&
        decide (getDaysUntilExpiry parseDate now item.expiryDate ≥ 0) &&
        decide (getDaysUntilExpiry parseDate now item.expiryDate ≤ 7)) := by
    simp [showsItem]
  have h5 : showsItem toLowerCase parseDate now searchQuery "1개월" item =
      (jsIncludes (toLowerCase item.name) (toLowerCase searchQuery) &&
        decide (getDaysUntilExpiry parseDate now item.expiryDate ≥ 0) &&
        decide (getDaysUntilExpiry parseDate now item.expiryDate ≤ 30)) := by
    simp [showsItem]
  have h6 : showsItem toLowerCase parseDate now searchQuery "1개월+" item =
      (jsIncludes (toLowerCase item.name) (toLowerCase searchQuery) &&
        decide (getDaysUntilExpiry parseDate now item.expiryDate > 30)) := by
    simp [showsItem]
  simp only [mem_filteredItems, h1, h2, h3, h4, h5, h6, Bool.and_eq_true, decide_eq_true_eq,
    ge_iff_le, gt_iff_lt]
  refine ⟨trivial, trivial, ?_, ?_, ?_, trivial, ?_, ?_⟩
  · tauto
  · tauto
  · tauto
  · rintro ⟨hi, ⟨hm, h0⟩, h3⟩
    exact ⟨hi, ⟨hm, h0⟩, by omega⟩
  · rintro ⟨hi, ⟨hm, h0⟩, h3⟩
    exact ⟨hi, ⟨hm, h0⟩, by omega⟩

/-- C28. For a date text that parses, the day count does not increase when the
current instant advances; for a date text that does not parse it is 999 at every
instant. -/
theorem getDaysUntilExpiry_antitone (parseDate : String → Option Int) (date : String) :
    (parseDate date ≠ none →
      ∀ now1 now2 : Int, now1 ≤ now2 →
        getDaysUntilExpiry parseDate now2 date ≤ getDaysUntilExpiry parseDate now1 date) ∧
    (parseDate date = none → ∀ now : Int, getDaysUntilExpiry parseDate now date = 999) := by
  constructor
  · intro _ now1 now2 hle
    exact getDaysUntilExpiry_mono parseDate date now1 now2 hle
  · intro hp now
    exact getDaysUntilExpiry_none parseDate now date hp

theorem itemLE_iff (parseDate : String → Option Int) (now : Int) (a b : Item) :
    itemLE parseDate now a b ↔
      getDaysUntilExpiry parseDate now a.expiryDate ≤
        getDaysUntilExpiry parseDate now b.expiryDate := by
  unfold itemLE compareItems
  omega

theorem itemLE_total (parseDate : String → Option Int) (now : Int) :
    IsTotal Item (itemLE parseDate now) := by
  constructor
  intro a b
  rw [itemLE_iff, itemLE_iff]
  omega

theorem itemLE_trans (parseDate : String → Option Int) (now : Int) :
    IsTrans Item (itemLE parseDate now) := by
  constructor
  intro a b c
  rw [itemLE_iff, itemLE_iff, itemLE_iff]
  omega

theorem sortedItems_sorted (parseDate : String → Option Int) (now : Int) (items : List Item) :
    (sortedItems parseDate now items).Pairwise (itemLE parseDate now) :=
  @List.sorted_insertionSort _ (itemLE parseDate now) _ (itemLE_total parseDate now)
    (itemLE_trans parseDate now) items

/-- C29 (counterexample). An item whose date parses to a day count above 999 is
sorted after an item whose date does not parse: the canned tuna, due in 2000 days,
comes after the jam with the date text "soon". -/
theorem sortedItems_malformed_not_last :
    sampleParse2 brokenItem.expiryDate = none ∧
    sampleParse2 cannedItem.expiryDate = some 172800000000 ∧
    getDaysUntilExpiry sampleParse2 0 cannedItem.expiryDate = 2000 ∧
    sortedItems sampleParse2 0 [cannedItem, brokenItem, eggItem] =
      [eggItem, brokenItem, cannedItem] := by
  decide

/-- C29 (amended). In the expiry-sorted list, which holds the same items as the item
list, an item whose date does not parse never stands before an item whose date
parses to a day count below 999: it comes after every such item. The day counts
never decrease along the list, and that of an item whose date does not parse is
999. -/
theorem sortedItems_malformed_after_below_999 (parseDate : String → Option Int) (now : Int)
    (items : List Item) :
    (sortedItems parseDate now items).Perm items ∧
    (sortedItems parseDate now items).Pairwise
      (fun a b => getDaysUntilExpiry parseDate now a.expiryDate ≤
        getDaysUntilExpiry parseDate now b.expiryDate) ∧
    (sortedItems parseDate now items).Pairwise
      (fun a b => parseDate a.expiryDate = none → parseDate b.expiryDate ≠ none →
        999 ≤ getDaysUntilExpiry parseDate now b.expiryDate) := by
  have hs := sortedItems_sorted parseDate now items
  refine ⟨List.perm_insertionSort _ items, ?_, ?_⟩
  · exact hs.imp (fun {a b} h => (itemLE_iff parseDate now a b).mp h)
  · refine hs.imp ?_
    intro a b h ha _
    have h1 := (itemLE_iff parseDate now a b).mp h
    have h2 : getDaysUntilExpiry parseDate now a.expiryDate = 999 :=
      getDaysUntilExpiry_none parseDate now a.expiryDate ha
    omega

/-! ## The integer round trip of a quantity -/

theorem digitsValue_append_zeros (X : List Char) (j : Nat) :
    digitsValue (X ++ List.replicate j '0') = digitsValue X * 10 ^ j := by
  induction j with
  | zero => simp
  | succ j ih =>
    rw [List.replicate_succ', ← List.append_assoc, digitsValue_append_singleton, ih, pow_succ]
    have : ('0' : Char).toNat - 48 = 0 := by decide
    rw [this]
    ring

theorem toDigitsCore_length : ∀ (k : Nat), 1 ≤ k → ∀ (fuel s : Nat) (ds : List Char),
    s < 10 ^ k → 10 ^ (k - 1) ≤ s → k ≤ fuel →
    (Nat.toDigitsCore 10 fuel s ds).length = k + ds.length := by
  intro k hk
  induction k, hk using Nat.le_induction with
  | base =>
    intro fuel s ds hs _ hf
    obtain ⟨f, rfl⟩ : ∃ f, fuel = f + 1 := ⟨fuel - 1, by omega⟩
    have hs2 : s < 10 := by simpa using hs
    simp [Nat.toDigitsCore, Nat.div_eq_of_lt hs2]
    omega
  | succ k hk ih =>
    intro fuel s ds hs hlo hf
    obtain ⟨f, rfl⟩ : ∃ f, fuel = f + 1 := ⟨fuel - 1, by omega⟩
    have hlo2 : 10 ^ k ≤ s := by simpa using hlo
    have hk2 : 10 ^ k = 10 ^ (k - 1) * 10 := by
      rw [← pow_succ]
      congr 1
      omega
    have hdlo : 10 ^ (k - 1) ≤ s / 10 := by
      rw [Nat.le_div_iff_mul_le (by decide)]
      omega
    have hpos : 0 < 10 ^ (k - 1) := Nat.pow_pos (by decide)
    have hdiv : s / 10 ≠ 0 := by omega
    have hdhi : s / 10 < 10 ^ k := by
      rw [Nat.div_lt_iff_lt_mul (by decide)]
      rw [pow_succ] at hs
      exact hs
    rw [Nat.toDigitsCore]
    simp only [hdiv, if_false]
    rw [ih f (s / 10) _ hdhi hdlo (by omega)]
    simp
    omega

/-- A number between `10 ^ (k - 1)` and `10 ^ k` has `k` decimal digits. -/
theorem toDigits_length (k s : Nat) (hk : 1 ≤ k) (hlo : 10 ^ (k - 1) ≤ s) (hhi : s < 10 ^ k) :
    (Nat.toDigits 10 s).length = k := by
  have hks : k ≤ s + 1 := by
    have := Nat.lt_pow_self (show 1 < 10 by decide) (k - 1)
    omega
  unfold Nat.toDigits
  rw [toDigitsCore_length k hk (s + 1) s [] hhi hlo hks]
  simp

theorem decimalExponentUp_spec (a : Nat) : ∀ (fuel n : Nat), 1 ≤ n → 10 ^ (n - 1) ≤ a →
    a < 10 ^ (n + fuel) →
    1 ≤ decimalExponentUp a 1 fuel n ∧ 10 ^ (decimalExponentUp a 1 fuel n - 1) ≤ a ∧
      a < 10 ^ decimalExponentUp a 1 fuel n := by
  intro fuel
  induction fuel with
  | zero =>
    intro n hn hlo hhi
    exact ⟨hn, hlo, by simpa using hhi⟩
  | succ f ih =>
    intro n hn hlo hhi
    rw [decimalExponentUp]
    by_cases h : a < 10 ^ n * 1
    · rw [if_pos h]
      exact ⟨hn, hlo, by simpa using h⟩
    · rw [if_neg h]
      apply ih (n + 1) (by omega)
      · simpa using h
      · rw [show n + 1 + f = n + (f + 1) by omega]
        exact hhi

/-- The decimal exponent of a positive integer is its number of digits. -/
theorem decimalExponent_nat (m : Nat) (hm : 1 ≤ m) :
    ∃ L : Nat, decimalExponent m 1 = (L : Int) ∧ 1 ≤ L ∧ 10 ^ (L - 1) ≤ m ∧ m < 10 ^ L := by
  refine ⟨decimalExponentUp m 1 (m + 1) 1, ?_, ?_⟩
  · unfold decimalExponent
    rw [if_pos hm]
    rfl
  · apply decimalExponentUp_spec m (m + 1) 1 (le_refl 1) (by simpa using hm)
    have := Nat.lt_pow_self (show 1 < 10 by decide) m
    have h2 : 10 ^ m ≤ 10 ^ (1 + (m + 1)) := Nat.pow_le_pow_right (by decide) (by omega)
    omega

theorem mkFin_one (m : Nat) : mkFin m 1 = JsNumber.fin m 1 := by
  unfold mkFin
  simp

theorem roundsTo_nat (m k s : Nat) (n : Int) (j : Nat) (hn : n = (j : Int)) (hk : k ≤ j) :
    roundsTo m 1 s n k = (toDouble (s * 10 ^ (j - k)) 1 == JsNumber.fin m 1) := by
  have h0 : 0 ≤ n - (k : Int) := by omega
  have h1 : (n - (k : Int)).toNat = j - k := by omega
  unfold roundsTo
  simp only [h0, if_true, h1, mkFin_one]

theorem select_some {α : Type} (P : α → Prop) (lowOk upOk : Bool) (c1 c2 c3 : Prop)
    [Decidable c1] [Decidable c2] [Decidable c3] (lo up r : α)
    (hlo : lowOk = true → P lo) (hup : upOk = true → P up)
    (h : (if (lowOk && upOk) = true then
            (if c1 then some lo else if c2 then some up else if c3 then some lo else some up)
          else if lowOk = true then some lo
          else if upOk = true then some up
          else none) = some r) : P r := by
  cases lowOk <;> cases upOk <;> simp at h hlo hup
  · rw [← h]
    exact hup
  · rw [← h]
    exact hlo
  · split_ifs at h <;> simp at h <;> rw [← h] <;> assumption

theorem toDouble_pow_21 : toDouble (10 ^ 21) 1 = JsNumber.fin (10 ^ 21) 1 := by
  decide

/-- A decimal found for an integer double `m` below `10 ^ 21` with `L` digits, at `k`
significant digits: `k` digits `s` and an exponent `n` from `k` to 21 such that
`s * 10 ^ (n - k)` rounds to `m`. -/
theorem shortestAt_integer (m L : Nat) (hL : 1 ≤ L) (hlo : 10 ^ (L - 1) ≤ m) (hhi : m < 10 ^ L)
    (h21 : m < 10 ^ 21) (hdbl : toDouble m 1 = JsNumber.fin m 1)
    (k : Nat) (hk1 : 1 ≤ k) (hkL : k ≤ L) (r : Nat × Int)
    (hr : shortestAt m 1 (L : Int) k = some r) :
    ∃ n : Nat, r.2 = (n : Int) ∧ k ≤ n ∧ n ≤ 21 ∧ 10 ^ (k - 1) ≤ r.1 ∧ r.1 < 10 ^ k ∧
      toDouble (r.1 * 10 ^ (n - k)) 1 = JsNumber.fin m 1 := by
  have hL21 : L ≤ 21 := by
    by_contra hc
    have : 10 ^ 21 ≤ 10 ^ (L - 1) := Nat.pow_le_pow_right (by decide) (by omega)
    omega
  have hA : (if 0 ≤ (k : Int) - (L : Int) then m * 10 ^ ((k : Int) - (L : Int)).toNat else m)
      = m := by
    split_ifs with h
    · have : (k : Int) - (L : Int) = 0 := by omega
      rw [this]
      simp
    · rfl
  have hB : (if 0 ≤ (k : Int) - (L : Int) then 1
      else 1 * 10 ^ (-((k : Int) - (L : Int))).toNat) = 10 ^ (L - k) := by
    split_ifs with h
    · have : L - k = 0 := by omega
      rw [this]
      simp
    · have : (-((k : Int) - (L : Int))).toNat = L - k := by omega
      rw [this, one_mul]
  have hpos : 0 < 10 ^ (L - k) := Nat.pow_pos (by decide)
  have hpk : 10 ^ (k - 1) * 10 ^ (L - k) = 10 ^ (L - 1) := by
    rw [← pow_add]
    congr 1
    omega
  have hpk2 : 10 ^ k * 10 ^ (L - k) = 10 ^ L := by
    rw [← pow_add]
    congr 1
    omega
  have hsLlo : 10 ^ (k - 1) ≤ m / 10 ^ (L - k) := by
    rw [Nat.le_div_iff_mul_le hpos, hpk]
    exact hlo
  have hsLhi : m / 10 ^ (L - k) < 10 ^ k := by
    rw [Nat.div_lt_iff_lt_mul hpos, hpk2]
    exact hhi
  unfold shortestAt at hr
  simp only [hA, hB] at hr
  by_cases hr0 : m % 10 ^ (L - k) = 0
  · rw [if_pos hr0] at hr
    cases hr
    refine ⟨L, rfl, hkL, hL21, hsLlo, hsLhi, ?_⟩
    show toDouble (m / 10 ^ (L - k) * 10 ^ (L - k)) 1 = JsNumber.fin m 1
    rw [Nat.div_mul_cancel (Nat.dvd_of_mod_eq_zero hr0)]
    exact hdbl
  · rw [if_neg hr0] at hr
    refine select_some
      (fun r : Nat × Int => ∃ n : Nat, r.2 = (n : Int) ∧ k ≤ n ∧ n ≤ 21 ∧ 10 ^ (k - 1) ≤ r.1 ∧
        r.1 < 10 ^ k ∧ toDouble (r.1 * 10 ^ (n - k)) 1 = JsNumber.fin m 1)
      _ _ _ _ _ _ _ r ?_ ?_ hr
    · intro hlow
      rw [roundsTo_nat m k _ (L : Int) L rfl hkL] at hlow
      exact ⟨L, rfl, hkL, hL21, hsLlo, hsLhi, eq_of_beq hlow⟩
    · intro hup
      by_cases hc : m / 10 ^ (L - k) + 1 = 10 ^ k
      · simp only [hc, if_true] at hup ⊢
        rw [roundsTo_nat m k _ ((L : Int) + 1) (L + 1) (by push_cast; rfl) (by omega)] at hup
        have hval := eq_of_beq hup
        have hL20 : L ≠ 21 := by
          intro h
          subst h
          have e : 10 ^ (k - 1) * 10 ^ (21 + 1 - k) = 10 ^ 21 := by
            rw [← pow_add]
            congr 1
            omega
          rw [e, toDouble_pow_21] at hval
          have := JsNumber.fin.inj hval
          omega
        refine ⟨L + 1, by push_cast; rfl, by omega, by omega, le_refl _, ?_, hval⟩
        exact Nat.pow_lt_pow_right (by decide) (by omega)
      · simp only [hc, if_false] at hup ⊢
        rw [roundsTo_nat m k _ (L : Int) L rfl hkL] at hup
        exact ⟨L, rfl, hkL, hL21, by omega, by omega, eq_of_beq hup⟩

theorem shortestAt_full (m L : Nat) :
    shortestAt m 1 (L : Int) L = some (m, (L : Int)) := by
  unfold shortestAt
  simp only [sub_self, le_refl, if_true, Int.toNat_zero, pow_zero, mul_one, Nat.mod_one,
    Nat.div_one]

/-- The digit search ends for an integer double `m` below `10 ^ 21`, with digits `s`
and an exponent `n` of at most 21, at least the number of digits, such that
`s * 10 ^ (n - k)` rounds to `m`. -/
theorem shortestDigits_integer (m L : Nat) (hL : 1 ≤ L) (hlo : 10 ^ (L - 1) ≤ m)
    (hhi : m < 10 ^ L) (h21 : m < 10 ^ 21) (hdbl : toDouble m 1 = JsNumber.fin m 1) :
    ∀ (fuel k : Nat), 1 ≤ k → k ≤ L → L - k < fuel →
    ∃ j n : Nat, 1 ≤ j ∧ (shortestDigits m 1 (L : Int) fuel k).2 = (n : Int) ∧ j ≤ n ∧ n ≤ 21 ∧
      10 ^ (j - 1) ≤ (shortestDigits m 1 (L : Int) fuel k).1 ∧
      (shortestDigits m 1 (L : Int) fuel k).1 < 10 ^ j ∧
      toDouble ((shortestDigits m 1 (L : Int) fuel k).1 * 10 ^ (n - j)) 1 = JsNumber.fin m 1 := by
  intro fuel
  induction fuel with
  | zero =>
    intro k _ _ h
    omega
  | succ f ih =>
    intro k hk1 hkL hf
    rw [shortestDigits]
    cases hs : shortestAt m 1 (L : Int) k with
    | some r =>
      obtain ⟨n, h1, h2, h3, h4, h5, h6⟩ :=
        shortestAt_integer m L hL hlo hhi h21 hdbl k hk1 hkL r hs
      exact ⟨k, n, hk1, h1, h2, h3, h4, h5, h6⟩
    | none =>
      have hne : k ≠ L := by
        intro h
        subst h
        rw [shortestAt_full] at hs
        cases hs
      exact ih (k + 1) (by omega) (by omega) (by omega)

/-- The text of an integer double above zero and below `10 ^ 21` by the general rule:
a non-empty string of digits that reads back as the same double. -/
theorem shortestToString_integer (m : Nat) (hm : 1 ≤ m) (h21 : m < 10 ^ 21)
    (hdbl : toDouble m 1 = JsNumber.fin m 1) :
    ∃ X : List Char, shortestToString m 1 = String.mk X ∧ X ≠ [] ∧
      (∀ c ∈ X, c.isDigit = true) ∧ toDouble (digitsValue X) 1 = JsNumber.fin m 1 := by
  obtain ⟨L, hLe, hL, hlo, hhi⟩ := decimalExponent_nat m hm
  have hL21 : L ≤ 21 := by
    by_contra hc
    have : 10 ^ 21 ≤ 10 ^ (L - 1) := Nat.pow_le_pow_right (by decide) (by omega)
    omega
  obtain ⟨j, n, hj, hn, hjn, hn21, hslo, hshi, hval⟩ :=
    shortestDigits_integer m L hL hlo hhi h21 hdbl 800 1 (le_refl 1) hL (by omega)
  obtain ⟨hne, hdig, hdv⟩ := toDigits_spec (shortestDigits m 1 (L : Int) 800 1).1
  have hlen := toDigits_length j _ hj hslo hshi
  refine ⟨Nat.toDigits 10 (shortestDigits m 1 (L : Int) 800 1).1 ++ List.replicate (n - j) '0',
    ?_, ?_, ?_, ?_⟩
  · unfold shortestToString formatDecimal
    simp only [hLe, hn, hlen]
    rw [if_pos (by constructor <;> omega)]
    simp
  · simp [hne]
  · intro c hc
    rw [List.mem_append] at hc
    rcases hc with hc | hc
    · exact hdig c hc
    · rw [List.eq_of_mem_replicate hc]
      decide
  · rw [digitsValue_append_zeros, hdv]
    exact hval

/-- Parsing a string of digits followed by a clean unit gives the double that the
digits read as, and the unit. -/
theorem parseQuantity_digits_append (X : List Char) (m : Nat) (hne : X ≠ [])
    (hdig : ∀ c ∈ X, c.isDigit = true)
    (hval : toDouble (digitsValue X) 1 = JsNumber.fin m 1) (u : String)
    (htrim : jsTrim u = u) (hlt : ∀ c ∈ u.toList, isLineTerminator c = false)
    (hhead : ∀ c ∈ u.toList.head?, isDigitOrDot c = false) :
    parseQuantity (String.mk X ++ u) = { number := JsNumber.fin m 1, unit := u } := by
  have hm : matchQuantity (String.mk X ++ u).toList = some (X, u.data) :=
    matchQuantity_numeral_append _ _ hne hdig (no_leading_of_trimmed u htrim) hlt hhead
  unfold parseQuantity
  rw [hm]
  simp only []
  rw [parseFloat_digits _ hne hdig, hval]
  have hu : jsTrim (String.mk u.data) = u := htrim
  rw [hu]
  have hz : jsOrZero (JsNumber.fin m 1) = JsNumber.fin m 1 := by
    show (if (m : Int) = 0 then JsNumber.fin 0 1 else JsNumber.fin m 1) = JsNumber.fin m 1
    split_ifs with h0
    · rw [h0]
    · rfl
  rw [hz]

/-- The text that `formatQuantity` builds for an integer double below `10 ^ 21`: a
non-empty string of digits that reads back as the same double, followed by the
unit. -/
theorem formatQuantity_integer (m : Nat) (h21 : m < 10 ^ 21)
    (hdbl : toDouble m 1 = JsNumber.fin m 1) :
    ∃ X : List Char, (∀ u : String, formatQuantity (JsNumber.fin m 1) u = String.mk X ++ u) ∧
      X ≠ [] ∧ (∀ c ∈ X, c.isDigit = true) ∧
      toDouble (digitsValue X) 1 = JsNumber.fin m 1 ∧
      (m ≤ 2 ^ 53 → X = Nat.toDigits 10 m) := by
  by_cases hm : m ≤ 2 ^ 53
  · obtain ⟨hne, hdig, hv⟩ := toDigits_spec m
    refine ⟨Nat.toDigits 10 m, fun u => formatQuantity_nat m hm u, hne, hdig, ?_, fun _ => rfl⟩
    rw [hv]
    exact hdbl
  · have hpos : 1 ≤ m := by
      have : 0 < 2 ^ 53 := by decide
      omega
    obtain ⟨X, hX, hne, hdig, hv⟩ := shortestToString_integer m hpos h21 hdbl
    refine ⟨X, ?_, hne, hdig, hv, fun h => absurd h hm⟩
    intro u
    have h1 : ¬ ((m : Int) = 0) := by omega
    have h2 : ¬ ((m : Int) < 0) := by omega
    have hnum : numberToString (JsNumber.fin m 1) = String.mk X := by
      unfold numberToString positiveToString
      simp only [h1, h2, if_false, Int.natAbs_ofNat]
      rw [if_neg (fun h => hm h.2)]
      exact hX
    have hempty : ∀ s : String, s ++ "" = s := fun s => by
      apply String.ext
      simp
    unfold formatQuantity jsIsZero
    by_cases hu : u = ""
    · subst hu
      simp [h1, hnum, hempty]
    · simp [h1, hu, hnum]

/-- C30 (counterexample). The integer `10 ^ 21` is a double; its text is in exponent
form, so with the empty unit `formatQuantity` gives "1e+21", which is not a decimal
numeral and parses to the magnitude 1 with the unit "e+21". -/
theorem integer_roundtrip_fails_at_1e21 :
    toDouble (10 ^ 21) 1 = JsNumber.fin ((10 ^ 21 : Nat) : Int) 1 ∧
    jsTrim "" = "" ∧
    formatQuantity (JsNumber.fin ((10 ^ 21 : Nat) : Int) 1) "" = "1e+21" ∧
    parseQuantity (formatQuantity (JsNumber.fin ((10 ^ 21 : Nat) : Int) 1) "") =
      { number := JsNumber.fin 1 1, unit := "e+21" } ∧
    parseQuantity (formatQuantity (JsNumber.fin ((10 ^ 21 : Nat) : Int) 1) "") ≠
      { number := JsNumber.fin ((10 ^ 21 : Nat) : Int) 1, unit := "" } := by
  decide

/-- C30 (amended). For every integer double `m` from 0 to below `10 ^ 21` and every
unit `u` that is trimmed, holds no line terminator and does not begin with a digit
or a dot, `parseQuantity (formatQuantity m u)` is the magnitude `m` with the unit
`u`. With the empty unit `formatQuantity` gives a bare non-empty string of decimal
digits that reads back as `m`; up to `2 ^ 53` it is the decimal numeral of `m`. -/
theorem integer_roundtrip_below_1e21 (m : Nat) (u : String) (h21 : m < 10 ^ 21)
    (hdbl : toDouble m 1 = JsNumber.fin m 1)
    (htrim : jsTrim u = u) (hlt : ∀ c ∈ u.toList, isLineTerminator c = false)
    (hhead : ∀ c ∈ u.toList.head?, isDigitOrDot c = false) :
    parseQuantity (formatQuantity (JsNumber.fin m 1) u) =
      { number := JsNumber.fin m 1, unit := u } ∧
    ∃ X : List Char, formatQuantity (JsNumber.fin m 1) "" = String.mk X ∧ X ≠ [] ∧
      (∀ c ∈ X, c.isDigit = true) ∧
      parseQuantity (String.mk X) = { number := JsNumber.fin m 1, unit := "" } ∧
      (m ≤ 2 ^ 53 → X = Nat.toDigits 10 m) := by
  obtain ⟨X, hX, hne, hdig, hv, hnum⟩ := formatQuantity_integer m h21 hdbl
  have hempty : ∀ s : String, s ++ "" = s := fun s => by
    apply String.ext
    simp
  refine ⟨?_, X, ?_, hne, hdig, ?_, hnum⟩
  · rw [hX u]
    exact parseQuantity_digits_append X m hne hdig hv u htrim hlt hhead
  · rw [hX "", hempty]
  · have := parseQuantity_digits_append X m hne hdig hv "" (by decide) (by decide) (by decide)
    rw [hempty] at this
    exact this

/-- Witness for C30 (amended): the magnitude `2 ^ 60`, above `2 ^ 53`, with the unit
"g". -/
theorem integer_roundtrip_below_1e21_witness :
    (2 ^ 60 < 10 ^ 21 ∧ toDouble (2 ^ 60) 1 = JsNumber.fin ((2 ^ 60 : Nat) : Int) 1) ∧
    formatQuantity (JsNumber.fin ((2 ^ 60 : Nat) : Int) 1) "g" = "1152921504606847000g" ∧
    parseQuantity (formatQuantity (JsNumber.fin ((2 ^ 60 : Nat) : Int) 1) "g") =
      { number := JsNumber.fin ((2 ^ 60 : Nat) : Int) 1, unit := "g" } :=
  ⟨by decide, by decide,
    (integer_roundtrip_below_1e21 (2 ^ 60) "g" (by decide) (by decide) (by decide) (by decide)
      (by decide)).1⟩

end FridgeMate
